import Mathlib

/-!
# code-analyser: AST semantic extractor and cross-file traversal

A shallow embedding of `src/ast/utility.js`, `src/checker/file-usage-checker.js`
and `src/src/utility/helper.js`.

JavaScript objects that are shared by identity (export tables, export
entities, per-importer maps and reference-count objects) live in a heap of
own-property maps and are named by their address.  The containers that the
code never stores inside another object (`filesMetadata.filesMapping`, its
file records, the scratch tables `importedVariablesMetadata` and
`importedVariables`, and the import records) are plain values.

Modelling boundary: the tables are read by their own properties; of the
properties inherited from `Object.prototype` those found by the lookup
`importedVariablesMetadata[name]` of `setExportedVariablesFromArray` are
modelled (`importedVariableOf`).  The own properties of string primitives and
the conversion of numeric strings to numbers are not modelled; counts are
mathematical integers.  A string is a well-formed text, the sequence of its
characters; the regular expression of `getLastFeasibleAddress`, which counts,
runs on its UTF-16 code units.  The `RegExp` constructor of the runtime is a
parameter of `parseComment`; `isFilePath` and the method `test` of a regular
expression are parameters of `isFileNotExcluded`.
-/

namespace CodeAnalyser

/-! ## Values, objects and the heap -/

/-- JavaScript values stored in the analyser's tables. -/
inductive Val where
  | undefined
  | null
  | bool (b : Bool)
  | num (n : Int)
  | nan
  | str (s : String)
  | ref (a : Nat)
  deriving DecidableEq, Repr

/-- Own properties of one object, in insertion order. -/
abbrev Props := List (String × Val)

/-- The heap: the object at address `a` is the `a`-th entry. -/
abbrev Heap := List Props

/-- How a call completes: normally, or by raising. -/
inductive Completion where
  | normal
  | throw
  deriving DecidableEq, Repr

/-- Value of `o[k]` on an own-property map (`undefined` when absent). -/
def propGet : Props → String → Val
  | [], _ => Val.undefined
  | (k', v) :: o, k => if k' = k then v else propGet o k

/-- Own-property map after `o[k] = v`. -/
def propSet : Props → String → Val → Props
  | [], k, v => [(k, v)]
  | (k', v') :: o, k, v => if k' = k then (k', v) :: o else (k', v') :: propSet o k v

/-- Replace the object at address `a` by `f` of it. -/
def updAt : Heap → Nat → (Props → Props) → Heap
  | [], _, _ => []
  | o :: h, 0, f => f o :: h
  | o :: h, a + 1, f => o :: updAt h a f

/-- Own property `k` of the object at address `a`. -/
def field (h : Heap) (a : Nat) (k : String) : Val :=
  match h[a]? with
  | some o => propGet o k
  | none => Val.undefined

/-- Evaluation of `v[k]`: a `TypeError` (`none`) on `undefined` and `null`,
`undefined` on the other primitives. -/
def readProp (h : Heap) (v : Val) (k : String) : Option Val :=
  match v with
  | Val.undefined => none
  | Val.null => none
  | Val.ref a => some (field h a k)
  | _ => some Val.undefined

/-- Evaluation of `v[k] = x`: a `TypeError` (`none`) on `undefined` and `null`,
ignored on the other primitives (the module is not in strict mode). -/
def writeProp (h : Heap) (v : Val) (k : String) (x : Val) : Option Heap :=
  match v with
  | Val.undefined => none
  | Val.null => none
  | Val.ref a => some (updAt h a (fun o => propSet o k x))
  | _ => some h

/-- JavaScript truthiness. -/
def truthy : Val → Bool
  | Val.undefined => false
  | Val.null => false
  | Val.bool b => b
  | Val.num n => n != 0
  | Val.nan => false
  | Val.str s => s != ""
  | Val.ref _ => true

/-- Conversion of a value to a property key. -/
def toKey : Val → String
  | Val.undefined => "undefined"
  | Val.null => "null"
  | Val.bool b => if b then "true" else "false"
  | Val.num n => toString n
  | Val.nan => "NaN"
  | Val.str s => s
  | Val.ref _ => "[object Object]"

/-- The value of `x + k` for an integer `k`, as in `x += k`. -/
def jsAdd (x : Val) (k : Int) : Val :=
  match x with
  | Val.undefined => Val.nan
  | Val.null => Val.num k
  | Val.bool b => Val.num ((if b then 1 else 0) + k)
  | Val.num n => Val.num (n + k)
  | Val.nan => Val.nan
  | Val.str s => Val.str (s ++ toString k)
  | Val.ref _ => Val.str ("[object Object]" ++ toString k)

/-- The value of `x - k` for an integer `k`, as in `x -= k`. -/
def jsSub (x : Val) (k : Int) : Val :=
  match x with
  | Val.undefined => Val.nan
  | Val.null => Val.num (0 - k)
  | Val.bool b => Val.num ((if b then 1 else 0) - k)
  | Val.num n => Val.num (n - k)
  | Val.nan => Val.nan
  | Val.str _ => Val.nan
  | Val.ref _ => Val.nan

/-! ## Records of the data model -/

/-- An import record, the result of `getNewImportVariableObject`. -/
structure ImportRecord where
  name : Val
  localName : Val
  type : String
  importedFrom : String
  referenceCountObject : Val
  deriving DecidableEq, Repr

/-- One entry of `filesMetadata.filesMapping`, by the properties the code
reads; `webpackChunkConfiguration` is `undefined` on a record without it. -/
structure FileRecord where
  isEntryFile : Val
  exportedVariables : Val
  webpackChunkConfiguration : Val := Val.undefined
  deriving DecidableEq, Repr

/-- The process-wide `filesMetadata`; the regular expression
`excludedFilesRegex` is kept by its source. -/
structure FilesMetadata where
  filesMapping : List (String × FileRecord)
  visitedFilesMapping : List String
  unparsableVistedFiles : Int
  excludedFilesRegex : String
  deriving DecidableEq, Repr

/-- The scratch `currentFileMetadata` of the file being walked. -/
structure CurrentFileMetadata where
  fileLocation : String
  isEntryFile : Val
  importedVariablesMetadata : List (String × ImportRecord)
  importedVariables : Props
  exportedVariables : Val
  deriving DecidableEq, Repr

/-- Lookup in a string-keyed table. -/
def tableGet {α : Type} : List (String × α) → String → Option α
  | [], _ => none
  | (k', v) :: t, k => if k' = k then some v else tableGet t k

/-- String-keyed table after `t[k] = v`. -/
def tableSet {α : Type} : List (String × α) → String → α → List (String × α)
  | [], k, v => [(k, v)]
  | (k', v') :: t, k, v => if k' = k then (k', v) :: t else (k', v') :: tableSet t k v

/-- Evaluation of `filesMetadata.filesMapping[address].exportedVariables`
(`none` is the `TypeError` raised when the file has no record). -/
def exportedVariablesOf (fm : FilesMetadata) (address : String) : Option Val :=
  match tableGet fm.filesMapping address with
  | some r => some r.exportedVariables
  | none => none

/-! ## Syntax-tree nodes read by the extractor -/

/-- An import specifier: `type`, `local.name` and, for an `ImportSpecifier`,
`imported.name` (`undefined` when `imported` is a string literal). -/
structure ImportSpecifierNode where
  type : String
  localName : String
  importedName : Val
  deriving DecidableEq, Repr

/-- A specifier of an `export ... from` statement: `exported.name` and, when
`local` is present, `local.name`. -/
structure ExportSpecifierNode where
  exportedName : Val
  localName : Option Val
  deriving DecidableEq, Repr

/-- A property of an object expression: `key.name` and `value.name` for the
children that are present. -/
structure ObjectPropertyNode where
  key : Option Val
  value : Option Val
  deriving DecidableEq, Repr

/-- The `declaration` child of an export statement, by the fields the
extractor reads: `name`, `declarations` (the `id.name` of each declarator),
`id` (its `name`) and `left` (its `name`). -/
structure DeclarationNode where
  name : Val
  declarations : Option (List Val)
  id : Option Val
  left : Option Val
  deriving DecidableEq, Repr

/-- The node handed to `getValuesFromStatement`, by the fields it reads. -/
structure ExportNode where
  type : String
  name : Val
  properties : List ObjectPropertyNode
  specifiers : Option (List ExportSpecifierNode)
  declaration : Option DeclarationNode
  deriving DecidableEq, Repr

/-- One element of the array returned by `getValuesFromStatement`: the
object with the single computed key `key` and the value `value`. -/
structure KeyValuePair where
  key : String
  value : Val
  deriving DecidableEq, Repr

/-- An element of a destructuring pattern: a hole of an array pattern
(`null`), an `ObjectProperty` with `key.name` and `value.name`, an
`Identifier` with its name, or a node of another type. -/
inductive PatternElement where
  | hole
  | objectProperty (keyName : Val) (valueName : Val)
  | identifier (name : String)
  | other
  deriving DecidableEq, Repr

/-- The binding node of a `require` or dynamic `import`: an `Identifier`, an
`ObjectPattern` with its properties, an `ArrayPattern` with its elements, or
a node of another type. -/
inductive BindingNode where
  | identifier (name : String)
  | objectPattern (properties : List PatternElement)
  | arrayPattern (elements : List PatternElement)
  | other
  deriving DecidableEq, Repr

/-! ## `src/ast/utility.js` -/

/-- The function `getNewImportVariableObject`: allocates the reference-count
object and returns the import record that holds it. -/
def getNewImportVariableObject (h : Heap) (name localName : Val) (type : String)
    (importedFileAddress : String) (count : Val) : ImportRecord × Heap :=
  ({ name := name
     localName := localName
     type := type
     importedFrom := importedFileAddress
     referenceCountObject := Val.ref h.length },
   h ++ [[("referenceCount", count), ("exportReferenceCount", Val.num 0)]])

/-- The function `setImportedVariableInCurrentFileMetadata`. -/
def setImportedVariableInCurrentFileMetadata (specifier : ImportSpecifierNode)
    (importedFileAddress : String) (traverseType : String)
    (cm : CurrentFileMetadata) (fm : FilesMetadata) (h : Heap) :
    CurrentFileMetadata × Heap :=
  let localEntityName := specifier.localName
  let named := specifier.type = "ImportSpecifier" ∨ specifier.type = "ImportDefaultSpecifier"
  let importedEntityName : Val :=
    if named then
      (if specifier.type = "ImportSpecifier" then specifier.importedName
       else Val.str "default")
    else Val.str localEntityName
  let type := if named then "INDIVIDUAL_IMPORT" else "ALL_EXPORTS_IMPORTED"
  let (record, h1) := getNewImportVariableObject h importedEntityName
    (Val.str localEntityName) type importedFileAddress (Val.num 0)
  let cm1 := { cm with
    importedVariablesMetadata := tableSet cm.importedVariablesMetadata localEntityName record }
  if traverseType = "CHECK_USAGE" then
    if type = "ALL_EXPORTS_IMPORTED" then
      match exportedVariablesOf fm importedFileAddress with
      | some t =>
        ({ cm1 with importedVariables := propSet cm1.importedVariables localEntityName t }, h1)
      | none => (cm1, h1)
    else if type = "INDIVIDUAL_IMPORT" then
      match exportedVariablesOf fm importedFileAddress with
      | some t =>
        match readProp h1 t (toKey importedEntityName) with
        | some v =>
          ({ cm1 with importedVariables := propSet cm1.importedVariables localEntityName v }, h1)
        | none => (cm1, h1)
      | none => (cm1, h1)
    else (cm1, h1)
  else (cm1, h1)

/-- The function `setImportedVariablesFromExportFromStatementSpecifier`. -/
def setImportedVariablesFromExportFromStatementSpecifier (specifier : ExportSpecifierNode)
    (cm : CurrentFileMetadata) (importedFileAddress : String) (h : Heap) :
    CurrentFileMetadata × Heap :=
  let exportName := specifier.exportedName
  let importName : Val :=
    match specifier.localName with
    | some n => n
    | none => exportName
  let type :=
    match specifier.localName with
    | some _ => "INDIVIDUAL_IMPORT"
    | none => "ALL_EXPORTS_IMPORTED"
  let (record, h1) := getNewImportVariableObject h exportName importName type
    importedFileAddress (Val.num 0)
  ({ cm with
     importedVariablesMetadata := tableSet cm.importedVariablesMetadata (toKey importName) record },
   h1)

/-- The function `getNewDefaultObject`: allocates the per-importer map and the
export entity, and returns the entity's address. -/
def getNewDefaultObject (h : Heap) (fileLocation : String) (name : Val)
    (isEntryFileObject : Val) : Nat × Heap :=
  let name1 := if name = Val.undefined then Val.str "default" else name
  let isEntry1 := if isEntryFileObject = Val.undefined then Val.bool false else isEntryFileObject
  (h.length + 1,
   h ++ [[],
         [("localName", name1),
          ("firstReferencedAt", Val.str fileLocation),
          ("referenceCount", Val.num 0),
          ("isEntryFileObject", isEntry1),
          ("individualFileReferencesMapping", Val.ref h.length)]])

/-- The function `getLocalNameFromProperty` (`none` is the `TypeError` raised
on a hole). -/
def getLocalNameFromProperty : PatternElement → Option Val
  | PatternElement.hole => none
  | PatternElement.objectProperty _ valueName => some valueName
  | PatternElement.identifier name => some (Val.str name)
  | PatternElement.other => some (Val.str "default")

/-- The function `getImportedNameFromProperty` (`none` is the `TypeError`
raised on a hole). -/
def getImportedNameFromProperty : PatternElement → Option Val
  | PatternElement.hole => none
  | PatternElement.objectProperty keyName _ => some keyName
  | PatternElement.identifier name => some (Val.str name)
  | PatternElement.other => some (Val.str "default")

/-- Strict equality `===`. -/
def strictEq (x y : Val) : Bool :=
  match x, y with
  | Val.nan, _ => false
  | _, Val.nan => false
  | _, _ => decide (x = y)

/-- The statement `target.referenceCount -= k` (`none` is the `TypeError`
raised when `target` is `undefined` or `null`). -/
def subtractReferenceCount (h : Heap) (target : Val) (k : Int) : Option Heap :=
  match readProp h target "referenceCount" with
  | some old => writeProp h target "referenceCount" (jsSub old k)
  | none => none

/-- The statement `target.referenceCount += k` (`none` is the `TypeError`
raised when `target` is `undefined` or `null`). -/
def addReferenceCount (h : Heap) (target : Val) (k : Int) : Option Heap :=
  match readProp h target "referenceCount" with
  | some old => writeProp h target "referenceCount" (jsAdd old k)
  | none => none

/-- The constant `valueToMultiplyWith` of
`updateImportedVariablesReferenceCountInRequireOrDynamicImportStatements`. -/
def valueToMultiplyWith (addReferences : Bool) : Int :=
  if addReferences then 1 else -1

/-- Body of the `forEach` callback of
`updateImportedVariablesReferenceCountInRequireOrDynamicImportStatements` for
one property of the pattern. -/
def updatePatternProperty (isObjectPattern : Bool) (valueToMultiplyWith : Int)
    (importedFileAddress : String) (fm : FilesMetadata) (type : String)
    (property : PatternElement) (cm : CurrentFileMetadata) (h : Heap) :
    CurrentFileMetadata × Heap × Completion :=
  match getImportedNameFromProperty property, getLocalNameFromProperty property with
  | some importedEntityName, some localEntityName =>
    let importReferenceCount : Int :=
      if strictEq importedEntityName localEntityName && isObjectPattern then 2 else 1
    match exportedVariablesOf fm importedFileAddress with
    | none => (cm, h, Completion.normal)
    | some t =>
      match readProp h t (toKey importedEntityName) with
      | none => (cm, h, Completion.normal)
      | some v =>
        let cm1 := { cm with
          importedVariables := propSet cm.importedVariables (toKey localEntityName) v }
        if type = "DONT_UPDATE_REFERENCE_COUNT" then
          match subtractReferenceCount h (propGet cm1.importedVariables (toKey localEntityName))
              (importReferenceCount * valueToMultiplyWith) with
          | some h1 => (cm1, h1, Completion.normal)
          | none => (cm1, h, Completion.normal)
        else (cm1, h, Completion.normal)
  | _, _ => (cm, h, Completion.throw)

/-- The `forEach` loop over the properties of a pattern: an error raised by
the callback ends the loop. -/
def updatePatternProperties (isObjectPattern : Bool) (valueToMultiplyWith : Int)
    (importedFileAddress : String) (fm : FilesMetadata) (type : String) :
    List PatternElement → CurrentFileMetadata → Heap →
    CurrentFileMetadata × Heap × Completion
  | [], cm, h => (cm, h, Completion.normal)
  | property :: rest, cm, h =>
    match updatePatternProperty isObjectPattern valueToMultiplyWith importedFileAddress fm type
        property cm h with
    | (cm1, h1, Completion.normal) =>
      updatePatternProperties isObjectPattern valueToMultiplyWith importedFileAddress fm type
        rest cm1 h1
    | (cm1, h1, Completion.throw) => (cm1, h1, Completion.throw)

/-- The function
`updateImportedVariablesReferenceCountInRequireOrDynamicImportStatements`;
`node = none` is the absent binding node. -/
def updateImportedVariablesReferenceCountInRequireOrDynamicImportStatements
    (node : Option BindingNode) (addReferences : Bool) (cm : CurrentFileMetadata)
    (importedFileAddress : String) (fm : FilesMetadata) (type : String) (h : Heap) :
    CurrentFileMetadata × Heap × Completion :=
  let valueToMultiplyWith : Int := valueToMultiplyWith addReferences
  match node with
  | none =>
    match exportedVariablesOf fm importedFileAddress with
    | none => (cm, h, Completion.throw)
    | some t =>
      match readProp h t "default" with
      | none => (cm, h, Completion.throw)
      | some exportedVariable =>
        match addReferenceCount h exportedVariable (1 * valueToMultiplyWith) with
        | some h1 => (cm, h1, Completion.normal)
        | none => (cm, h, Completion.throw)
  | some (BindingNode.identifier localEntityName) =>
    match exportedVariablesOf fm importedFileAddress with
    | none => (cm, h, Completion.normal)
    | some t =>
      let cm1 := { cm with
        importedVariables := propSet cm.importedVariables localEntityName t }
      if type = "DONT_UPDATE_REFERENCE_COUNT" then
        match subtractReferenceCount h (propGet cm1.importedVariables localEntityName)
            (1 * valueToMultiplyWith) with
        | some h1 => (cm1, h1, Completion.normal)
        | none => (cm1, h, Completion.normal)
      else (cm1, h, Completion.normal)
  | some (BindingNode.objectPattern properties) =>
    updatePatternProperties true valueToMultiplyWith importedFileAddress fm type properties cm h
  | some (BindingNode.arrayPattern elements) =>
    updatePatternProperties false valueToMultiplyWith importedFileAddress fm type elements cm h
  | some BindingNode.other => (cm, h, Completion.normal)

/-- The function `getValuesFromStatement` (`none` is the result `undefined`
of the branch that ends without a `return`). -/
def getValuesFromStatement (nodeToGetValues : ExportNode) (type : String) :
    Option (List KeyValuePair) :=
  if nodeToGetValues.type = "Identifier" then
    some [{ key := toKey nodeToGetValues.name, value := Val.str "" }]
  else if nodeToGetValues.type = "ObjectExpression" then
    some (nodeToGetValues.properties.filterMap (fun property =>
      match property.value, property.key with
      | some valueName, some keyName =>
        if truthy valueName then some { key := toKey keyName, value := valueName }
        else some { key := toKey keyName, value := keyName }
      | _, _ => none))
  else
    match nodeToGetValues.specifiers with
    | some (specifier :: specifiers) =>
      some ((specifier :: specifiers).map (fun sp =>
        match sp.localName with
        | some localName => { key := toKey localName, value := sp.exportedName }
        | none => { key := toKey sp.exportedName, value := sp.exportedName }))
    | _ =>
      match nodeToGetValues.declaration with
      | some declaration =>
        if truthy declaration.name then
          some [{ key := toKey declaration.name, value := Val.str "default" }]
        else
          match declaration.declarations with
          | some declarations =>
            some (declarations.filterMap (fun idName =>
              if truthy idName then some { key := toKey idName, value := idName } else none))
          | none =>
            match declaration.id with
            | some idName =>
              if type = "default" then some [{ key := toKey idName, value := Val.str "default" }]
              else some [{ key := toKey idName, value := idName }]
            | none =>
              match declaration.left with
              | some _ => none
              | none => some [{ key := "default", value := Val.str "default" }]
      | none => some []

/-- The function `setExportVariable`. -/
def setExportVariable (cm : CurrentFileMetadata) (fm : FilesMetadata) (h : Heap)
    (pair : KeyValuePair) (importedVariable : Option ImportRecord) :
    CurrentFileMetadata × Heap × Completion :=
  match importedVariable with
  | some imported =>
    let importedVariableToSet : Option Val :=
      if imported.type = "ALL_EXPORTS_IMPORTED" then
        exportedVariablesOf fm imported.importedFrom
      else
        match exportedVariablesOf fm imported.importedFrom with
        | some t => readProp h t (toKey imported.name)
        | none => none
    match importedVariableToSet with
    | none => (cm, h, Completion.throw)
    | some toSet =>
      let assigned : Option (CurrentFileMetadata × Heap) :=
        if pair.value ≠ Val.str "" then
          match writeProp h cm.exportedVariables (toKey pair.value) toSet with
          | some h1 => some (cm, h1)
          | none => none
        else some ({ cm with exportedVariables := toSet }, h)
      match assigned with
      | none => (cm, h, Completion.throw)
      | some (cm1, h1) =>
        let exportedVariableToUpdate : Option Val :=
          if pair.value ≠ Val.str "" then
            readProp h1 cm1.exportedVariables (toKey pair.value)
          else some cm1.exportedVariables
        match exportedVariableToUpdate with
        | none => (cm1, h1, Completion.throw)
        | some toUpdate =>
          match readProp h1 toUpdate "individualFileReferencesMapping" with
          | none => (cm1, h1, Completion.throw)
          | some mapping =>
            match writeProp h1 mapping cm1.fileLocation imported.referenceCountObject with
            | none => (cm1, h1, Completion.throw)
            | some h2 =>
              match readProp h2 toUpdate "isEntryFileObject" with
              | none => (cm1, h2, Completion.throw)
              | some isEntryFileObject =>
                if truthy isEntryFileObject then (cm1, h2, Completion.normal)
                else
                  match writeProp h2 toUpdate "isEntryFileObject" cm1.isEntryFile with
                  | some h3 => (cm1, h3, Completion.normal)
                  | none => (cm1, h2, Completion.throw)
  | none =>
    let (entity, h1) := getNewDefaultObject h cm.fileLocation (Val.str pair.key)
      Val.undefined
    if pair.value ≠ Val.str "" then
      match writeProp h1 cm.exportedVariables (toKey pair.value) (Val.ref entity) with
      | some h2 => (cm, h2, Completion.normal)
      | none => (cm, h1, Completion.throw)
    else ({ cm with exportedVariables := Val.ref entity }, h1, Completion.normal)

/-- The names of the members that a plain object inherits from
`Object.prototype`. -/
def objectPrototypeNames : List String :=
  ["constructor", "__defineGetter__", "__defineSetter__", "hasOwnProperty",
   "__lookupGetter__", "__lookupSetter__", "isPrototypeOf", "propertyIsEnumerable",
   "toString", "valueOf", "__proto__", "toLocaleString"]

/-- The member of `Object.prototype` named `key`, as `setExportVariable` reads
it when it is handed over as `importedVariable`: a function (for `__proto__`
the prototype object itself), which is truthy and has no property `type`,
`importedFrom`, `localName` or `referenceCountObject`; its `name` is the name
of the function (`Object` for `constructor`, none for `__proto__`).  The absent
`type` is written as the text `undefined`, which differs from
`ALL_EXPORTS_IMPORTED` as `undefined` does, and the absent `importedFrom` as
the text `undefined`, the key that `filesMapping[undefined]` reads. -/
def inheritedMember (key : String) : ImportRecord :=
  { name :=
      if key = "__proto__" then Val.undefined
      else if key = "constructor" then Val.str "Object"
      else Val.str key
    localName := Val.undefined
    type := "undefined"
    importedFrom := "undefined"
    referenceCountObject := Val.undefined }

/-- The value of `currentFileMetadata.importedVariablesMetadata[key]` on the
plain object `importedVariablesMetadata`: the import record stored under `key`,
else the member of that name inherited from `Object.prototype`, else
`undefined` (`none`).  Every value found is truthy. -/
def importedVariableOf (cm : CurrentFileMetadata) (key : String) : Option ImportRecord :=
  match tableGet cm.importedVariablesMetadata key with
  | some record => some record
  | none => if key ∈ objectPrototypeNames then some (inheritedMember key) else none

/-- The function `setExportedVariablesFromArray`: every element is handled
inside its own `try`/`catch`. -/
def setExportedVariablesFromArray :
    List KeyValuePair → CurrentFileMetadata → FilesMetadata → Heap →
    CurrentFileMetadata × Heap
  | [], cm, _, h => (cm, h)
  | pair :: rest, cm, fm, h =>
    match importedVariableOf cm pair.key with
    | some importedVariable =>
      match setExportVariable cm fm h pair (some importedVariable) with
      | (cm1, h1, _) => setExportedVariablesFromArray rest cm1 fm h1
    | none =>
      match setExportVariable cm fm h pair none with
      | (cm1, h1, _) => setExportedVariablesFromArray rest cm1 fm h1

/-! ## `src/ast/utility.js`: call sites, path arguments, magic comments and chunks -/

/-- A syntax-tree node as `getCallExpressionFromNode` reads it: an absent node
(`undefined` or `null`), or a node with its `type` and its children `object`
and `argument` (absent on a node without that child). -/
inductive AstNode where
  | absent
  | node (type : String) (object : AstNode) (argument : AstNode)
  deriving DecidableEq, Repr

/-- The function `getCallExpressionFromNode` (`absent` is the result
`undefined`). -/
def getCallExpressionFromNode : AstNode → AstNode
  | AstNode.absent => AstNode.absent
  | AstNode.node type object argument =>
    if type = "CallExpression" then AstNode.node type object argument
    else if type = "MemberExpression" then object
    else if type = "AwaitExpression" then argument
    else AstNode.absent

/-- Whether the atom `.` of a regular expression (without the `s` flag)
matches the character: every character but the four line terminators. -/
def dotMatches (c : Char) : Bool :=
  !(c.toNat == 10 || c.toNat == 13 || c.toNat == 8232 || c.toNat == 8233)

/-- Backtracking from the longest candidate: the largest `q < n` that `p`
accepts. -/
def searchDown (p : Nat → Bool) : Nat → Option Nat
  | 0 => none
  | q + 1 => if p q then some q else searchDown p q

/-- The UTF-16 code units of a character: the character itself inside the
Basic Multilingual Plane, a pair of surrogates outside it. -/
def utf16CodeUnits (c : Char) : List Nat :=
  if c.toNat < 65536 then [c.toNat]
  else [55296 + (c.toNat - 65536) / 1024, 56320 + (c.toNat - 65536) % 1024]

/-- The UTF-16 code units of a text: the elements that a regular expression
without the flag `u` matches one at a time. -/
def toCodeUnits : List Char → List Nat
  | [] => []
  | c :: s => utf16CodeUnits c ++ toCodeUnits s

/-- The characters of a text that lie within its first `n` code units. -/
def takeCodeUnits : Nat → List Char → List Char
  | _, [] => []
  | n, c :: s =>
    if (utf16CodeUnits c).length ≤ n then c :: takeCodeUnits (n - (utf16CodeUnits c).length) s
    else []

/-- Whether the atom `.` of a regular expression without the flags `s` and `u`
matches the code unit: every code unit but the four line terminators. -/
def dotMatchesCodeUnit (u : Nat) : Bool :=
  !(u == 10 || u == 13 || u == 8232 || u == 8233)

/-- A match of `(.{2,})\/(.*)$` that starts at the head of the code units `s`:
the length of group 1.  The greedy `.{2,}` takes as many code units as it can
and gives them back one at a time until a `/` (code unit 47) follows and `.*`
reaches the end of the input. -/
def matchFeasibleAt (s : List Nat) : Option Nat :=
  searchDown (fun q =>
    decide (2 ≤ q) && (s.take q).all dotMatchesCodeUnit && decide (s[q]? = some 47) &&
      (s.drop (q + 1)).all dotMatchesCodeUnit) s.length

/-- The value of `s.replace(/(.{2,})\/(.*)$/, "$1")` on the code units of `s`:
the first position with a match is found from the left, and the match, which
runs to the end of the input, is replaced by its group 1. -/
def replaceFeasible : List Nat → List Nat
  | [] => []
  | c :: s =>
    match matchFeasibleAt (c :: s) with
    | some q => (c :: s).take q
    | none => c :: replaceFeasible s

/-- The function `getLastFeasibleAddress`.  The regular expression has no flag
`u` and runs on the UTF-16 code units of `givenPath`.  What the replacement
leaves is a prefix of those code units that ends at the end of the input or
right before a `/`, so between two characters (a surrogate is no `/`); the
result is the text of that prefix (`getLastFeasibleAddress_code_units`). -/
def getLastFeasibleAddress (givenPath : String) : String :=
  String.mk (takeCodeUnits (replaceFeasible (toCodeUnits givenPath.data)).length givenPath.data)

/-- The argument node of a call, by the fields that
`getValueFromStringOrTemplateLiteral` reads: `type`, `value` (of a string
literal) and `quasis` with the `value.cooked` of each quasi. -/
structure ArgumentNode where
  type : String
  value : Val
  quasis : List Val
  deriving DecidableEq, Repr

/-- The object returned by `getValueFromStringOrTemplateLiteral`; `address` is
`undefined` on the object `{ type: "NONE" }`. -/
structure AddressValue where
  type : String
  address : Val
  deriving DecidableEq, Repr

/-- The function `getValueFromStringOrTemplateLiteral`; `argument = none` is
the absent argument, and the result `none` is the `TypeError` raised on it and
on a first quasi whose cooked value is no string. -/
def getValueFromStringOrTemplateLiteral (argument : Option ArgumentNode) :
    Option AddressValue :=
  match argument with
  | none => none
  | some node =>
    if node.type = "StringLiteral" then some { type := "FILE", address := node.value }
    else if node.type = "TemplateLiteral" ∧ node.quasis ≠ [] then
      match node.quasis.head? with
      | some (Val.str cooked) =>
        some { type := "UNRESOLVED TYPE", address := Val.str (getLastFeasibleAddress cooked) }
      | _ => none
    else some { type := "NONE", address := Val.undefined }

/-- The characters that `String.prototype.trim` strips: white space and line
terminators. -/
def isTrimmedCharacter (c : Char) : Bool :=
  [9, 10, 11, 12, 13, 32, 160, 5760, 8192, 8193, 8194, 8195, 8196, 8197, 8198, 8199, 8200,
    8201, 8202, 8232, 8233, 8239, 8287, 12288, 65279].contains c.toNat

/-- The value of `s.trim()` on the characters of `s`. -/
def jsTrim (s : List Char) : List Char :=
  ((s.dropWhile isTrimmedCharacter).reverse.dropWhile isTrimmedCharacter).reverse

/-- The value of `s.split(separator)` on the characters of `s`, for a
separator of one character. -/
def jsSplit (separator : Char) : List Char → List (List Char)
  | [] => [[]]
  | c :: s =>
    if c = separator then [] :: jsSplit separator s
    else
      match jsSplit separator s with
      | part :: parts => (c :: part) :: parts
      | [] => [[c]]

/-- The single and the double quote. -/
def isQuote (c : Char) : Bool :=
  c.toNat == 39 || c.toNat == 34

/-- The value of `s.replace(/^(['"])(.*)\1$/, "$2")` on the characters of `s`:
a text that opens with a quote, closes with the same quote and has no line
terminator in between is replaced by what stands between the quotes. -/
def replaceQuoted (s : List Char) : List Char :=
  match s with
  | [] => []
  | q :: rest =>
    if isQuote q && decide (rest.getLast? = some q) && rest.dropLast.all dotMatches then
      rest.dropLast
    else q :: rest

/-- The value of `s.replace(/^\/(.*)\/(.*)/, "$1")` on the characters of `s`:
when `s` opens with `/` and its first line holds another `/`, the first line
is replaced by what stands between the first `/` and the last `/` of that line
(the greedy group 1). -/
def replaceDelimited (s : List Char) : List Char :=
  match s with
  | [] => []
  | c :: rest =>
    if c = '/' then
      match searchDown (fun q => decide ((rest.takeWhile dotMatches)[q]? = some '/'))
          (rest.takeWhile dotMatches).length with
      | some q => (rest.takeWhile dotMatches).take q ++ rest.dropWhile dotMatches
      | none => c :: rest
    else c :: rest

/-- The value of a parsed magic comment: a text, or the regular expression
compiled from a source. -/
inductive CommentValue where
  | text (value : String)
  | regExp (source : String)
  deriving DecidableEq, Repr

/-- The object returned by `parseComment`; `key` and `value` are absent on the
object `{ valid: false }`. -/
structure ParsedComment where
  key : Option String
  value : Option CommentValue
  valid : Bool
  deriving DecidableEq, Repr

/-- The function `parseComment` applied to a comment with the text `comment`
(its `value`).  `regExpAccepts` tells which sources the `RegExp` constructor of
the runtime compiles; the result `none` is the `SyntaxError` it raises on the
others. -/
def parseComment (regExpAccepts : String → Bool) (comment : String) : Option ParsedComment :=
  match jsSplit ':' comment.data with
  | [part0, part1] =>
    let commentSubParts0 := jsTrim part0
    let commentSubParts1 := jsTrim part1
    if replaceQuoted commentSubParts1 ≠ commentSubParts1 then
      some { key := some (String.mk commentSubParts0)
             value := some (CommentValue.text (String.mk (replaceQuoted commentSubParts1)))
             valid := true }
    else if regExpAccepts (String.mk (replaceDelimited commentSubParts1)) then
      some { key := some (String.mk commentSubParts0)
             value := some (CommentValue.regExp (String.mk (replaceDelimited commentSubParts1)))
             valid := true }
    else none
  | _ => some { key := none, value := none, valid := false }

/-- The function `updateWebpackConfigurationOfImportedFile`: every error
raised inside its `try` block is caught and leaves the heap as it was. -/
def updateWebpackConfigurationOfImportedFile (givenFileAddress : String)
    (webpackChunkConfiguration : Val) (fm : FilesMetadata) (h : Heap) : Heap :=
  match tableGet fm.filesMapping givenFileAddress with
  | none => h
  | some record =>
    match readProp h webpackChunkConfiguration "webpackChunkName" with
    | none => h
    | some webpackChunkName =>
      match writeProp h record.webpackChunkConfiguration (toKey webpackChunkName)
          webpackChunkConfiguration with
      | some h1 => h1
      | none => h

/-- A node of an access chain as `getAllPropertiesFromNode` reads it: an absent
node (`undefined` or `null`), or a node with its `type`, its `name`
(`undefined` on a node without one), its `value` (the text of a string
literal, which the function does not read) and its children `object` and
`property` (of a `MemberExpression`) and `left` and `right` (of a
`TSQualifiedName`), absent on a node without that child. -/
inductive ChainNode where
  | absent
  | node (type : String) (name : Val) (value : Val)
      (object : ChainNode) (property : ChainNode) (left : ChainNode) (right : ChainNode)
  deriving DecidableEq, Repr

/-- The value of `node.name` (`none` is the `TypeError` on an absent node). -/
def ChainNode.nameOf : ChainNode → Option Val
  | ChainNode.absent => none
  | ChainNode.node _ name _ _ _ _ _ => some name

/-- The `while` loop of `getAllPropertiesFromNode` and the statement after it;
`qualified` tells whether the head node is a `TSQualifiedName`, `headNode` is
the node the loop stands at and `allPropertiesArray` the array so far (`none`
is a `TypeError`). -/
def collectProperties (qualified : Bool) : ChainNode → List Val → Option (List Val)
  | ChainNode.absent, _ => none
  | ChainNode.node type name _ object property left right, allPropertiesArray =>
    if type = (if qualified then "TSQualifiedName" else "MemberExpression") then
      match qualified with
      | true =>
        match right.nameOf with
        | some rightName => collectProperties true left (rightName :: allPropertiesArray)
        | none => none
      | false =>
        match property.nameOf with
        | some propertyName => collectProperties false object (propertyName :: allPropertiesArray)
        | none => none
    else some (name :: allPropertiesArray)

/-- The function `getAllPropertiesFromNode` (`none` is a `TypeError`). -/
def getAllPropertiesFromNode (node : ChainNode) : Option (List Val) :=
  match node with
  | ChainNode.absent => none
  | ChainNode.node type _ _ _ _ _ _ =>
    collectProperties (decide (type = "TSQualifiedName")) node []


/-! ## `src/src/utility/helper.js`

The checker takes `isFileMappingNotPresent`, `isFileNotVisited`,
`isFileExtensionValid` and `isFileNotExcluded` from its sibling module
`./utility`.  The first three are embedded from the functions of the same names
in `helper.js` and called by the traversal directly.  `isFileNotExcluded` is
embedded from `helper.js` too; since the call in the checker has its arguments
in the other order than the parameters in `helper.js`, the function that the
traversal calls is a field of `Collaborators`, which the statements about the
exclusion set to the function of `helper.js`. -/

/-- The function `isFileMappingNotPresent`. -/
def isFileMappingNotPresent (file : String) (fm : FilesMetadata) : Bool :=
  (tableGet fm.filesMapping file).isNone

/-- The function `isFileNotVisited`. -/
def isFileNotVisited (fileLocation : String) (fm : FilesMetadata) : Bool :=
  !(fm.visitedFilesMapping.contains fileLocation)

/-- The function `isFileExtensionValid`: the regular expression `\.[jt]sx?$`
accepts exactly the locations that end in one of the four extensions. -/
def isFileExtensionValid (fileLocation : String) : Bool :=
  [".js", ".jsx", ".ts", ".tsx"].any (fun ext => ext.data.isSuffixOf fileLocation.data)

/-- The function `isFileExtensionNotValid`: the regular expression `[jt]sx?$`
accepts exactly the locations that end in `js`, `jsx`, `ts` or `tsx`. -/
def isFileExtensionNotValid (fileLocation : String) : Bool :=
  !(["js", "jsx", "ts", "tsx"].any (fun ext => ext.data.isSuffixOf fileLocation.data))

/-- A value handed to `isFileNotExcluded`: a string, or a regular expression
(by its source). -/
inductive ExclusionArgument where
  | text (value : String)
  | regExp (source : String)
  deriving DecidableEq, Repr

/-- The function `isFileNotExcluded` of `helper.js`, with its two parameters in
the order of their declaration; the result `none` is a raised error.
`isFilePath` lives in the module `./resolver` (`none` when it raises).  The
call `excludedFilesRegex.test(directoyAbsoluteAddress)` is answered by
`regExpTest` when `excludedFilesRegex` is a regular expression (one without the
flags `g` and `y`, whose answer does not depend on earlier calls) and raises a
`TypeError` when it is a string, which has no method `test`. -/
def isFileNotExcluded (isFilePath : ExclusionArgument → Option Bool)
    (regExpTest : String → ExclusionArgument → Bool)
    (excludedFilesRegex directoyAbsoluteAddress : ExclusionArgument) : Option Bool :=
  match isFilePath directoyAbsoluteAddress with
  | none => none
  | some false => some false
  | some true =>
    match excludedFilesRegex with
    | ExclusionArgument.regExp source => some (!regExpTest source directoyAbsoluteAddress)
    | ExclusionArgument.text _ => none

/-! ## `src/checker/file-usage-checker.js` -/

/-- The collaborators of the traversal that live in other modules: the parser
`buildAST` (`none` when it raises), `traverseAST` with its effect on the scratch
metadata, on `filesMetadata` and on the heap, `getUsedFilesMapping` (the keys of
its result in iteration order, `none` when it raises), the two constructors
`getDefaultCurrentFileMetadata` and `getDefaultFileObject`, and the function
that the checker takes under the name `isFileNotExcluded` from its sibling
module `./utility`, applied to the two arguments of a call in their order
(`none` when it raises). -/
structure Collaborators (Ast : Type) where
  buildAST : String → Option Ast
  traverseAST : Ast → CurrentFileMetadata → FilesMetadata → Heap →
    CurrentFileMetadata × FilesMetadata × Heap × Completion
  getUsedFilesMapping : CurrentFileMetadata → Option (List String)
  getDefaultCurrentFileMetadata : String → Heap → CurrentFileMetadata × Heap
  getDefaultFileObject : String → Heap → FileRecord × Heap
  isFileNotExcluded : ExclusionArgument → ExclusionArgument → Option Bool

/-- The statement `filesMetadata.filesMapping[file] = getDefaultFileObject(file)`. -/
def addDefaultFileObject {Ast : Type} (env : Collaborators Ast) (file : String)
    (fm : FilesMetadata) (h : Heap) : FilesMetadata × Heap :=
  ({ fm with filesMapping := tableSet fm.filesMapping file (env.getDefaultFileObject file h).1 },
   (env.getDefaultFileObject file h).2)

/-- The statement `filesMetadata.unparsableVistedFiles++` of the `catch` block. -/
def countUnparsable (fm : FilesMetadata) : FilesMetadata :=
  { fm with unparsableVistedFiles := fm.unparsableVistedFiles + 1 }

/-- The `for ... in` loop of `traverseFileForCheckingUsage` over the imported
files; `recurse` is the recursive call.  The result is `none` when a recursive
call does not return; otherwise it carries the files entered by the recursive
calls, in order, and how the loop completed.  The call
`isFileNotExcluded(file, filesMetadata.excludedFilesRegex)` hands the file over
as first argument and the regular expression as second. -/
def forEachImportedFile {Ast : Type} (env : Collaborators Ast)
    (recurse : String → FilesMetadata → Heap → Option (FilesMetadata × Heap × List String)) :
    List String → FilesMetadata → Heap →
    Option (FilesMetadata × Heap × List String × Completion)
  | [], fm, h => some (fm, h, [], Completion.normal)
  | file :: rest, fm, h =>
    let otherwise : Option (FilesMetadata × Heap × List String × Completion) :=
      if isFileMappingNotPresent file fm then
        forEachImportedFile env recurse rest (addDefaultFileObject env file fm h).1
          (addDefaultFileObject env file fm h).2
      else forEachImportedFile env recurse rest fm h
    if isFileNotVisited file fm && isFileExtensionValid file then
      match env.isFileNotExcluded (ExclusionArgument.text file)
          (ExclusionArgument.regExp fm.excludedFilesRegex) with
      | none => some (fm, h, [], Completion.throw)
      | some true =>
        let prepared : FilesMetadata × Heap :=
          if (tableGet fm.filesMapping file).isNone then addDefaultFileObject env file fm h
          else (fm, h)
        match recurse file prepared.1 prepared.2 with
        | none => none
        | some (fm1, h1, entered) =>
          match forEachImportedFile env recurse rest fm1 h1 with
          | none => none
          | some (fm2, h2, entered2, completion) =>
            some (fm2, h2, entered ++ entered2, completion)
      | some false => otherwise
    else otherwise

/-- The function `traverseFileForCheckingUsage`, with the depth of the
recursion bounded by `fuel` (`none` when the bound is reached).  The result
carries the files the calls were entered for, in order. -/
def traverseFileForCheckingUsage {Ast : Type} (env : Collaborators Ast) :
    Nat → String → FilesMetadata → Heap → Option (FilesMetadata × Heap × List String)
  | 0, _, _, _ => none
  | fuel + 1, fileLocation, fm, h =>
    let fm1 := { fm with visitedFilesMapping := fileLocation :: fm.visitedFilesMapping }
    match env.buildAST fileLocation with
    | none => some (countUnparsable fm1, h, [fileLocation])
    | some ast =>
      match env.traverseAST ast (env.getDefaultCurrentFileMetadata fileLocation h).1 fm1
          (env.getDefaultCurrentFileMetadata fileLocation h).2 with
      | (_, fm2, h2, Completion.throw) => some (countUnparsable fm2, h2, [fileLocation])
      | (cm2, fm2, h2, Completion.normal) =>
        match env.getUsedFilesMapping cm2 with
        | none => some (countUnparsable fm2, h2, [fileLocation])
        | some requiredImportedFiles =>
          match forEachImportedFile env (traverseFileForCheckingUsage env fuel)
              requiredImportedFiles fm2 h2 with
          | none => none
          | some (fm3, h3, entered, Completion.normal) =>
            some (fm3, h3, fileLocation :: entered)
          | some (fm3, h3, entered, Completion.throw) =>
            some (countUnparsable fm3, h3, fileLocation :: entered)

/-- The statement `filesMetadata.filesMapping[file].isEntryFile = true`. -/
def markEntryFile (file : String) (fm : FilesMetadata) : FilesMetadata :=
  match tableGet fm.filesMapping file with
  | some record =>
    { fm with
      filesMapping := tableSet fm.filesMapping file { record with isEntryFile := Val.bool true } }
  | none => fm

/-- The function `checkFileUsage`, with the recursion bounded by `fuel`. -/
def checkFileUsage {Ast : Type} (env : Collaborators Ast) (fuel : Nat)
    (entyFileLocation : String) (fm : FilesMetadata) (h : Heap) :
    Option (FilesMetadata × Heap × List String) :=
  let prepared : FilesMetadata × Heap :=
    if isFileMappingNotPresent entyFileLocation fm then
      addDefaultFileObject env entyFileLocation fm h
    else (fm, h)
  let fm1 := markEntryFile entyFileLocation prepared.1
  if isFileNotVisited entyFileLocation fm1 && isFileExtensionValid entyFileLocation then
    traverseFileForCheckingUsage env fuel entyFileLocation fm1 prepared.2
  else some (fm1, prepared.2, [])

/-! ## Example states -/

/-- A heap with the export table of `/src/m.js` at address 0, holding the
entity `default` (address 2) and the entity `a` (address 4), each with its own
per-importer map, and the empty export tables of `/src/main.js` (address 5)
and `/src/app.js` (address 6). -/
def exampleHeap : Heap :=
  [[("default", Val.ref 2), ("a", Val.ref 4)],
   [],
   [("localName", Val.str "default"), ("firstReferencedAt", Val.str "/src/m.js"),
    ("referenceCount", Val.num 0), ("isEntryFileObject", Val.bool false),
    ("individualFileReferencesMapping", Val.ref 1)],
   [],
   [("localName", Val.str "a"), ("firstReferencedAt", Val.str "/src/m.js"),
    ("referenceCount", Val.num 0), ("isEntryFileObject", Val.bool false),
    ("individualFileReferencesMapping", Val.ref 3)],
   [],
   []]

/-- The `filesMetadata` whose records name the three export tables of
`exampleHeap`. -/
def exampleFilesMetadata : FilesMetadata :=
  { filesMapping :=
      [("/src/m.js", { isEntryFile := Val.bool false, exportedVariables := Val.ref 0 }),
       ("/src/main.js", { isEntryFile := Val.bool true, exportedVariables := Val.ref 5 }),
       ("/src/app.js", { isEntryFile := Val.bool false, exportedVariables := Val.ref 6 })]
    visitedFilesMapping := []
    unparsableVistedFiles := 0
    excludedFilesRegex := "node_modules" }

/-- The fresh scratch metadata of `/src/main.js`. -/
def exampleCurrentFileMetadata : CurrentFileMetadata :=
  { fileLocation := "/src/main.js"
    isEntryFile := Val.bool true
    importedVariablesMetadata := []
    importedVariables := []
    exportedVariables := Val.ref 5 }

/-- The fresh scratch metadata of `/src/app.js`. -/
def exampleAppMetadata : CurrentFileMetadata :=
  { fileLocation := "/src/app.js"
    isEntryFile := Val.bool false
    importedVariablesMetadata := []
    importedVariables := []
    exportedVariables := Val.ref 6 }

/-- Collaborators for a project of two modules that import each other,
`/src/a.js` and `/src/b.js`, and a file `/src/broken.js` on which the parser
raises; the walk of a tree is left out. -/
def exampleCollaborators : Collaborators String :=
  { buildAST := fun file => if file = "/src/broken.js" then none else some file
    traverseAST := fun _ cm fm h => (cm, fm, h, Completion.normal)
    getUsedFilesMapping := fun cm =>
      if cm.fileLocation = "/src/a.js" then some ["/src/b.js"]
      else if cm.fileLocation = "/src/b.js" then some ["/src/a.js"]
      else some []
    getDefaultCurrentFileMetadata := fun file h =>
      ({ fileLocation := file
         isEntryFile := Val.bool false
         importedVariablesMetadata := []
         importedVariables := []
         exportedVariables := Val.ref h.length },
       h ++ [[]])
    getDefaultFileObject := fun _ h =>
      ({ isEntryFile := Val.bool false, exportedVariables := Val.ref h.length }, h ++ [[]])
    isFileNotExcluded := fun _ _ => some true }

/-- The empty `filesMetadata` of a fresh run. -/
def emptyFilesMetadata : FilesMetadata :=
  { filesMapping := [], visitedFilesMapping := [], unparsableVistedFiles := 0,
    excludedFilesRegex := "node_modules" }


/-- The import record that `setImportedVariableInCurrentFileMetadata` builds. -/
def importRecordOf (specifier : ImportSpecifierNode) (importedFileAddress : String)
    (h : Heap) : ImportRecord :=
  { name :=
      if specifier.type = "ImportSpecifier" then specifier.importedName
      else if specifier.type = "ImportDefaultSpecifier" then Val.str "default"
      else Val.str specifier.localName
    localName := Val.str specifier.localName
    type :=
      if specifier.type = "ImportSpecifier" ∨ specifier.type = "ImportDefaultSpecifier" then
        "INDIVIDUAL_IMPORT"
      else "ALL_EXPORTS_IMPORTED"
    importedFrom := importedFileAddress
    referenceCountObject := Val.ref h.length }

/-- The example heap after `/src/main.js` has declared `import {a} from
"/src/m.js"`: the reference-count object of the import record is at address 7. -/
def exampleHeapWithImport : Heap :=
  exampleHeap ++ [[("referenceCount", Val.num 0), ("exportReferenceCount", Val.num 0)]]

/-- The scratch metadata of `/src/main.js` holding the import record of `a`. -/
def exampleImportingMetadata : CurrentFileMetadata :=
  { fileLocation := "/src/main.js"
    isEntryFile := Val.bool true
    importedVariablesMetadata :=
      [("a", { name := Val.str "a"
               localName := Val.str "a"
               type := "INDIVIDUAL_IMPORT"
               importedFrom := "/src/m.js"
               referenceCountObject := Val.ref 7 })]
    importedVariables := []
    exportedVariables := Val.ref 5 }

/-- The specifier of `export {x} from ...`. -/
def reExportSpecifier (x : String) : ExportSpecifierNode :=
  { exportedName := Val.str x, localName := some (Val.str x) }

/-- The statement `export {x} from ...` as `getValuesFromStatement` reads it. -/
def reExportStatement (x : String) : ExportNode :=
  { type := "ExportNamedDeclaration"
    name := Val.undefined
    properties := []
    specifiers := some [reExportSpecifier x]
    declaration := none }

/-- The re-export scenario: the file with scratch metadata `cmB` processes
`export {x} from fileC` (its specifier is recorded as an import, then the
pairs of `getValuesFromStatement` are committed), after which the file with
scratch metadata `cmA` processes `import {x} from fileB` in the `CHECK_USAGE`
stage.  The result is the scratch metadata of the importing file and the heap
(`none` when `getValuesFromStatement` returns no array). -/
def reExportThenImport (x fileC fileB : String) (cmB cmA : CurrentFileMetadata)
    (fm : FilesMetadata) (h : Heap) : Option (CurrentFileMetadata × Heap) :=
  match getValuesFromStatement (reExportStatement x) "named" with
  | none => none
  | some pairs =>
    some (setImportedVariableInCurrentFileMetadata
      { type := "ImportSpecifier", localName := x, importedName := Val.str x }
      fileB "CHECK_USAGE" cmA fm
      (setExportedVariablesFromArray pairs
        (setImportedVariablesFromExportFromStatementSpecifier (reExportSpecifier x) cmB fileC
          h).1
        fm
        (setImportedVariablesFromExportFromStatementSpecifier (reExportSpecifier x) cmB fileC
          h).2).2)

/-- The imported names that the usage accounting reads from a binding node:
the result of `getImportedNameFromProperty` on each element of a pattern. -/
def importedNamesOf : Option BindingNode → List Val
  | some (BindingNode.objectPattern properties) =>
    properties.filterMap getImportedNameFromProperty
  | some (BindingNode.arrayPattern elements) =>
    elements.filterMap getImportedNameFromProperty
  | _ => []

/-- The total weight that the pattern loop subtracts, per unit of
`valueToMultiplyWith`, from the `referenceCount` of the object at address
`a`; `look` reads the target's export table, and the loop stops at a hole. -/
def patternDelta (isObjectPattern : Bool) (type : String) (look : String → Val) :
    List PatternElement → Nat → Int
  | [], _ => 0
  | property :: rest, a =>
    match getImportedNameFromProperty property, getLocalNameFromProperty property with
    | some i, some l =>
      (if type = "DONT_UPDATE_REFERENCE_COUNT" ∧ look (toKey i) = Val.ref a then
        (if strictEq i l && isObjectPattern then 2 else 1)
       else 0) + patternDelta isObjectPattern type look rest a
    | _, _ => 0

/-- The weight with which one element of a pattern counts for the object at
address `e`: 2 for a property of an `ObjectPattern` whose local name equals its
imported name, 1 for every other element, when the imported name is an export
(read by `look`) that is `e`; 0 otherwise, and 0 for a hole. -/
def elementWeight (isObjectPattern : Bool) (look : String → Val) (e : Nat)
    (property : PatternElement) : Int :=
  match getImportedNameFromProperty property, getLocalNameFromProperty property with
  | some i, some l =>
    if look (toKey i) = Val.ref e then (if strictEq i l && isObjectPattern then 2 else 1)
    else 0
  | _, _ => 0

/-- Number of files of `W` that are not yet visited. -/
def unvisitedCount (W V : List String) : Nat :=
  (W.toFinset \ V.toFinset).card

/-- What a terminating call of the traversal guarantees. -/
def TraversalResult (fm : FilesMetadata)
    (r : Option (FilesMetadata × Heap × List String)) : Prop :=
  ∃ fm1 h1 entered, r = some (fm1, h1, entered) ∧
    (∀ g ∈ fm.visitedFilesMapping, g ∈ fm1.visitedFilesMapping) ∧
    entered.Nodup ∧
    ∀ g ∈ entered, g ∉ fm.visitedFilesMapping ∧ g ∈ fm1.visitedFilesMapping

/-! ## Example inputs of the extractor -/

/-- The specifier of `import {zz as z} from ...`. -/
def exampleAbsentNameSpecifier : ImportSpecifierNode :=
  { type := "ImportSpecifier", localName := "z", importedName := Val.str "zz" }

/-- The specifier of `export {x as y}`, with or without a source. -/
def renamedReExportSpecifier (x y : String) : ExportSpecifierNode :=
  { exportedName := Val.str y, localName := some (Val.str x) }

/-- The statement `export {x as y}`, with or without a source, as
`getValuesFromStatement` reads it. -/
def renamedReExportStatement (x y : String) : ExportNode :=
  { type := "ExportNamedDeclaration"
    name := Val.undefined
    properties := []
    specifiers := some [renamedReExportSpecifier x y]
    declaration := none }

/-- The renamed re-export scenario: the file with scratch metadata `cm`
processes `export {x as y} from fileM`: its specifier is recorded as an import,
then the pairs of `getValuesFromStatement` are committed (`none` when
`getValuesFromStatement` returns no array). -/
def reExportRenamed (x y fileM : String) (cm : CurrentFileMetadata) (fm : FilesMetadata)
    (h : Heap) : Option (CurrentFileMetadata × Heap) :=
  match getValuesFromStatement (renamedReExportStatement x y) "named" with
  | none => none
  | some pairs =>
    some (setExportedVariablesFromArray pairs
      (setImportedVariablesFromExportFromStatementSpecifier (renamedReExportSpecifier x y) cm
        fileM h).1
      fm
      (setImportedVariablesFromExportFromStatementSpecifier (renamedReExportSpecifier x y) cm
        fileM h).2)

/-- The node is a `CallExpression`. -/
def isCallExpression : AstNode → Bool
  | AstNode.absent => false
  | AstNode.node type _ _ => decide (type = "CallExpression")

/-- The statement `export {}`: an export declaration with an empty specifier
list and no declaration. -/
def emptyExportStatement : ExportNode :=
  { type := "ExportNamedDeclaration"
    name := Val.undefined
    properties := []
    specifiers := some []
    declaration := none }

/-- The right-hand side of `module.exports = function () {}`: a function
expression, a node without specifiers and without declaration. -/
def functionExpressionExport : ExportNode :=
  { type := "FunctionExpression"
    name := Val.undefined
    properties := []
    specifiers := none
    declaration := none }

/-- The statement `export default 42`: the declaration is a literal, a node
with none of `name`, `declarations`, `id` and `left`. -/
def defaultLiteralExportStatement : ExportNode :=
  { type := "ExportDefaultDeclaration"
    name := Val.undefined
    properties := []
    specifiers := none
    declaration :=
      some { name := Val.undefined, declarations := none, id := none, left := none } }

/-- The right-hand side of `module.exports = {k: v}` as
`getValuesFromStatement` reads it: an object expression with the one property
whose key is the identifier `k` and whose value is the identifier `v`. -/
def objectLiteralExport (k v : String) : ExportNode :=
  { type := "ObjectExpression"
    name := Val.undefined
    properties := [{ key := some (Val.str k), value := some (Val.str v) }]
    specifiers := none
    declaration := none }

/-- A `RegExp` constructor of which only this much is used: it compiles the
sources made of letters only. -/
def lettersOnlyRegExp (source : String) : Bool :=
  source.data.all Char.isAlpha

/-- A heap with the chunk tables of `/src/page.js` (address 0) and of
`/src/other.js` (address 1), both empty, and the two chunk descriptors
`{ webpackChunkName: "chunkA" }` (address 2) and `{ webpackChunkName: "chunkB" }`
(address 3); the export tables of the two files are at addresses 4 and 5. -/
def exampleChunkHeap : Heap :=
  [[], [], [("webpackChunkName", Val.str "chunkA")], [("webpackChunkName", Val.str "chunkB")],
   [], []]

/-- The `filesMetadata` whose two records name the chunk tables of
`exampleChunkHeap`. -/
def exampleChunkFilesMetadata : FilesMetadata :=
  { filesMapping :=
      [("/src/page.js", { isEntryFile := Val.bool false, exportedVariables := Val.ref 4,
                          webpackChunkConfiguration := Val.ref 0 }),
       ("/src/other.js", { isEntryFile := Val.bool false, exportedVariables := Val.ref 5,
                           webpackChunkConfiguration := Val.ref 1 })]
    visitedFilesMapping := []
    unparsableVistedFiles := 0
    excludedFilesRegex := "node_modules" }

/-! ## Example inputs of the last claims -/

/-- The statement `export default x = () => {}`: the declaration is an
assignment expression, a node with `left` (the identifier `x`) and none of
`name`, `declarations` and `id`. -/
def defaultAssignmentExportStatement (x : String) : ExportNode :=
  { type := "ExportDefaultDeclaration"
    name := Val.undefined
    properties := []
    specifiers := none
    declaration :=
      some { name := Val.undefined, declarations := none, id := none,
             left := some (Val.str x) } }

/-- The identifier `x`. -/
def identifierNode (x : String) : ChainNode :=
  ChainNode.node "Identifier" (Val.str x) Val.undefined ChainNode.absent ChainNode.absent
    ChainNode.absent ChainNode.absent

/-- The string literal with the text `p`. -/
def stringLiteralNode (p : String) : ChainNode :=
  ChainNode.node "StringLiteral" Val.undefined (Val.str p) ChainNode.absent ChainNode.absent
    ChainNode.absent ChainNode.absent

/-- The access `base.p`. -/
def dotAccess (base : ChainNode) (p : String) : ChainNode :=
  ChainNode.node "MemberExpression" Val.undefined Val.undefined base (identifierNode p)
    ChainNode.absent ChainNode.absent

/-- The access `base["p"]`. -/
def bracketAccess (base : ChainNode) (p : String) : ChainNode :=
  ChainNode.node "MemberExpression" Val.undefined Val.undefined base (stringLiteralNode p)
    ChainNode.absent ChainNode.absent

/-- The qualified name `base.p` of a type. -/
def qualifiedAccess (base : ChainNode) (p : String) : ChainNode :=
  ChainNode.node "TSQualifiedName" Val.undefined Val.undefined ChainNode.absent
    ChainNode.absent base (identifierNode p)

/-- The chain `x.p1. ... .pn`. -/
def dotChain (x : String) (ps : List String) : ChainNode :=
  ps.foldl dotAccess (identifierNode x)

/-- The chain `x["p1"] ... ["pn"]`. -/
def bracketChain (x : String) (ps : List String) : ChainNode :=
  ps.foldl bracketAccess (identifierNode x)

/-- The qualified name `x.p1. ... .pn`. -/
def qualifiedChain (x : String) (ps : List String) : ChainNode :=
  ps.foldl qualifiedAccess (identifierNode x)

/-- The method `test` of the regular expression `/^\/src\/vendor\//`, which is
kept under the source `^/src/vendor/`: on a string it tells whether the string
opens with `/src/vendor/`; a regular expression handed over as argument is
converted to its text, which opens with `/^`, and is not accepted. -/
def exampleRegExpTest (source : String) (argument : ExclusionArgument) : Bool :=
  match argument with
  | ExclusionArgument.text value =>
    decide (source = "^/src/vendor/") && "/src/vendor/".data.isPrefixOf value.data
  | ExclusionArgument.regExp _ => false

/-- An `isFilePath` that answers `true` on every string and `onRegExp` on a
regular expression (`none`: it raises, as a function of `fs` does on a value
that is no path). -/
def exampleIsFilePath (onRegExp : Option Bool) : ExclusionArgument → Option Bool
  | ExclusionArgument.text _ => some true
  | ExclusionArgument.regExp _ => onRegExp

/-- Collaborators for a project in which `/src/a.js` imports
`/src/vendor/lib.js` and `/src/b.js`; the function `isFileNotExcluded` that the
checker calls is the one of `helper.js`, with the given answer of `isFilePath`
on a regular expression. -/
def helperCollaborators (onRegExp : Option Bool) : Collaborators String :=
  { exampleCollaborators with
    getUsedFilesMapping := fun cm =>
      if cm.fileLocation = "/src/a.js" then some ["/src/vendor/lib.js", "/src/b.js"]
      else some []
    isFileNotExcluded := isFileNotExcluded (exampleIsFilePath onRegExp) exampleRegExpTest }

/-- The empty `filesMetadata` of a fresh run that excludes the files under
`/src/vendor/`. -/
def exclusionFilesMetadata : FilesMetadata :=
  { filesMapping := [], visitedFilesMapping := [], unparsableVistedFiles := 0,
    excludedFilesRegex := "^/src/vendor/" }

/-! ## The reference-count invariant -/

/-- Sum of `referenceCount + exportReferenceCount` over the entries of a
per-importer map (`none` when an entry is not a reference-count object). -/
def sumCounts (h : Heap) : Props → Option Int
  | [] => some 0
  | (_, Val.ref r) :: rest =>
    match field h r "referenceCount", field h r "exportReferenceCount", sumCounts h rest with
    | Val.num x, Val.num y, some s => some (x + y + s)
    | _, _, _ => none
  | _ :: _ => none

/-- The sum of the counts recorded in the per-importer map at address `m`. -/
def mappingSum (h : Heap) (m : Nat) : Option Int :=
  match h[m]? with
  | some o => sumCounts h o
  | none => none

/-- The reference-count invariant: every object that holds a per-importer map
(every export entity) has a numeric `referenceCount` equal to the sum, over the
importers of that map, of `referenceCount + exportReferenceCount`. -/
def ReferenceCountInvariant (h : Heap) : Prop :=
  ∀ e m, field h e "individualFileReferencesMapping" = Val.ref m →
    ∃ n, field h e "referenceCount" = Val.num n ∧ mappingSum h m = some n

/-- The object at address `m` is the per-importer map of some object. -/
def IsMap (h : Heap) (m : Nat) : Prop :=
  ∃ e, field h e "individualFileReferencesMapping" = Val.ref m

/-- A value that may be stored as an export: when it is a reference, it names
an object of the heap that is not a per-importer map. -/
def Safe (h : Heap) (v : Val) : Prop :=
  ∀ b, v = Val.ref b → b < h.length ∧ ¬ IsMap h b

/-- A reference-count object with both counts 0. -/
def ZeroCounter (h : Heap) (v : Val) : Prop :=
  ∃ r, v = Val.ref r ∧ ¬ IsMap h r ∧ field h r "referenceCount" = Val.num 0 ∧
    field h r "exportReferenceCount" = Val.num 0

/-- The property names of entities and reference-count objects that the
invariant reads. -/
def reservedNames : List String :=
  ["referenceCount", "exportReferenceCount", "individualFileReferencesMapping"]

/-- A heap on which `setExportedVariablesFromArray` keeps the invariant for
the file `fileLocation`: the invariant holds, per-importer maps are referenced
only through `individualFileReferencesMapping` and no other stored reference
dangles, and no per-importer map holds a counted entry for the file yet. -/
def WellFormedHeap (h : Heap) (fileLocation : String) : Prop :=
  ReferenceCountInvariant h ∧
  (∀ a k, k ≠ "individualFileReferencesMapping" → Safe h (field h a k)) ∧
  (∀ m, IsMap h m →
    field h m fileLocation = Val.undefined ∨ ZeroCounter h (field h m fileLocation))

/-- A well-formed state: the heap is well formed for the current file, whose
address is not a reserved property name; the export tables named by the scratch
metadata and by the file records, and `isEntryFile`, are no per-importer maps;
and every import record imports a name other than
`individualFileReferencesMapping` and carries a reference-count object with
both counts 0. -/
def WellFormedState (cm : CurrentFileMetadata) (fm : FilesMetadata) (h : Heap) : Prop :=
  WellFormedHeap h cm.fileLocation ∧
  cm.fileLocation ∉ reservedNames ∧
  Safe h cm.exportedVariables ∧
  Safe h cm.isEntryFile ∧
  (∀ address t, exportedVariablesOf fm address = some t → Safe h t) ∧
  (∀ key record, tableGet cm.importedVariablesMetadata key = some record →
    toKey record.name ≠ "individualFileReferencesMapping" ∧
    ZeroCounter h record.referenceCountObject)

/-- The second heap keeps the objects of the first as far as the invariant
reads them: it is at least as long, makes no old object a per-importer map, and
has the same counts in the old objects. -/
def Extends (h h1 : Heap) : Prop :=
  h.length ≤ h1.length ∧
  (∀ b, b < h.length → IsMap h1 b → IsMap h b) ∧
  (∀ r, r < h.length →
    field h1 r "referenceCount" = field h r "referenceCount" ∧
    field h1 r "exportReferenceCount" = field h r "exportReferenceCount")

/-- What the steps of `setExportedVariablesFromArray` keep: the state is well
formed, the heap extends the one before, and the scratch metadata keeps its
file address and its import records. -/
def StepKeeps (cm : CurrentFileMetadata) (fm : FilesMetadata) (h : Heap)
    (cm1 : CurrentFileMetadata) (h1 : Heap) : Prop :=
  WellFormedState cm1 fm h1 ∧ Extends h h1 ∧
  cm1.fileLocation = cm.fileLocation ∧
  cm1.importedVariablesMetadata = cm.importedVariablesMetadata

/-! ## Decision procedures for the well-formedness predicates -/

/-- Decides `ReferenceCountInvariant`. -/
def invariantCheck (h : Heap) : Bool :=
  h.all (fun o =>
    match propGet o "individualFileReferencesMapping" with
    | Val.ref m =>
      match propGet o "referenceCount", mappingSum h m with
      | Val.num n, some s => decide (n = s)
      | _, _ => false
    | _ => true)

/-- Decides `IsMap`. -/
def isMapCheck (h : Heap) (m : Nat) : Bool :=
  h.any (fun o => decide (propGet o "individualFileReferencesMapping" = Val.ref m))

/-- Decides `Safe`. -/
def safeCheck (h : Heap) (v : Val) : Bool :=
  match v with
  | Val.ref b => decide (b < h.length) && !isMapCheck h b
  | _ => true

/-- Decides `ZeroCounter`. -/
def zeroCounterCheck (h : Heap) (v : Val) : Bool :=
  match v with
  | Val.ref r =>
    !isMapCheck h r && decide (field h r "referenceCount" = Val.num 0) &&
      decide (field h r "exportReferenceCount" = Val.num 0)
  | _ => false

/-- Decides `WellFormedHeap`. -/
def wellFormedHeapCheck (h : Heap) (fileLocation : String) : Bool :=
  invariantCheck h &&
  h.all (fun o => o.all (fun p =>
    decide (p.1 = "individualFileReferencesMapping") || safeCheck h p.2)) &&
  (List.range h.length).all (fun m =>
    !isMapCheck h m || decide (field h m fileLocation = Val.undefined) ||
      zeroCounterCheck h (field h m fileLocation))

/-- Decides `WellFormedState`. -/
def wellFormedStateCheck (cm : CurrentFileMetadata) (fm : FilesMetadata) (h : Heap) : Bool :=
  wellFormedHeapCheck h cm.fileLocation &&
  decide (cm.fileLocation ∉ reservedNames) &&
  safeCheck h cm.exportedVariables &&
  safeCheck h cm.isEntryFile &&
  fm.filesMapping.all (fun p => safeCheck h p.2.exportedVariables) &&
  cm.importedVariablesMetadata.all (fun p =>
    decide (toKey p.2.name ≠ "individualFileReferencesMapping") &&
      zeroCounterCheck h p.2.referenceCountObject)

/-- The example heap after `/src/main.js` has declared `import {a} from
"/src/m.js"` with a reference-count object (address 7) that already counts one
reference. -/
def exampleHeapWithCountedImport : Heap :=
  exampleHeap ++ [[("referenceCount", Val.num 1), ("exportReferenceCount", Val.num 0)]]

/-! # Verification -/

/-! ## Properties of own-property maps and of the heap -/

theorem propGet_propSet (o : Props) (k k' : String) (v : Val) :
    propGet (propSet o k v) k' = if k = k' then v else propGet o k' := by
  induction o with
  | nil =>
    by_cases hk : k = k' <;> simp [propSet, propGet, hk]
  | cons p o ih =>
    obtain ⟨k0, v0⟩ := p
    by_cases h0 : k0 = k
    · by_cases hk : k = k'
      · simp [propSet, propGet, h0, hk]
      · simp [propSet, propGet, h0, hk]
    · by_cases hk : k = k'
      · subst hk
        simp [propSet, propGet, h0, ih]
      · by_cases h1 : k0 = k'
        · subst h1
          simp [propSet, propGet, h0, hk]
        · simp [propSet, propGet, h0, hk, h1, ih]

theorem propGet_propSet_same (o : Props) (k : String) (v : Val) :
    propGet (propSet o k v) k = v := by
  simp [propGet_propSet]

theorem tableGet_tableSet {α : Type} (t : List (String × α)) (k k' : String) (v : α) :
    tableGet (tableSet t k v) k' = if k = k' then some v else tableGet t k' := by
  induction t with
  | nil =>
    by_cases hk : k = k' <;> simp [tableSet, tableGet, hk]
  | cons p t ih =>
    obtain ⟨k0, v0⟩ := p
    by_cases h0 : k0 = k
    · by_cases hk : k = k'
      · simp [tableSet, tableGet, h0, hk]
      · simp [tableSet, tableGet, h0, hk]
    · by_cases hk : k = k'
      · subst hk
        simp [tableSet, tableGet, h0, ih]
      · by_cases h1 : k0 = k'
        · subst h1
          simp [tableSet, tableGet, h0, hk]
        · simp [tableSet, tableGet, h0, hk, h1, ih]

theorem length_updAt (h : Heap) (a : Nat) (f : Props → Props) :
    (updAt h a f).length = h.length := by
  induction h generalizing a with
  | nil => simp [updAt]
  | cons o h ih =>
    cases a with
    | zero => simp [updAt]
    | succ a => simp [updAt, ih]

theorem getElem?_updAt (h : Heap) (a b : Nat) (f : Props → Props) :
    (updAt h a f)[b]? = if a = b then (h[b]?).map f else h[b]? := by
  induction h generalizing a b with
  | nil => simp [updAt]
  | cons o h ih =>
    cases a with
    | zero =>
      cases b with
      | zero => simp [updAt]
      | succ b => simp [updAt]
    | succ a =>
      cases b with
      | zero => simp [updAt]
      | succ b => simp [updAt, ih]

theorem field_updAt (h : Heap) (a b : Nat) (k k' : String) (x : Val) :
    field (updAt h a (fun o => propSet o k x)) b k' =
      if a = b ∧ k = k' ∧ a < h.length then x else field h b k' := by
  unfold field
  rw [getElem?_updAt]
  by_cases hab : a = b
  · subst hab
    by_cases hlt : a < h.length
    · by_cases hk : k = k' <;>
        simp [List.getElem?_eq_getElem hlt, propGet_propSet, hk, hlt]
    · have hnone : h[a]? = none := List.getElem?_eq_none (Nat.le_of_not_lt hlt)
      simp [hnone, hlt]
  · simp [hab]

theorem field_append (h l : Heap) (a : Nat) (k : String) (ha : a < h.length) :
    field (h ++ l) a k = field h a k := by
  unfold field
  rw [List.getElem?_append_left ha]

theorem field_lt_of_ne_undefined (h : Heap) (a : Nat) (k : String)
    (hne : field h a k ≠ Val.undefined) : a < h.length := by
  by_contra hlt
  have hnone : h[a]? = none := List.getElem?_eq_none (Nat.le_of_not_lt hlt)
  exact hne (by simp [field, hnone])

theorem readProp_ref (h : Heap) (a : Nat) (k : String) :
    readProp h (Val.ref a) k = some (field h a k) := rfl

theorem writeProp_ref (h : Heap) (a : Nat) (k : String) (x : Val) :
    writeProp h (Val.ref a) k x = some (updAt h a (fun o => propSet o k x)) := rfl

theorem addReferenceCount_ref (h : Heap) (e : Nat) (k : Int) :
    addReferenceCount h (Val.ref e) k =
      some (updAt h e (fun o => propSet o "referenceCount" (jsAdd (field h e "referenceCount") k))) := rfl

theorem subtractReferenceCount_ref (h : Heap) (e : Nat) (k : Int) :
    subtractReferenceCount h (Val.ref e) k =
      some (updAt h e (fun o => propSet o "referenceCount" (jsSub (field h e "referenceCount") k))) := rfl

theorem setImported_metadata (specifier : ImportSpecifierNode)
    (importedFileAddress traverseType : String) (cm : CurrentFileMetadata)
    (fm : FilesMetadata) (h : Heap) :
    (setImportedVariableInCurrentFileMetadata specifier importedFileAddress traverseType
        cm fm h).1.importedVariablesMetadata =
      tableSet cm.importedVariablesMetadata specifier.localName
        (importRecordOf specifier importedFileAddress h) ∧
    (setImportedVariableInCurrentFileMetadata specifier importedFileAddress traverseType
        cm fm h).2 =
      h ++ [[("referenceCount", Val.num 0), ("exportReferenceCount", Val.num 0)]] ∧
    (setImportedVariableInCurrentFileMetadata specifier importedFileAddress traverseType
        cm fm h).1.exportedVariables = cm.exportedVariables ∧
    (traverseType ≠ "CHECK_USAGE" →
      (setImportedVariableInCurrentFileMetadata specifier importedFileAddress traverseType
        cm fm h).1.importedVariables = cm.importedVariables) := by
  unfold setImportedVariableInCurrentFileMetadata importRecordOf getNewImportVariableObject
  by_cases h1 : specifier.type = "ImportSpecifier" <;>
  by_cases h2 : specifier.type = "ImportDefaultSpecifier" <;>
  by_cases h3 : traverseType = "CHECK_USAGE" <;>
  simp [h1, h2, h3] <;>
  (repeat' split) <;> simp_all


theorem updatePatternProperty_resolved (isObjectPattern : Bool) (s : Int)
    (importedFileAddress : String) (fm : FilesMetadata) (type : String)
    (property : PatternElement) (cm : CurrentFileMetadata) (h : Heap) (t i l : Val) (e : Nat)
    (hi : getImportedNameFromProperty property = some i)
    (hl : getLocalNameFromProperty property = some l)
    (ht : exportedVariablesOf fm importedFileAddress = some t)
    (he : readProp h t (toKey i) = some (Val.ref e)) :
    updatePatternProperty isObjectPattern s importedFileAddress fm type property cm h =
      ({ cm with importedVariables := propSet cm.importedVariables (toKey l) (Val.ref e) },
       if type = "DONT_UPDATE_REFERENCE_COUNT" then
         updAt h e (fun o => propSet o "referenceCount"
           (jsSub (field h e "referenceCount")
             ((if strictEq i l && isObjectPattern then 2 else 1) * s)))
       else h,
       Completion.normal) := by
  by_cases hty : type = "DONT_UPDATE_REFERENCE_COUNT"
  · simp [updatePatternProperty, hi, hl, ht, he, hty, propGet_propSet_same,
      subtractReferenceCount_ref]
  · simp [updatePatternProperty, hi, hl, ht, he, hty]

theorem destructured_binding_aux (addReferences : Bool) (cm : CurrentFileMetadata)
    (fm : FilesMetadata) (h : Heap) (importedFileAddress type : String)
    (property : PatternElement) (t i l : Val) (e : Nat) (n : Int) (isObjectPattern : Bool)
    (hi : getImportedNameFromProperty property = some i)
    (hl : getLocalNameFromProperty property = some l)
    (ht : exportedVariablesOf fm importedFileAddress = some t)
    (he : readProp h t (toKey i) = some (Val.ref e))
    (hn : field h e "referenceCount" = Val.num n) :
    field (updatePatternProperties isObjectPattern (valueToMultiplyWith addReferences)
        importedFileAddress fm type [property] cm h).2.1 e "referenceCount" =
      if type = "DONT_UPDATE_REFERENCE_COUNT" then
        Val.num (n - (if strictEq i l && isObjectPattern then 2 else 1) *
          valueToMultiplyWith addReferences)
      else Val.num n := by
  have hlt : e < h.length := field_lt_of_ne_undefined h e "referenceCount" (by simp [hn])
  simp only [updatePatternProperties,
    updatePatternProperty_resolved isObjectPattern _ importedFileAddress fm type property cm h
      t i l e hi hl ht he]
  by_cases hty : type = "DONT_UPDATE_REFERENCE_COUNT"
  · simp [hty, field_updAt, hlt, hn, jsSub]
  · simp [hty, hn]


theorem field_updAt_of_ne (h : Heap) (a b : Nat) (k k' : String) (x : Val)
    (hne : a ≠ b ∨ k ≠ k') :
    field (updAt h a (fun o => propSet o k x)) b k' = field h b k' := by
  rw [field_updAt]
  have : ¬ (a = b ∧ k = k' ∧ a < h.length) := by
    rintro ⟨h1, h2, _⟩
    rcases hne with hne | hne
    · exact hne h1
    · exact hne h2
  simp [this]

theorem field_updAt_same (h : Heap) (a : Nat) (k : String) (x : Val) (ha : a < h.length) :
    field (updAt h a (fun o => propSet o k x)) a k = x := by
  rw [field_updAt]
  simp [ha]

/-- What a successful property assignment leaves in the heap. -/
theorem writeProp_spec (h h2 : Heap) (v : Val) (k : String) (x : Val)
    (hw : writeProp h v k x = some h2) :
    h2.length = h.length ∧
    (∀ a k', (v ≠ Val.ref a ∨ k ≠ k') → field h2 a k' = field h a k') ∧
    (∀ a, v = Val.ref a → a < h.length → field h2 a k = x) := by
  cases v with
  | ref b =>
    simp only [writeProp_ref, Option.some.injEq] at hw
    subst hw
    refine ⟨length_updAt _ _ _, ?_, ?_⟩
    · intro a k' hne
      apply field_updAt_of_ne
      rcases hne with hne | hne
      · left
        intro hba
        exact hne (by rw [hba])
      · right
        exact hne
    · intro a ha hlt
      have hba : b = a := by simpa using ha
      subst hba
      exact field_updAt_same _ _ _ _ hlt
  | undefined => simp [writeProp] at hw
  | null => simp [writeProp] at hw
  | bool b =>
    simp only [writeProp, Option.some.injEq] at hw
    subst hw
    exact ⟨rfl, fun _ _ _ => rfl, fun a ha => by simp at ha⟩
  | num n =>
    simp only [writeProp, Option.some.injEq] at hw
    subst hw
    exact ⟨rfl, fun _ _ _ => rfl, fun a ha => by simp at ha⟩
  | nan =>
    simp only [writeProp, Option.some.injEq] at hw
    subst hw
    exact ⟨rfl, fun _ _ _ => rfl, fun a ha => by simp at ha⟩
  | str s =>
    simp only [writeProp, Option.some.injEq] at hw
    subst hw
    exact ⟨rfl, fun _ _ _ => rfl, fun a ha => by simp at ha⟩

/-- Re-export of an individually imported name: what `setExportVariable`
leaves in the heap. -/
theorem setExportVariable_alias (cm : CurrentFileMetadata) (fm : FilesMetadata) (h : Heap)
    (pair : KeyValuePair) (imported : ImportRecord) (tt tc e : Nat)
    (hty : imported.type ≠ "ALL_EXPORTS_IMPORTED")
    (htt : exportedVariablesOf fm imported.importedFrom = some (Val.ref tt))
    (he : field h tt (toKey imported.name) = Val.ref e)
    (hv : pair.value ≠ Val.str "")
    (hcm : cm.exportedVariables = Val.ref tc)
    (htc : tc < h.length)
    (hetc : e ≠ tc)
    (hsep : ∀ m, field h e "individualFileReferencesMapping" = Val.ref m →
      m ≠ tc ∧ m ≠ tt ∧ m ≠ e) :
    ∃ h' c, setExportVariable cm fm h pair (some imported) = (cm, h', c) ∧
      h'.length = h.length ∧
      field h' tc (toKey pair.value) = Val.ref e ∧
      field h' tt (toKey imported.name) = Val.ref e ∧
      (∀ k, k ≠ "isEntryFileObject" → field h' e k = field h e k) ∧
      (∀ m, field h e "individualFileReferencesMapping" = Val.ref m → m < h.length →
        c = Completion.normal ∧
        field h' m cm.fileLocation = imported.referenceCountObject ∧
        field h' e "isEntryFileObject" =
          (if truthy (field h e "isEntryFileObject") then field h e "isEntryFileObject"
           else cm.isEntryFile)) := by
  -- the heap after the first assignment
  set h1 := updAt h tc (fun o => propSet o (toKey pair.value) (Val.ref e)) with hh1
  have hlen1 : h1.length = h.length := length_updAt _ _ _
  have h1tc : field h1 tc (toKey pair.value) = Val.ref e := field_updAt_same _ _ _ _ htc
  have h1e : ∀ k, field h1 e k = field h e k := fun k =>
    field_updAt_of_ne _ _ _ _ _ _ (Or.inl (Ne.symm hetc))
  have h1tt : field h1 tt (toKey imported.name) = Val.ref e := by
    rw [hh1, field_updAt]
    split
    · rfl
    · exact he
  have hstart : setExportVariable cm fm h pair (some imported) =
      match writeProp h1 (field h e "individualFileReferencesMapping") cm.fileLocation
          imported.referenceCountObject with
      | none => (cm, h1, Completion.throw)
      | some h2 =>
        if truthy (field h2 e "isEntryFileObject") then (cm, h2, Completion.normal)
        else (cm, updAt h2 e (fun o => propSet o "isEntryFileObject" cm.isEntryFile),
          Completion.normal) := by
    simp [setExportVariable, hty, htt, readProp_ref, he, hv, hcm, writeProp_ref, ← hh1, h1tc,
      h1e]
  rw [hstart]
  cases hw : writeProp h1 (field h e "individualFileReferencesMapping") cm.fileLocation
      imported.referenceCountObject with
  | none =>
    refine ⟨h1, Completion.throw, rfl, hlen1, h1tc, h1tt, fun k _ => h1e k, ?_⟩
    intro m hm _
    rw [hm] at hw
    simp [writeProp] at hw
  | some h2 =>
    obtain ⟨hlen2, hframe, hset⟩ := writeProp_spec _ _ _ _ _ hw
    have hne : ∀ a, (a = tc ∨ a = tt ∨ a = e) →
        ∀ k, field h2 a k = field h1 a k := by
      intro a ha k
      apply hframe
      left
      intro hm
      obtain ⟨hmtc, hmtt, hme⟩ := hsep a hm
      rcases ha with ha | ha | ha
      · exact hmtc ha
      · exact hmtt ha
      · exact hme ha
    have h2tc : field h2 tc (toKey pair.value) = Val.ref e := by
      rw [hne tc (Or.inl rfl)]; exact h1tc
    have h2tt : field h2 tt (toKey imported.name) = Val.ref e := by
      rw [hne tt (Or.inr (Or.inl rfl))]; exact h1tt
    have h2e : ∀ k, field h2 e k = field h e k := fun k => by
      rw [hne e (Or.inr (Or.inr rfl))]; exact h1e k
    have h2m : ∀ m, field h e "individualFileReferencesMapping" = Val.ref m → m < h.length →
        field h2 m cm.fileLocation = imported.referenceCountObject :=
      fun m hm hlt => hset m hm (by rw [hlen1]; exact hlt)
    simp only [h2e]
    by_cases htr : truthy (field h e "isEntryFileObject") = true
    · rw [if_pos htr]
      refine ⟨h2, Completion.normal, rfl, by rw [hlen2, hlen1], h2tc, h2tt,
        fun k _ => h2e k, fun m hm hlt => ⟨rfl, h2m m hm hlt, ?_⟩⟩
      rw [if_pos htr, h2e]
    · rw [if_neg htr]
      refine ⟨_, Completion.normal, rfl, ?_, ?_, ?_, ?_, ?_⟩
      · rw [length_updAt, hlen2, hlen1]
      · rw [field_updAt_of_ne _ _ _ _ _ _ (Or.inl hetc)]; exact h2tc
      · rw [field_updAt]
        split
        · rename_i hc
          obtain ⟨hc1, hc2, _⟩ := hc
          rw [← hc1, ← hc2] at he
          rw [he] at htr
          simp [truthy] at htr
        · exact h2tt
      · intro k hk
        rw [field_updAt_of_ne _ _ _ _ _ _ (Or.inr (Ne.symm hk))]; exact h2e k
      · intro m hm hlt
        obtain ⟨_, _, hme⟩ := hsep m hm
        have hlt_e : e < h.length :=
          field_lt_of_ne_undefined h e "individualFileReferencesMapping" (by simp [hm])
        refine ⟨rfl, ?_, ?_⟩
        · rw [field_updAt_of_ne _ _ _ _ _ _ (Or.inl (Ne.symm hme))]; exact h2m m hm hlt
        · rw [if_neg htr]
          exact field_updAt_same _ _ _ _ (by rw [hlen2, hlen1]; exact hlt_e)


theorem reExport_pairs (x : String) (kind : String) :
    getValuesFromStatement (reExportStatement x) kind =
      some [{ key := x, value := Val.str x }] := by
  simp [getValuesFromStatement, reExportStatement, reExportSpecifier, toKey]


/-- What a successful `target.referenceCount -= k` leaves in the heap. -/
theorem subtractReferenceCount_spec (h h1 : Heap) (v : Val) (k : Int)
    (hs : subtractReferenceCount h v k = some h1) :
    h1.length = h.length ∧
    (∀ a k', (v ≠ Val.ref a ∨ k' ≠ "referenceCount") → field h1 a k' = field h a k') ∧
    (∀ a n, v = Val.ref a → field h a "referenceCount" = Val.num n →
      field h1 a "referenceCount" = Val.num (n - k)) := by
  unfold subtractReferenceCount at hs
  cases hr : readProp h v "referenceCount" with
  | none => simp [hr] at hs
  | some old =>
    simp only [hr] at hs
    obtain ⟨hlen, hframe, hset⟩ := writeProp_spec _ _ _ _ _ hs
    refine ⟨hlen, ?_, ?_⟩
    · intro a k' hne
      apply hframe
      rcases hne with hne | hne
      · exact Or.inl hne
      · exact Or.inr (Ne.symm hne)
    · intro a n hv hn
      subst hv
      have hlt : a < h.length := field_lt_of_ne_undefined h a "referenceCount" (by simp [hn])
      rw [hset a rfl hlt]
      simp only [readProp_ref, Option.some.injEq] at hr
      rw [← hr, hn]
      rfl

/-- What a successful `target.referenceCount += k` leaves in the heap. -/
theorem addReferenceCount_spec (h h1 : Heap) (v : Val) (k : Int)
    (hs : addReferenceCount h v k = some h1) :
    h1.length = h.length ∧
    (∀ a k', (v ≠ Val.ref a ∨ k' ≠ "referenceCount") → field h1 a k' = field h a k') ∧
    (∀ a n, v = Val.ref a → field h a "referenceCount" = Val.num n →
      field h1 a "referenceCount" = Val.num (n + k)) := by
  unfold addReferenceCount at hs
  cases hr : readProp h v "referenceCount" with
  | none => simp [hr] at hs
  | some old =>
    simp only [hr] at hs
    obtain ⟨hlen, hframe, hset⟩ := writeProp_spec _ _ _ _ _ hs
    refine ⟨hlen, ?_, ?_⟩
    · intro a k' hne
      apply hframe
      rcases hne with hne | hne
      · exact Or.inl hne
      · exact Or.inr (Ne.symm hne)
    · intro a n hv hn
      subst hv
      have hlt : a < h.length := field_lt_of_ne_undefined h a "referenceCount" (by simp [hn])
      rw [hset a rfl hlt]
      simp only [readProp_ref, Option.some.injEq] at hr
      rw [← hr, hn]
      rfl

/-- Whether `target.referenceCount -= k` raises depends on the target only. -/
theorem subtractReferenceCount_isSome (h h' : Heap) (v : Val) (k k' : Int) :
    (subtractReferenceCount h v k).isSome = (subtractReferenceCount h' v k').isSome := by
  cases v <;> simp [subtractReferenceCount, readProp, writeProp]

/-- Whether `target.referenceCount += k` raises depends on the target only. -/
theorem addReferenceCount_isSome (h h' : Heap) (v : Val) (k k' : Int) :
    (addReferenceCount h v k).isSome = (addReferenceCount h' v k').isSome := by
  cases v <;> simp [addReferenceCount, readProp, writeProp]

/-- Numeric reference counts after `-= k` followed by `-= -k` on one target. -/
theorem subtract_then_restore (h h1 h2 : Heap) (v : Val) (k : Int)
    (h1s : subtractReferenceCount h v k = some h1)
    (h2s : subtractReferenceCount h1 v (-k) = some h2) :
    ∀ a n, field h a "referenceCount" = Val.num n →
      field h2 a "referenceCount" = Val.num n := by
  intro a n hn
  obtain ⟨_, hf1, hn1⟩ := subtractReferenceCount_spec _ _ _ _ h1s
  obtain ⟨_, hf2, hn2⟩ := subtractReferenceCount_spec _ _ _ _ h2s
  by_cases hv : v = Val.ref a
  · rw [hn2 a (n - k) hv (hn1 a n hv hn)]
    congr 1
    ring
  · rw [hf2 a _ (Or.inl hv), hf1 a _ (Or.inl hv)]
    exact hn

/-- Numeric reference counts after `+= k` followed by `+= -k` on one target. -/
theorem add_then_restore (h h1 h2 : Heap) (v : Val) (k : Int)
    (h1s : addReferenceCount h v k = some h1)
    (h2s : addReferenceCount h1 v (-k) = some h2) :
    ∀ a n, field h a "referenceCount" = Val.num n →
      field h2 a "referenceCount" = Val.num n := by
  intro a n hn
  obtain ⟨_, hf1, hn1⟩ := addReferenceCount_spec _ _ _ _ h1s
  obtain ⟨_, hf2, hn2⟩ := addReferenceCount_spec _ _ _ _ h2s
  by_cases hv : v = Val.ref a
  · rw [hn2 a (n + k) hv (hn1 a n hv hn)]
    congr 1
    ring
  · rw [hf2 a _ (Or.inl hv), hf1 a _ (Or.inl hv)]
    exact hn

theorem valueToMultiplyWith_false : valueToMultiplyWith false = -valueToMultiplyWith true := by
  decide

/-- The heap and scratch metadata after the accounting of an absent node. -/
theorem update_absent_eq (addReferences : Bool) (cm : CurrentFileMetadata)
    (fm : FilesMetadata) (h : Heap) (importedFileAddress type : String) :
    (updateImportedVariablesReferenceCountInRequireOrDynamicImportStatements none
      addReferences cm importedFileAddress fm type h).1 = cm ∧
    (updateImportedVariablesReferenceCountInRequireOrDynamicImportStatements none
      addReferences cm importedFileAddress fm type h).2.1 =
      match exportedVariablesOf fm importedFileAddress with
      | none => h
      | some t =>
        match readProp h t "default" with
        | none => h
        | some ev => (addReferenceCount h ev (valueToMultiplyWith addReferences)).getD h := by
  simp only [updateImportedVariablesReferenceCountInRequireOrDynamicImportStatements, one_mul]
  cases ht : exportedVariablesOf fm importedFileAddress with
  | none => simp
  | some t =>
    cases hd : readProp h t "default" with
    | none => simp [hd]
    | some ev =>
      cases hs : addReferenceCount h ev (valueToMultiplyWith addReferences) <;> simp [hd, hs]

/-- The heap and scratch metadata after the accounting of an `Identifier`. -/
theorem update_identifier_eq (addReferences : Bool) (cm : CurrentFileMetadata)
    (fm : FilesMetadata) (h : Heap) (importedFileAddress type name : String) :
    (updateImportedVariablesReferenceCountInRequireOrDynamicImportStatements
      (some (BindingNode.identifier name)) addReferences cm importedFileAddress fm type
      h).2.1 =
      match exportedVariablesOf fm importedFileAddress with
      | none => h
      | some t =>
        if type = "DONT_UPDATE_REFERENCE_COUNT" then
          (subtractReferenceCount h t (valueToMultiplyWith addReferences)).getD h
        else h := by
  simp only [updateImportedVariablesReferenceCountInRequireOrDynamicImportStatements, one_mul]
  cases ht : exportedVariablesOf fm importedFileAddress with
  | none => simp
  | some t =>
    by_cases hty : type = "DONT_UPDATE_REFERENCE_COUNT"
    · simp only [hty, if_true, propGet_propSet_same]
      cases hs : subtractReferenceCount h t (valueToMultiplyWith addReferences) <;> simp [hs]
    · simp [hty]

/-- The absent binding node: the second run undoes the first. -/
theorem restore_absent (cm : CurrentFileMetadata) (fm : FilesMetadata) (h : Heap)
    (importedFileAddress type : String) (a : Nat) (n : Int)
    (hn : field h a "referenceCount" = Val.num n) :
    field (updateImportedVariablesReferenceCountInRequireOrDynamicImportStatements none false
      (updateImportedVariablesReferenceCountInRequireOrDynamicImportStatements none true cm
        importedFileAddress fm type h).1 importedFileAddress fm type
      (updateImportedVariablesReferenceCountInRequireOrDynamicImportStatements none true cm
        importedFileAddress fm type h).2.1).2.1 a "referenceCount" = Val.num n := by
  rw [(update_absent_eq false _ fm _ importedFileAddress type).2,
    (update_absent_eq true cm fm h importedFileAddress type).2]
  cases ht : exportedVariablesOf fm importedFileAddress with
  | none => exact hn
  | some t =>
    simp only []
    cases hd : readProp h t "default" with
    | none =>
      simp only [hd]
      exact hn
    | some ev =>
      simp only []
      cases h1s : addReferenceCount h ev (valueToMultiplyWith true) with
      | none =>
        have hsome := addReferenceCount_isSome h h ev (valueToMultiplyWith true)
          (valueToMultiplyWith false)
        rw [h1s] at hsome
        cases h2s : addReferenceCount h ev (valueToMultiplyWith false) with
        | none =>
          simp only [Option.getD_none, hd, h2s]
          exact hn
        | some h2 => simp [h2s] at hsome
      | some h1 =>
        obtain ⟨_, hf1, _⟩ := addReferenceCount_spec _ _ _ _ h1s
        have hd1 : readProp h1 t "default" = some ev := by
          cases t with
          | ref tt =>
            rw [readProp_ref] at hd ⊢
            rw [hf1 tt "default" (Or.inr (by decide))]
            exact hd
          | undefined => exact hd
          | null => exact hd
          | bool b => exact hd
          | num m => exact hd
          | nan => exact hd
          | str s => exact hd
        have hsome := addReferenceCount_isSome h h1 ev (valueToMultiplyWith true)
          (valueToMultiplyWith false)
        rw [h1s] at hsome
        cases h2s : addReferenceCount h1 ev (valueToMultiplyWith false) with
        | none => simp [h2s] at hsome
        | some h2 =>
          simp only [Option.getD_some, hd1, h2s]
          refine add_then_restore h h1 h2 ev (valueToMultiplyWith true) h1s ?_ a n hn
          rw [← h2s, valueToMultiplyWith_false]

/-- An `Identifier` binding node: the second run undoes the first. -/
theorem restore_identifier (cm : CurrentFileMetadata) (fm : FilesMetadata) (h : Heap)
    (importedFileAddress type name : String) (a : Nat) (n : Int)
    (hn : field h a "referenceCount" = Val.num n) :
    field (updateImportedVariablesReferenceCountInRequireOrDynamicImportStatements
      (some (BindingNode.identifier name)) false
      (updateImportedVariablesReferenceCountInRequireOrDynamicImportStatements
        (some (BindingNode.identifier name)) true cm importedFileAddress fm type h).1
      importedFileAddress fm type
      (updateImportedVariablesReferenceCountInRequireOrDynamicImportStatements
        (some (BindingNode.identifier name)) true cm importedFileAddress fm type h).2.1).2.1
      a "referenceCount" = Val.num n := by
  rw [update_identifier_eq false _ fm _ importedFileAddress type name,
    update_identifier_eq true cm fm h importedFileAddress type name]
  cases ht : exportedVariablesOf fm importedFileAddress with
  | none => exact hn
  | some t =>
    by_cases hty : type = "DONT_UPDATE_REFERENCE_COUNT"
    · simp only [hty, if_true]
      cases h1s : subtractReferenceCount h t (valueToMultiplyWith true) with
      | none =>
        have hsome := subtractReferenceCount_isSome h h t (valueToMultiplyWith true)
          (valueToMultiplyWith false)
        rw [h1s] at hsome
        cases h2s : subtractReferenceCount h t (valueToMultiplyWith false) with
        | none =>
          simp only [Option.getD_none, h2s]
          exact hn
        | some h2 => simp [h2s] at hsome
      | some h1 =>
        have hsome := subtractReferenceCount_isSome h h1 t (valueToMultiplyWith true)
          (valueToMultiplyWith false)
        rw [h1s] at hsome
        cases h2s : subtractReferenceCount h1 t (valueToMultiplyWith false) with
        | none => simp [h2s] at hsome
        | some h2 =>
          simp only [Option.getD_some, h2s]
          refine subtract_then_restore h h1 h2 t (valueToMultiplyWith true) h1s ?_ a n hn
          rw [← h2s, valueToMultiplyWith_false]
    · simp only [hty, if_false]
      exact hn


/-- One property of a pattern whose names can be read, against a target whose
export table is an object: the scratch table gets the alias and, in the
`DONT_UPDATE_REFERENCE_COUNT` mode, the count of the resolved value is lowered. -/
theorem updatePatternProperty_step (isObjectPattern : Bool) (s : Int)
    (importedFileAddress : String) (fm : FilesMetadata) (type : String)
    (property : PatternElement) (cm : CurrentFileMetadata) (h : Heap) (tt : Nat) (i l : Val)
    (htt : exportedVariablesOf fm importedFileAddress = some (Val.ref tt))
    (hi : getImportedNameFromProperty property = some i)
    (hl : getLocalNameFromProperty property = some l) :
    updatePatternProperty isObjectPattern s importedFileAddress fm type property cm h =
      ({ cm with
         importedVariables := propSet cm.importedVariables (toKey l) (field h tt (toKey i)) },
       if type = "DONT_UPDATE_REFERENCE_COUNT" then
         (subtractReferenceCount h (field h tt (toKey i))
           ((if strictEq i l && isObjectPattern then 2 else 1) * s)).getD h
       else h,
       Completion.normal) := by
  by_cases hty : type = "DONT_UPDATE_REFERENCE_COUNT"
  · simp only [updatePatternProperty, hi, hl, htt, readProp_ref, hty, if_true,
      propGet_propSet_same]
    cases hs : subtractReferenceCount h (field h tt (toKey i))
      ((if strictEq i l && isObjectPattern then 2 else 1) * s) <;> simp [hs]
  · simp [updatePatternProperty, hi, hl, htt, readProp_ref, hty]

/-- A hole ends the loop. -/
theorem updatePatternProperty_hole (isObjectPattern : Bool) (s : Int)
    (importedFileAddress : String) (fm : FilesMetadata) (type : String)
    (property : PatternElement) (cm : CurrentFileMetadata) (h : Heap)
    (hi : getImportedNameFromProperty property = none) :
    updatePatternProperty isObjectPattern s importedFileAddress fm type property cm h =
      (cm, h, Completion.throw) := by
  cases property <;> simp [getImportedNameFromProperty] at hi
  simp [updatePatternProperty, getImportedNameFromProperty, getLocalNameFromProperty]

theorem getLocalName_isSome (property : PatternElement) (i : Val)
    (hi : getImportedNameFromProperty property = some i) :
    ∃ l, getLocalNameFromProperty property = some l := by
  cases property <;> simp [getImportedNameFromProperty, getLocalNameFromProperty] at hi ⊢

/-- Effect of the pattern loop on the heap, against a target whose export
table is an object that is not one of the destructured exports. -/
theorem pattern_run_effect (isObjectPattern : Bool) (s : Int) (importedFileAddress : String)
    (fm : FilesMetadata) (type : String) (tt : Nat)
    (htt : exportedVariablesOf fm importedFileAddress = some (Val.ref tt)) :
    ∀ (properties : List PatternElement) (cm : CurrentFileMetadata) (h : Heap),
      (∀ i ∈ properties.filterMap getImportedNameFromProperty,
        field h tt (toKey i) ≠ Val.ref tt) →
      (updatePatternProperties isObjectPattern s importedFileAddress fm type properties cm
        h).2.1.length = h.length ∧
      (∀ k, field (updatePatternProperties isObjectPattern s importedFileAddress fm type
        properties cm h).2.1 tt k = field h tt k) ∧
      (∀ a n, field h a "referenceCount" = Val.num n →
        field (updatePatternProperties isObjectPattern s importedFileAddress fm type
          properties cm h).2.1 a "referenceCount" =
          Val.num (n - s * patternDelta isObjectPattern type (field h tt) properties a)) := by
  intro properties
  induction properties with
  | nil =>
    intro cm h _
    refine ⟨rfl, fun _ => rfl, fun a n hn => ?_⟩
    simpa [updatePatternProperties, patternDelta] using hn
  | cons property rest ih =>
    intro cm h hfree
    cases hi : getImportedNameFromProperty property with
    | none =>
      have hstep := updatePatternProperty_hole isObjectPattern s importedFileAddress fm type
        property cm h hi
      refine ⟨?_, ?_, ?_⟩
      · simp [updatePatternProperties, hstep]
      · simp [updatePatternProperties, hstep]
      · intro a n hn
        simpa [updatePatternProperties, hstep, patternDelta, hi] using hn
    | some i =>
      obtain ⟨l, hl⟩ := getLocalName_isSome property i hi
      have hstep := updatePatternProperty_step isObjectPattern s importedFileAddress fm type
        property cm h tt i l htt hi hl
      have hself : field h tt (toKey i) ≠ Val.ref tt :=
        hfree i (by simp [List.filterMap_cons, hi])
      -- the heap after this property
      set w : Int := (if strictEq i l && isObjectPattern then 2 else 1) with hw
      set h1 : Heap :=
        if type = "DONT_UPDATE_REFERENCE_COUNT" then
          (subtractReferenceCount h (field h tt (toKey i)) (w * s)).getD h
        else h with hh1
      have hh1spec : h1.length = h.length ∧
          (∀ a k, (field h tt (toKey i) ≠ Val.ref a ∨ k ≠ "referenceCount") →
            field h1 a k = field h a k) ∧
          (∀ a n, field h a "referenceCount" = Val.num n →
            field h1 a "referenceCount" =
              Val.num (n - s * (if type = "DONT_UPDATE_REFERENCE_COUNT" ∧
                field h tt (toKey i) = Val.ref a then w else 0))) := by
        by_cases hty : type = "DONT_UPDATE_REFERENCE_COUNT"
        · cases hs : subtractReferenceCount h (field h tt (toKey i)) (w * s) with
          | none =>
            have : h1 = h := by simp [hh1, hty, hs]
            rw [this]
            refine ⟨rfl, fun _ _ _ => rfl, fun a n hn => ?_⟩
            have hnot : field h tt (toKey i) ≠ Val.ref a := by
              intro hv
              rw [hv] at hs
              simp [subtractReferenceCount_ref] at hs
            simpa [hnot] using hn
          | some hx =>
            have : h1 = hx := by simp [hh1, hty, hs]
            rw [this]
            obtain ⟨hlen, hframe, hnum⟩ := subtractReferenceCount_spec _ _ _ _ hs
            refine ⟨hlen, hframe, fun a n hn => ?_⟩
            by_cases hv : field h tt (toKey i) = Val.ref a
            · rw [hnum a n hv hn]
              simp [hty, hv, mul_comm]
            · rw [hframe a _ (Or.inl hv), hn]
              simp [hv]
        · have : h1 = h := by simp [hh1, hty]
          rw [this]
          refine ⟨rfl, fun _ _ _ => rfl, fun a n hn => ?_⟩
          simpa [hty] using hn
      obtain ⟨hlen1, hframe1, hnum1⟩ := hh1spec
      have htt1 : ∀ k, field h1 tt k = field h tt k := fun k => hframe1 tt k (Or.inl hself)
      have hlook : field h1 tt = field h tt := funext htt1
      have hfree1 : ∀ j ∈ rest.filterMap getImportedNameFromProperty,
          field h1 tt (toKey j) ≠ Val.ref tt := by
        intro j hj
        rw [htt1]
        exact hfree j (by simp [List.filterMap_cons, hi, hj])
      obtain ⟨ihlen, ihtt, ihnum⟩ := ih
        { cm with
          importedVariables := propSet cm.importedVariables (toKey l) (field h tt (toKey i)) }
        h1 hfree1
      have hrun : updatePatternProperties isObjectPattern s importedFileAddress fm type
          (property :: rest) cm h =
          updatePatternProperties isObjectPattern s importedFileAddress fm type rest
            { cm with
              importedVariables :=
                propSet cm.importedVariables (toKey l) (field h tt (toKey i)) } h1 := by
        simp only [updatePatternProperties, hstep]
      rw [hrun]
      refine ⟨by rw [ihlen, hlen1], fun k => by rw [ihtt, htt1], fun a n hn => ?_⟩
      rw [ihnum a _ (hnum1 a n hn), hlook]
      simp only [patternDelta, hi, hl]
      congr 1
      rw [← hw]
      ring


/-- Against a target with no record, or whose export table is not an object,
the pattern loop leaves the heap as it was. -/
theorem pattern_run_unresolved (isObjectPattern : Bool) (s : Int)
    (importedFileAddress : String) (fm : FilesMetadata) (type : String)
    (hno : ∀ tt, exportedVariablesOf fm importedFileAddress ≠ some (Val.ref tt)) :
    ∀ (properties : List PatternElement) (cm : CurrentFileMetadata) (h : Heap),
      (updatePatternProperties isObjectPattern s importedFileAddress fm type properties cm
        h).2.1 = h := by
  intro properties
  induction properties with
  | nil => intro cm h; rfl
  | cons property rest ih =>
    intro cm h
    have hheap : (updatePatternProperty isObjectPattern s importedFileAddress fm type
        property cm h).2.1 = h := by
      cases hi : getImportedNameFromProperty property with
      | none => rw [updatePatternProperty_hole _ _ _ _ _ _ _ _ hi]
      | some i =>
        obtain ⟨l, hl⟩ := getLocalName_isSome property i hi
        cases ht : exportedVariablesOf fm importedFileAddress with
        | none => simp [updatePatternProperty, hi, hl, ht]
        | some t =>
          cases t with
          | ref tt => exact absurd ht (hno tt)
          | undefined => simp [updatePatternProperty, hi, hl, ht, readProp]
          | null => simp [updatePatternProperty, hi, hl, ht, readProp]
          | bool b =>
            by_cases hty : type = "DONT_UPDATE_REFERENCE_COUNT" <;>
              simp [updatePatternProperty, hi, hl, ht, readProp, hty, propGet_propSet_same,
                subtractReferenceCount]
          | num m =>
            by_cases hty : type = "DONT_UPDATE_REFERENCE_COUNT" <;>
              simp [updatePatternProperty, hi, hl, ht, readProp, hty, propGet_propSet_same,
                subtractReferenceCount]
          | nan =>
            by_cases hty : type = "DONT_UPDATE_REFERENCE_COUNT" <;>
              simp [updatePatternProperty, hi, hl, ht, readProp, hty, propGet_propSet_same,
                subtractReferenceCount]
          | str x =>
            by_cases hty : type = "DONT_UPDATE_REFERENCE_COUNT" <;>
              simp [updatePatternProperty, hi, hl, ht, readProp, hty, propGet_propSet_same,
                subtractReferenceCount]
    rcases hres : updatePatternProperty isObjectPattern s importedFileAddress fm type
      property cm h with ⟨cm1, h1, c⟩
    rw [hres] at hheap
    simp only at hheap
    subst hheap
    cases c with
    | normal => simp only [updatePatternProperties, hres]; exact ih cm1 h1
    | throw => simp only [updatePatternProperties, hres]

/-- A pattern: the second run of the loop undoes the first. -/
theorem restore_pattern (isObjectPattern : Bool) (cm : CurrentFileMetadata)
    (fm : FilesMetadata) (h : Heap) (importedFileAddress type : String)
    (properties : List PatternElement)
    (hfree : ∀ tt, exportedVariablesOf fm importedFileAddress = some (Val.ref tt) →
      ∀ i ∈ properties.filterMap getImportedNameFromProperty,
        field h tt (toKey i) ≠ Val.ref tt)
    (a : Nat) (n : Int) (hn : field h a "referenceCount" = Val.num n) :
    field (updatePatternProperties isObjectPattern (valueToMultiplyWith false)
      importedFileAddress fm type properties
      (updatePatternProperties isObjectPattern (valueToMultiplyWith true)
        importedFileAddress fm type properties cm h).1
      (updatePatternProperties isObjectPattern (valueToMultiplyWith true)
        importedFileAddress fm type properties cm h).2.1).2.1 a "referenceCount" =
      Val.num n := by
  by_cases hres : ∃ tt, exportedVariablesOf fm importedFileAddress = some (Val.ref tt)
  · obtain ⟨tt, htt⟩ := hres
    obtain ⟨_, h1tt, h1num⟩ := pattern_run_effect isObjectPattern (valueToMultiplyWith true)
      importedFileAddress fm type tt htt properties cm h (hfree tt htt)
    have hfree1 : ∀ i ∈ properties.filterMap getImportedNameFromProperty,
        field (updatePatternProperties isObjectPattern (valueToMultiplyWith true)
          importedFileAddress fm type properties cm h).2.1 tt (toKey i) ≠ Val.ref tt := by
      intro i hi
      rw [h1tt]
      exact hfree tt htt i hi
    obtain ⟨_, _, h2num⟩ := pattern_run_effect isObjectPattern (valueToMultiplyWith false)
      importedFileAddress fm type tt htt properties
      (updatePatternProperties isObjectPattern (valueToMultiplyWith true)
        importedFileAddress fm type properties cm h).1
      (updatePatternProperties isObjectPattern (valueToMultiplyWith true)
        importedFileAddress fm type properties cm h).2.1 hfree1
    rw [h2num a _ (h1num a n hn)]
    have hlook : field (updatePatternProperties isObjectPattern (valueToMultiplyWith true)
        importedFileAddress fm type properties cm h).2.1 tt = field h tt := funext h1tt
    rw [hlook, valueToMultiplyWith_false]
    congr 1
    ring
  · have hno : ∀ tt, exportedVariablesOf fm importedFileAddress ≠ some (Val.ref tt) :=
      fun tt htt => hres ⟨tt, htt⟩
    rw [pattern_run_unresolved isObjectPattern _ importedFileAddress fm type hno,
      pattern_run_unresolved isObjectPattern _ importedFileAddress fm type hno]
    exact hn


theorem unvisitedCount_mono (W V V' : List String) (hsub : ∀ g ∈ V, g ∈ V') :
    unvisitedCount W V' ≤ unvisitedCount W V := by
  unfold unvisitedCount
  apply Finset.card_le_card
  intro x hx
  simp only [Finset.mem_sdiff, List.mem_toFinset] at hx ⊢
  exact ⟨hx.1, fun hv => hx.2 (hsub x hv)⟩

theorem unvisitedCount_cons_lt (W V : List String) (f : String) (hW : f ∈ W) (hV : f ∉ V) :
    unvisitedCount W (f :: V) < unvisitedCount W V := by
  unfold unvisitedCount
  apply Finset.card_lt_card
  rw [Finset.ssubset_iff_of_subset]
  · refine ⟨f, ?_, ?_⟩
    · simp [hW, hV]
    · simp
  · intro x hx
    simp only [Finset.mem_sdiff, List.mem_toFinset, List.mem_cons, not_or] at hx ⊢
    exact ⟨hx.1, hx.2.2⟩

theorem unvisitedCount_le_length (W V : List String) : unvisitedCount W V ≤ W.length := by
  unfold unvisitedCount
  exact le_trans (Finset.card_le_card Finset.sdiff_subset) (List.toFinset_card_le W)

theorem isFileNotVisited_iff (f : String) (fm : FilesMetadata) :
    isFileNotVisited f fm = true ↔ f ∉ fm.visitedFilesMapping := by
  simp [isFileNotVisited]

theorem forEachImportedFile_terminates {Ast : Type} (env : Collaborators Ast)
    (W : List String) (fuel : Nat)
    (recurse : String → FilesMetadata → Heap → Option (FilesMetadata × Heap × List String))
    (hrec : ∀ f fm h, f ∈ W → f ∉ fm.visitedFilesMapping →
      unvisitedCount W fm.visitedFilesMapping ≤ fuel → TraversalResult fm (recurse f fm h)) :
    ∀ (files : List String) (fm : FilesMetadata) (h : Heap),
      (∀ g ∈ files, g ∈ W) → unvisitedCount W fm.visitedFilesMapping ≤ fuel →
      ∃ fm1 h1 entered c,
        forEachImportedFile env recurse files fm h = some (fm1, h1, entered, c) ∧
        (∀ g ∈ fm.visitedFilesMapping, g ∈ fm1.visitedFilesMapping) ∧
        entered.Nodup ∧
        ∀ g ∈ entered, g ∉ fm.visitedFilesMapping ∧ g ∈ fm1.visitedFilesMapping := by
  intro files
  induction files with
  | nil =>
    intro fm h _ _
    exact ⟨fm, h, [], Completion.normal, rfl, fun g hg => hg, List.nodup_nil, by simp⟩
  | cons file rest ih =>
    intro fm h hW hfuel
    have hrest : ∀ g ∈ rest, g ∈ W := fun g hg => hW g (List.mem_cons_of_mem _ hg)
    -- the branch that does not recurse
    have hother : ∃ fm1 h1 entered c,
        (if isFileMappingNotPresent file fm then
          forEachImportedFile env recurse rest (addDefaultFileObject env file fm h).1
            (addDefaultFileObject env file fm h).2
         else forEachImportedFile env recurse rest fm h) = some (fm1, h1, entered, c) ∧
        (∀ g ∈ fm.visitedFilesMapping, g ∈ fm1.visitedFilesMapping) ∧
        entered.Nodup ∧
        ∀ g ∈ entered, g ∉ fm.visitedFilesMapping ∧ g ∈ fm1.visitedFilesMapping := by
      by_cases hp : isFileMappingNotPresent file fm = true
      · rw [if_pos hp]
        exact ih (addDefaultFileObject env file fm h).1 (addDefaultFileObject env file fm h).2
          hrest hfuel
      · rw [if_neg hp]
        exact ih fm h hrest hfuel
    by_cases hcond : (isFileNotVisited file fm && isFileExtensionValid file) = true
    · cases hex : env.isFileNotExcluded (ExclusionArgument.text file)
          (ExclusionArgument.regExp fm.excludedFilesRegex) with
      | none =>
        refine ⟨fm, h, [], Completion.throw, ?_, fun g hg => hg, List.nodup_nil, by simp⟩
        simp [forEachImportedFile, hcond, hex]
      | some b =>
        cases b with
        | false =>
          obtain ⟨fm1, h1, entered, c, hrun, hrest'⟩ := hother
          refine ⟨fm1, h1, entered, c, ?_, hrest'⟩
          simp only [forEachImportedFile, hcond, hex, if_true]
          exact hrun
        | true =>
          have hnv : file ∉ fm.visitedFilesMapping := by
            rw [Bool.and_eq_true] at hcond
            exact (isFileNotVisited_iff file fm).1 hcond.1
          set prepared : FilesMetadata × Heap :=
            if (tableGet fm.filesMapping file).isNone then addDefaultFileObject env file fm h
            else (fm, h) with hprep
          have hpv : prepared.1.visitedFilesMapping = fm.visitedFilesMapping := by
            by_cases hn : (tableGet fm.filesMapping file).isNone = true
            · simp [hprep, hn, addDefaultFileObject]
            · simp [hprep, hn]
          obtain ⟨fm1, h1, e1, hr1, hsub1, hnd1, hel1⟩ :=
            hrec file prepared.1 prepared.2 (hW file (List.mem_cons_self _ _))
              (by rw [hpv]; exact hnv) (by rw [hpv]; exact hfuel)
          rw [hpv] at hsub1 hel1
          obtain ⟨fm2, h2, e2, c, hr2, hsub2, hnd2, hel2⟩ := ih fm1 h1 hrest
            (le_trans (unvisitedCount_mono W _ _ hsub1) hfuel)
          refine ⟨fm2, h2, e1 ++ e2, c, ?_, fun g hg => hsub2 g (hsub1 g hg), ?_, ?_⟩
          · simp only [forEachImportedFile, hcond, hex, if_true]
            rw [← hprep, hr1]
            simp only [hr2]
          · rw [List.nodup_append]
            refine ⟨hnd1, hnd2, ?_⟩
            intro g hg1 hg2
            exact (hel2 g hg2).1 (hel1 g hg1).2
          · intro g hg
            rcases List.mem_append.1 hg with hg | hg
            · exact ⟨(hel1 g hg).1, hsub2 g (hel1 g hg).2⟩
            · exact ⟨fun hv => (hel2 g hg).1 (hsub1 g hv), (hel2 g hg).2⟩
    · obtain ⟨fm1, h1, entered, c, hrun, hrest'⟩ := hother
      refine ⟨fm1, h1, entered, c, ?_, hrest'⟩
      simp only [forEachImportedFile, hcond]
      exact hrun


theorem traverse_terminates {Ast : Type} (env : Collaborators Ast) (W : List String)
    (hW : ∀ cm files, env.getUsedFilesMapping cm = some files → ∀ f ∈ files, f ∈ W)
    (hvis : ∀ ast cm fm h, ∀ g ∈ fm.visitedFilesMapping,
      g ∈ (env.traverseAST ast cm fm h).2.1.visitedFilesMapping) :
    ∀ (fuel : Nat) (f : String) (fm : FilesMetadata) (h : Heap),
      f ∈ W → f ∉ fm.visitedFilesMapping →
      unvisitedCount W fm.visitedFilesMapping ≤ fuel →
      TraversalResult fm (traverseFileForCheckingUsage env fuel f fm h) := by
  intro fuel
  induction fuel with
  | zero =>
    intro f fm h hf hnv hfuel
    have := unvisitedCount_cons_lt W fm.visitedFilesMapping f hf hnv
    omega
  | succ fuel ih =>
    intro f fm h hf hnv hfuel
    set fm1 : FilesMetadata :=
      { fm with visitedFilesMapping := f :: fm.visitedFilesMapping } with hfm1
    have hsub1 : ∀ g ∈ fm.visitedFilesMapping, g ∈ fm1.visitedFilesMapping :=
      fun g hg => List.mem_cons_of_mem _ hg
    have hf1 : f ∈ fm1.visitedFilesMapping := List.mem_cons_self _ _
    have hcount1 : unvisitedCount W fm1.visitedFilesMapping ≤ fuel := by
      have := unvisitedCount_cons_lt W fm.visitedFilesMapping f hf hnv
      simp only [hfm1]
      omega
    -- a call that ends in the `catch` block or without recursion
    have hleaf : ∀ (fm2 : FilesMetadata) (h2 : Heap),
        (∀ g ∈ fm1.visitedFilesMapping, g ∈ fm2.visitedFilesMapping) →
        TraversalResult fm (some (countUnparsable fm2, h2, [f])) := by
      intro fm2 h2 hsub2
      refine ⟨countUnparsable fm2, h2, [f], rfl, fun g hg => hsub2 g (hsub1 g hg),
        List.nodup_singleton f, ?_⟩
      intro g hg
      rw [List.mem_singleton] at hg
      subst hg
      exact ⟨hnv, hsub2 g hf1⟩
    cases hb : env.buildAST f with
    | none =>
      have := hleaf fm1 h (fun g hg => hg)
      simpa [traverseFileForCheckingUsage, hb, ← hfm1] using this
    | some ast =>
      rcases ht : env.traverseAST ast (env.getDefaultCurrentFileMetadata f h).1 fm1
        (env.getDefaultCurrentFileMetadata f h).2 with ⟨cm2, fm2, h2, c⟩
      have hsub2 : ∀ g ∈ fm1.visitedFilesMapping, g ∈ fm2.visitedFilesMapping := by
        intro g hg
        have := hvis ast (env.getDefaultCurrentFileMetadata f h).1 fm1
          (env.getDefaultCurrentFileMetadata f h).2 g hg
        rw [ht] at this
        exact this
      cases c with
      | throw =>
        have := hleaf fm2 h2 hsub2
        simpa [traverseFileForCheckingUsage, hb, ← hfm1, ht] using this
      | normal =>
        cases hu : env.getUsedFilesMapping cm2 with
        | none =>
          have := hleaf fm2 h2 hsub2
          simpa [traverseFileForCheckingUsage, hb, ← hfm1, ht, hu] using this
        | some files =>
          obtain ⟨fm3, h3, entered, c3, hloop, hsub3, hnd3, hel3⟩ :=
            forEachImportedFile_terminates env W fuel (traverseFileForCheckingUsage env fuel)
              ih files fm2 h2 (hW cm2 files hu)
              (le_trans (unvisitedCount_mono W _ _ hsub2) hcount1)
          have hnotin : f ∉ entered := fun hin => (hel3 f hin).1 (hsub2 f hf1)
          have hel : ∀ g ∈ f :: entered,
              g ∉ fm.visitedFilesMapping ∧ g ∈ fm3.visitedFilesMapping := by
            intro g hg
            rcases List.mem_cons.1 hg with hg | hg
            · subst hg
              exact ⟨hnv, hsub3 g (hsub2 g hf1)⟩
            · exact ⟨fun hv => (hel3 g hg).1 (hsub2 g (hsub1 g hv)), (hel3 g hg).2⟩
          have hsub : ∀ g ∈ fm.visitedFilesMapping, g ∈ fm3.visitedFilesMapping :=
            fun g hg => hsub3 g (hsub2 g (hsub1 g hg))
          cases c3 with
          | normal =>
            refine ⟨fm3, h3, f :: entered, ?_, hsub, List.nodup_cons.2 ⟨hnotin, hnd3⟩, hel⟩
            simp [traverseFileForCheckingUsage, hb, ← hfm1, ht, hu, hloop]
          | throw =>
            refine ⟨countUnparsable fm3, h3, f :: entered, ?_, hsub,
              List.nodup_cons.2 ⟨hnotin, hnd3⟩, hel⟩
            simp [traverseFileForCheckingUsage, hb, ← hfm1, ht, hu, hloop]

theorem markEntryFile_visited (file : String) (fm : FilesMetadata) :
    (markEntryFile file fm).visitedFilesMapping = fm.visitedFilesMapping := by
  unfold markEntryFile
  cases tableGet fm.filesMapping file <;> rfl

/-- The run on the two modules that import each other: each is entered once. -/
theorem mutual_import_run :
    (checkFileUsage exampleCollaborators 3 "/src/a.js" emptyFilesMetadata []).map
      (fun r => (r.1.visitedFilesMapping, r.1.unparsableVistedFiles, r.2.2)) =
      some (["/src/b.js", "/src/a.js"], 0, ["/src/a.js", "/src/b.js"]) := by
  decide


/-- Every entry of a map with a sum is a reference to an object of the heap
with numeric counts. -/
theorem sumCounts_ext (h h1 : Heap) (o : Props) (n : Int)
    (hsum : sumCounts h o = some n)
    (hsame : ∀ r, r < h.length →
      field h1 r "referenceCount" = field h r "referenceCount" ∧
      field h1 r "exportReferenceCount" = field h r "exportReferenceCount") :
    sumCounts h1 o = some n := by
  induction o generalizing n with
  | nil => simpa [sumCounts] using hsum
  | cons p rest ih =>
    obtain ⟨k, v⟩ := p
    cases v with
    | ref r =>
      simp only [sumCounts] at hsum ⊢
      cases hx : field h r "referenceCount" with
      | num x =>
        cases hy : field h r "exportReferenceCount" with
        | num y =>
          cases hs : sumCounts h rest with
          | some s =>
            have hlt : r < h.length :=
              field_lt_of_ne_undefined h r "referenceCount" (by simp [hx])
            rw [(hsame r hlt).1, (hsame r hlt).2, hx, hy, ih s hs]
            simpa [hx, hy, hs] using hsum
          | none => simp [hx, hy, hs] at hsum
        | undefined => simp [hx, hy] at hsum
        | null => simp [hx, hy] at hsum
        | bool b => simp [hx, hy] at hsum
        | nan => simp [hx, hy] at hsum
        | str s => simp [hx, hy] at hsum
        | ref b => simp [hx, hy] at hsum
      | undefined => simp [hx] at hsum
      | null => simp [hx] at hsum
      | bool b => simp [hx] at hsum
      | nan => simp [hx] at hsum
      | str s => simp [hx] at hsum
      | ref b => simp [hx] at hsum
    | undefined => simp [sumCounts] at hsum
    | null => simp [sumCounts] at hsum
    | bool b => simp [sumCounts] at hsum
    | num x => simp [sumCounts] at hsum
    | nan => simp [sumCounts] at hsum
    | str s => simp [sumCounts] at hsum

theorem mappingSum_lt (h : Heap) (m : Nat) (n : Int) (hsum : mappingSum h m = some n) :
    m < h.length := by
  by_contra hlt
  have hnone : h[m]? = none := List.getElem?_eq_none (Nat.le_of_not_lt hlt)
  simp [mappingSum, hnone] at hsum

theorem mappingSum_append (h l : Heap) (m : Nat) (n : Int) (hsum : mappingSum h m = some n) :
    mappingSum (h ++ l) m = some n := by
  have hlt := mappingSum_lt h m n hsum
  unfold mappingSum at hsum ⊢
  rw [List.getElem?_append_left hlt]
  rw [List.getElem?_eq_getElem hlt] at hsum ⊢
  exact sumCounts_ext h (h ++ l) _ n hsum
    (fun r hr => ⟨field_append h l r _ hr, field_append h l r _ hr⟩)

theorem field_append_right (h l : Heap) (i : Nat) (k : String) :
    field (h ++ l) (h.length + i) k = field l i k := by
  unfold field
  rw [List.getElem?_append_right (Nat.le_add_right _ _)]
  simp

/-- Allocation keeps the invariant when every new object that holds a
per-importer map satisfies it. -/
theorem invariant_append (h l : Heap) (hinv : ReferenceCountInvariant h)
    (hnew : ∀ i m, field l i "individualFileReferencesMapping" = Val.ref m →
      ∃ n, field l i "referenceCount" = Val.num n ∧ mappingSum (h ++ l) m = some n) :
    ReferenceCountInvariant (h ++ l) := by
  intro e m hm
  by_cases hlt : e < h.length
  · rw [field_append h l e _ hlt] at hm
    obtain ⟨n, hn, hs⟩ := hinv e m hm
    exact ⟨n, by rw [field_append h l e _ hlt]; exact hn, mappingSum_append h l m n hs⟩
  · obtain ⟨i, hi⟩ : ∃ i, e = h.length + i := ⟨e - h.length, by omega⟩
    subst hi
    rw [field_append_right] at hm ⊢
    exact hnew i m hm

theorem getNewDefaultObject_eq (h : Heap) (fileLocation : String)
    (name isEntryFileObject : Val) :
    getNewDefaultObject h fileLocation name isEntryFileObject =
      (h.length + 1,
       h ++ [[],
         [("localName", if name = Val.undefined then Val.str "default" else name),
          ("firstReferencedAt", Val.str fileLocation),
          ("referenceCount", Val.num 0),
          ("isEntryFileObject",
            if isEntryFileObject = Val.undefined then Val.bool false else isEntryFileObject),
          ("individualFileReferencesMapping", Val.ref h.length)]]) := rfl

theorem mappingSum_append_right (h l : Heap) (i : Nat) :
    mappingSum (h ++ l) (h.length + i) =
      match l[i]? with
      | some o => sumCounts (h ++ l) o
      | none => none := by
  unfold mappingSum
  rw [List.getElem?_append_right (Nat.le_add_right _ _)]
  simp

/-- Part of C4: the entity that `getNewDefaultObject` makes has count 0 and an
empty per-importer map. -/
theorem getNewDefaultObject_entity (h : Heap) (fileLocation : String)
    (name isEntryFileObject : Val) :
    field (getNewDefaultObject h fileLocation name isEntryFileObject).2
      (getNewDefaultObject h fileLocation name isEntryFileObject).1 "referenceCount" =
      Val.num 0 ∧
    field (getNewDefaultObject h fileLocation name isEntryFileObject).2
      (getNewDefaultObject h fileLocation name isEntryFileObject).1
      "individualFileReferencesMapping" = Val.ref h.length ∧
    mappingSum (getNewDefaultObject h fileLocation name isEntryFileObject).2 h.length =
      some 0 := by
  rw [getNewDefaultObject_eq]
  simp only
  refine ⟨?_, ?_, ?_⟩
  · rw [field_append_right]
    simp [field, propGet]
  · rw [field_append_right]
    simp [field, propGet]
  · have := mappingSum_append_right h [[],
      [("localName", if name = Val.undefined then Val.str "default" else name),
       ("firstReferencedAt", Val.str fileLocation),
       ("referenceCount", Val.num 0),
       ("isEntryFileObject",
         if isEntryFileObject = Val.undefined then Val.bool false else isEntryFileObject),
       ("individualFileReferencesMapping", Val.ref h.length)]] 0
    rw [Nat.add_zero] at this
    rw [this]
    simp [sumCounts]

/-- Part of C4: `getNewDefaultObject` keeps the invariant. -/
theorem getNewDefaultObject_invariant (h : Heap) (fileLocation : String)
    (name isEntryFileObject : Val) (hinv : ReferenceCountInvariant h) :
    ReferenceCountInvariant (getNewDefaultObject h fileLocation name isEntryFileObject).2 := by
  have hmap := (getNewDefaultObject_entity h fileLocation name isEntryFileObject).2.2
  rw [getNewDefaultObject_eq] at hmap ⊢
  simp only at hmap ⊢
  apply invariant_append h _ hinv
  intro i m hm
  match i with
  | 0 => simp [field, propGet] at hm
  | 1 =>
    have hm' : m = h.length := by simpa [field, propGet] using hm.symm
    subst hm'
    exact ⟨0, by simp [field, propGet], hmap⟩
  | i + 2 => simp [field] at hm

/-- Part of C4: `setImportedVariableInCurrentFileMetadata` keeps the invariant. -/
theorem setImported_invariant (specifier : ImportSpecifierNode)
    (importedFileAddress traverseType : String) (cm : CurrentFileMetadata)
    (fm : FilesMetadata) (h : Heap) (hinv : ReferenceCountInvariant h) :
    ReferenceCountInvariant (setImportedVariableInCurrentFileMetadata specifier
      importedFileAddress traverseType cm fm h).2 := by
  rw [(setImported_metadata specifier importedFileAddress traverseType cm fm h).2.1]
  apply invariant_append h _ hinv
  intro i m hm
  match i with
  | 0 => simp [field, propGet] at hm
  | i + 1 => simp [field] at hm

/-- Part of C4: outside the `DONT_UPDATE_REFERENCE_COUNT` mode the accounting
of a binding node leaves the heap as it was. -/
theorem update_binding_heap (node : BindingNode) (addReferences : Bool)
    (cm : CurrentFileMetadata) (importedFileAddress : String) (fm : FilesMetadata)
    (type : String) (h : Heap) (hty : type ≠ "DONT_UPDATE_REFERENCE_COUNT") :
    (updateImportedVariablesReferenceCountInRequireOrDynamicImportStatements (some node)
      addReferences cm importedFileAddress fm type h).2.1 = h := by
  have hloop : ∀ (isObjectPattern : Bool) (properties : List PatternElement)
      (cm : CurrentFileMetadata),
      (updatePatternProperties isObjectPattern (valueToMultiplyWith addReferences)
        importedFileAddress fm type properties cm h).2.1 = h := by
    intro isObjectPattern properties
    induction properties with
    | nil => intro cm; rfl
    | cons property rest ih =>
      intro cm
      have hheap : (updatePatternProperty isObjectPattern (valueToMultiplyWith addReferences)
          importedFileAddress fm type property cm h).2.1 = h := by
        cases hi : getImportedNameFromProperty property with
        | none => rw [updatePatternProperty_hole _ _ _ _ _ _ _ _ hi]
        | some i =>
          obtain ⟨l, hl⟩ := getLocalName_isSome property i hi
          cases ht : exportedVariablesOf fm importedFileAddress with
          | none => simp [updatePatternProperty, hi, hl, ht]
          | some t =>
            cases hv : readProp h t (toKey i) with
            | none => simp [updatePatternProperty, hi, hl, ht, hv]
            | some v => simp [updatePatternProperty, hi, hl, ht, hv, hty]
      rcases hres : updatePatternProperty isObjectPattern (valueToMultiplyWith addReferences)
        importedFileAddress fm type property cm h with ⟨cm1, h1, c⟩
      rw [hres] at hheap
      simp only at hheap
      subst hheap
      cases c with
      | normal => simp only [updatePatternProperties, hres]; exact ih cm1
      | throw => simp only [updatePatternProperties, hres]
  cases node with
  | identifier name => rw [update_identifier_eq]; split <;> simp [hty]
  | objectPattern properties =>
    exact hloop true properties cm
  | arrayPattern elements =>
    exact hloop false elements cm
  | other => rfl


theorem extends_refl (h : Heap) : Extends h h :=
  ⟨le_refl _, fun _ _ hb => hb, fun _ _ => ⟨rfl, rfl⟩⟩

theorem extends_trans (h h1 h2 : Heap) (h01 : Extends h h1) (h12 : Extends h1 h2) :
    Extends h h2 := by
  obtain ⟨hl1, hm1, hf1⟩ := h01
  obtain ⟨hl2, hm2, hf2⟩ := h12
  refine ⟨le_trans hl1 hl2, fun b hb hmap => hm1 b hb (hm2 b (lt_of_lt_of_le hb hl1) hmap),
    fun r hr => ?_⟩
  have hr1 := lt_of_lt_of_le hr hl1
  exact ⟨(hf2 r hr1).1.trans (hf1 r hr).1, (hf2 r hr1).2.trans (hf1 r hr).2⟩

theorem safe_extends (h h1 : Heap) (v : Val) (hext : Extends h h1) (hv : Safe h v) :
    Safe h1 v := by
  intro b hb
  obtain ⟨hlt, hnot⟩ := hv b hb
  exact ⟨lt_of_lt_of_le hlt hext.1, fun hmap => hnot (hext.2.1 b hlt hmap)⟩

theorem zeroCounter_extends (h h1 : Heap) (v : Val) (hext : Extends h h1)
    (hv : ZeroCounter h v) : ZeroCounter h1 v := by
  obtain ⟨r, hr, hnot, hrc, herc⟩ := hv
  have hlt : r < h.length := field_lt_of_ne_undefined h r "referenceCount" (by simp [hrc])
  exact ⟨r, hr, fun hmap => hnot (hext.2.1 r hlt hmap),
    by rw [(hext.2.2 r hlt).1]; exact hrc, by rw [(hext.2.2 r hlt).2]; exact herc⟩

theorem safe_of_not_ref (h : Heap) (v : Val) (hv : ∀ b, v ≠ Val.ref b) : Safe h v :=
  fun b hb => absurd hb (hv b)

/-- Replacing an absent or zero entry of a per-importer map by a
reference-count object with both counts 0 keeps the sum. -/
theorem sumCounts_propSet (h : Heap) (o : Props) (loc : String) (r0 : Nat) (n : Int)
    (hsum : sumCounts h o = some n)
    (hold : propGet o loc = Val.undefined ∨ ZeroCounter h (propGet o loc))
    (hrc : field h r0 "referenceCount" = Val.num 0)
    (herc : field h r0 "exportReferenceCount" = Val.num 0) :
    sumCounts h (propSet o loc (Val.ref r0)) = some n := by
  induction o generalizing n with
  | nil =>
    simp only [sumCounts] at hsum
    simp only [propSet, sumCounts, hrc, herc]
    rw [← hsum]
    rfl
  | cons p rest ih =>
    obtain ⟨k, v⟩ := p
    by_cases hk : k = loc
    · subst hk
      simp only [propGet, if_true] at hold
      simp only [propSet, if_true]
      rcases hold with hold | ⟨r, hr, _, hrc', herc'⟩
      · subst hold
        simp [sumCounts] at hsum
      · subst hr
        simp only [sumCounts, hrc', herc', hrc, herc] at hsum ⊢
        exact hsum
    · simp only [propGet, hk, if_false] at hold
      simp only [propSet, hk, if_false]
      cases v with
      | ref r =>
        simp only [sumCounts] at hsum ⊢
        cases hs : sumCounts h rest with
        | none =>
          rw [hs] at hsum
          cases field h r "referenceCount" <;> cases field h r "exportReferenceCount" <;>
            simp at hsum
        | some s =>
          rw [ih s hs hold]
          rw [hs] at hsum
          exact hsum
      | undefined => simp [sumCounts] at hsum
      | null => simp [sumCounts] at hsum
      | bool b => simp [sumCounts] at hsum
      | num x => simp [sumCounts] at hsum
      | nan => simp [sumCounts] at hsum
      | str s => simp [sumCounts] at hsum

theorem not_mem_reserved (k : String) (hk : k ∉ reservedNames) :
    k ≠ "referenceCount" ∧ k ≠ "exportReferenceCount" ∧
    k ≠ "individualFileReferencesMapping" := by
  simp only [reservedNames, List.mem_cons, List.mem_singleton, not_or, List.mem_nil_iff,
    or_false] at hk
  exact hk

/-- A write under a name that is not reserved keeps the reserved properties,
the per-importer maps and the length of the heap. -/
theorem write_keeps_reserved (h : Heap) (a : Nat) (k : String) (v : Val)
    (hk : k ∉ reservedNames) :
    (∀ b k', k' ∈ reservedNames →
      field (updAt h a (fun o => propSet o k v)) b k' = field h b k') ∧
    (∀ m, IsMap (updAt h a (fun o => propSet o k v)) m ↔ IsMap h m) ∧
    Extends h (updAt h a (fun o => propSet o k v)) := by
  have hres : ∀ b k', k' ∈ reservedNames →
      field (updAt h a (fun o => propSet o k v)) b k' = field h b k' := by
    intro b k' hk'
    apply field_updAt_of_ne
    right
    intro heq
    exact hk (heq ▸ hk')
  have hmap : ∀ m, IsMap (updAt h a (fun o => propSet o k v)) m ↔ IsMap h m := by
    intro m
    unfold IsMap
    constructor
    · rintro ⟨e, he⟩
      exact ⟨e, by rw [← hres e _ (by simp [reservedNames])]; exact he⟩
    · rintro ⟨e, he⟩
      exact ⟨e, by rw [hres e _ (by simp [reservedNames])]; exact he⟩
  refine ⟨hres, hmap, ?_, ?_, ?_⟩
  · rw [length_updAt]
  · intro b _ hb
    exact (hmap b).1 hb
  · intro r _
    exact ⟨hres r _ (by simp [reservedNames]), hres r _ (by simp [reservedNames])⟩

theorem mappingSum_updAt_of_ne (h : Heap) (a m : Nat) (k : String) (v : Val) (n : Int)
    (hk : k ∉ reservedNames) (hne : a ≠ m) (hsum : mappingSum h m = some n) :
    mappingSum (updAt h a (fun o => propSet o k v)) m = some n := by
  obtain ⟨hres, _, _⟩ := write_keeps_reserved h a k v hk
  unfold mappingSum at hsum ⊢
  rw [getElem?_updAt, if_neg hne]
  cases ho : h[m]? with
  | none => simp [ho] at hsum
  | some o =>
    simp only [ho] at hsum ⊢
    exact sumCounts_ext h _ o n hsum (fun r _ =>
      ⟨hres r _ (by simp [reservedNames]), hres r _ (by simp [reservedNames])⟩)

/-- A write into an object that is not a per-importer map, under a name that
is not reserved, of a value that may be stored as an export. -/
theorem wellFormed_plain_write (h : Heap) (loc : String) (a : Nat) (k : String) (v : Val)
    (hwf : WellFormedHeap h loc) (ha : ¬ IsMap h a) (hk : k ∉ reservedNames)
    (hv : Safe h v) :
    WellFormedHeap (updAt h a (fun o => propSet o k v)) loc := by
  obtain ⟨hinv, hclosed, hzero⟩ := hwf
  obtain ⟨hres, hmap, hext⟩ := write_keeps_reserved h a k v hk
  refine ⟨?_, ?_, ?_⟩
  · intro e m hm
    rw [hres e _ (by simp [reservedNames])] at hm
    obtain ⟨n, hn, hs⟩ := hinv e m hm
    refine ⟨n, by rw [hres e _ (by simp [reservedNames])]; exact hn, ?_⟩
    have hne : a ≠ m := fun heq => ha (heq ▸ ⟨e, hm⟩)
    exact mappingSum_updAt_of_ne h a m k v n hk hne hs
  · intro b k' hk'
    rw [field_updAt]
    split
    · exact safe_extends h _ v hext hv
    · exact safe_extends h _ _ hext (hclosed b k' hk')
  · intro m hm
    have hm' := (hmap m).1 hm
    have hne : a ≠ m := fun heq => ha (heq ▸ hm')
    rw [field_updAt_of_ne _ _ _ _ _ _ (Or.inl hne)]
    rcases hzero m hm' with hz | hz
    · exact Or.inl hz
    · exact Or.inr (zeroCounter_extends h _ _ hext hz)

/-- The write of a zero reference-count object into a per-importer map, under
the address of the current file. -/
theorem wellFormed_map_write (h : Heap) (loc : String) (m : Nat) (v : Val)
    (hwf : WellFormedHeap h loc) (hm : IsMap h m) (hloc : loc ∉ reservedNames)
    (hv : ZeroCounter h v) :
    WellFormedHeap (updAt h m (fun o => propSet o loc v)) loc := by
  obtain ⟨hinv, hclosed, hzero⟩ := hwf
  obtain ⟨r0, hr0, hnot0, hrc0, herc0⟩ := hv
  subst hr0
  obtain ⟨hres, hmap, hext⟩ := write_keeps_reserved h m loc (Val.ref r0) hloc
  have hr0lt : r0 < h.length :=
    field_lt_of_ne_undefined h r0 "referenceCount" (by simp [hrc0])
  refine ⟨?_, ?_, ?_⟩
  · intro e m' hm'
    rw [hres e _ (by simp [reservedNames])] at hm'
    obtain ⟨n, hn, hs⟩ := hinv e m' hm'
    refine ⟨n, by rw [hres e _ (by simp [reservedNames])]; exact hn, ?_⟩
    by_cases hne : m = m'
    · subst hne
      have hlt := mappingSum_lt h m n hs
      unfold mappingSum at hs ⊢
      rw [getElem?_updAt, if_pos rfl]
      rw [List.getElem?_eq_getElem hlt] at hs ⊢
      simp only [Option.map_some'] at hs ⊢
      have hold : propGet h[m] loc = Val.undefined ∨ ZeroCounter h (propGet h[m] loc) := by
        have := hzero m hm
        simpa [field, List.getElem?_eq_getElem hlt] using this
      have hset := sumCounts_propSet h h[m] loc r0 n hs hold hrc0 herc0
      exact sumCounts_ext h _ _ n hset (fun r _ =>
        ⟨hres r _ (by simp [reservedNames]), hres r _ (by simp [reservedNames])⟩)
    · exact mappingSum_updAt_of_ne h m m' loc (Val.ref r0) n hloc hne hs
  · intro b k' hk'
    rw [field_updAt]
    split
    · intro b' hb'
      have : r0 = b' := by simpa using hb'
      subst this
      exact ⟨by rw [length_updAt]; exact hr0lt, fun hmap' => hnot0 ((hmap r0).1 hmap')⟩
    · exact safe_extends h _ _ hext (hclosed b k' hk')
  · intro m' hm'
    have hm'' := (hmap m').1 hm'
    rw [field_updAt]
    split
    · right
      exact zeroCounter_extends h _ _ hext ⟨r0, rfl, hnot0, hrc0, herc0⟩
    · rcases hzero m' hm'' with hz | hz
      · exact Or.inl hz
      · exact Or.inr (zeroCounter_extends h _ _ hext hz)


theorem isMap_lt (h : Heap) (m : Nat) (hinv : ReferenceCountInvariant h) (hm : IsMap h m) :
    m < h.length := by
  obtain ⟨e, he⟩ := hm
  obtain ⟨n, _, hs⟩ := hinv e m he
  exact mappingSum_lt h m n hs

/-- The entity that `setExportVariable` allocates for a local binding. -/
theorem wellFormed_alloc (h : Heap) (loc fileLocation key : String)
    (hwf : WellFormedHeap h loc) :
    WellFormedHeap (getNewDefaultObject h fileLocation (Val.str key) Val.undefined).2 loc ∧
    Extends h (getNewDefaultObject h fileLocation (Val.str key) Val.undefined).2 ∧
    Safe (getNewDefaultObject h fileLocation (Val.str key) Val.undefined).2
      (Val.ref (getNewDefaultObject h fileLocation (Val.str key) Val.undefined).1) := by
  obtain ⟨hinv, hclosed, hzero⟩ := hwf
  have hinv1 := getNewDefaultObject_invariant h fileLocation (Val.str key) Val.undefined
    hinv
  rw [getNewDefaultObject_eq] at hinv1 ⊢
  simp only [if_true, reduceCtorEq, if_false] at hinv1 ⊢
  set entity : Props :=
    [("localName", Val.str key), ("firstReferencedAt", Val.str fileLocation),
     ("referenceCount", Val.num 0), ("isEntryFileObject", Val.bool false),
     ("individualFileReferencesMapping", Val.ref h.length)] with hentity
  set h1 : Heap := h ++ [[], entity] with hh1
  have hold : ∀ a k, a < h.length → field h1 a k = field h a k :=
    fun a k ha => field_append h _ a k ha
  have hnew : ∀ i k, field h1 (h.length + i) k = field [[], entity] i k :=
    fun i k => field_append_right h _ i k
  have hsplit : ∀ a, a < h.length ∨ ∃ i, a = h.length + i := by
    intro a
    by_cases ha : a < h.length
    · exact Or.inl ha
    · exact Or.inr ⟨a - h.length, by omega⟩
  have hentityval : ∀ k, k ≠ "individualFileReferencesMapping" →
      ∀ b, propGet entity k ≠ Val.ref b := by
    intro k hk b
    simp only [hentity, propGet]
    split_ifs <;> simp_all
  have hmap : ∀ m, IsMap h1 m → IsMap h m ∨ m = h.length := by
    rintro m ⟨e, he⟩
    rcases hsplit e with ha | ⟨i, rfl⟩
    · rw [hold e _ ha] at he
      exact Or.inl ⟨e, he⟩
    · rw [hnew] at he
      match i with
      | 0 => simp [field, propGet] at he
      | 1 =>
        right
        simpa [field, propGet, hentity] using he.symm
      | i + 2 => simp [field] at he
  have hext : Extends h h1 := by
    refine ⟨by simp [hh1], ?_, fun r hr => ⟨hold r _ hr, hold r _ hr⟩⟩
    intro b hb hmb
    rcases hmap b hmb with hm | hm
    · exact hm
    · omega
  refine ⟨⟨hinv1, ?_, ?_⟩, hext, ?_⟩
  · intro a k hk
    rcases hsplit a with ha | ⟨i, rfl⟩
    · rw [hold a k ha]
      exact safe_extends h h1 _ hext (hclosed a k hk)
    · rw [hnew]
      apply safe_of_not_ref
      intro b
      match i with
      | 0 => simp [field, propGet]
      | 1 =>
        have := hentityval k hk b
        simpa [field] using this
      | i + 2 => simp [field]
  · intro m hm
    rcases hmap m hm with hm' | hm'
    · have hlt := isMap_lt h m hinv hm'
      rw [hold m _ hlt]
      rcases hzero m hm' with hz | hz
      · exact Or.inl hz
      · exact Or.inr (zeroCounter_extends h h1 _ hext hz)
    · subst hm'
      left
      have := hnew 0 loc
      rw [Nat.add_zero] at this
      rw [this]
      simp [field, propGet]
  · intro b hb
    have hb' : b = h.length + 1 := by simpa using hb.symm
    subst hb'
    refine ⟨by simp [hh1], ?_⟩
    intro hm
    rcases hmap _ hm with hm' | hm'
    · have := isMap_lt h _ hinv hm'
      omega
    · omega

/-- A well-formed state stays well formed when the heap is replaced by a
well-formed heap that extends it. -/
theorem wellFormedState_extends (cm : CurrentFileMetadata) (fm : FilesMetadata)
    (h h1 : Heap) (hst : WellFormedState cm fm h) (hext : Extends h h1)
    (hwf1 : WellFormedHeap h1 cm.fileLocation) : WellFormedState cm fm h1 := by
  obtain ⟨_, hloc, hexp, hentry, hfm, hrec⟩ := hst
  exact ⟨hwf1, hloc, safe_extends h h1 _ hext hexp, safe_extends h h1 _ hext hentry,
    fun address t ht => safe_extends h h1 _ hext (hfm address t ht),
    fun key record hk => ⟨(hrec key record hk).1,
      zeroCounter_extends h h1 _ hext (hrec key record hk).2⟩⟩

/-- A well-formed state stays well formed when the export table of the
scratch metadata is replaced by a value that may be stored as an export. -/
theorem wellFormedState_setExports (cm : CurrentFileMetadata) (fm : FilesMetadata)
    (h : Heap) (v : Val) (hst : WellFormedState cm fm h) (hv : Safe h v) :
    WellFormedState { cm with exportedVariables := v } fm h := by
  obtain ⟨hwf, hloc, _, hentry, hfm, hrec⟩ := hst
  exact ⟨hwf, hloc, hv, hentry, hfm, hrec⟩


theorem safe_ref (h : Heap) (a : Nat) (hs : Safe h (Val.ref a)) :
    a < h.length ∧ ¬ IsMap h a := hs a rfl

/-- An assignment `target[k] = x` through a value that is no per-importer
map, under a name that is not reserved. -/
theorem wellFormed_writeProp (h h1 : Heap) (loc : String) (target : Val) (k : String)
    (x : Val) (hwf : WellFormedHeap h loc) (ht : Safe h target) (hk : k ∉ reservedNames)
    (hx : Safe h x) (hw : writeProp h target k x = some h1) :
    WellFormedHeap h1 loc ∧ Extends h h1 := by
  cases target with
  | ref a =>
    simp only [writeProp_ref, Option.some.injEq] at hw
    subst hw
    exact ⟨wellFormed_plain_write h loc a k x hwf (safe_ref h a ht).2 hk hx,
      (write_keeps_reserved h a k x hk).2.2⟩
  | undefined => simp [writeProp] at hw
  | null => simp [writeProp] at hw
  | bool b =>
    simp only [writeProp, Option.some.injEq] at hw
    subst hw
    exact ⟨hwf, extends_refl h⟩
  | num n =>
    simp only [writeProp, Option.some.injEq] at hw
    subst hw
    exact ⟨hwf, extends_refl h⟩
  | nan =>
    simp only [writeProp, Option.some.injEq] at hw
    subst hw
    exact ⟨hwf, extends_refl h⟩
  | str s =>
    simp only [writeProp, Option.some.injEq] at hw
    subst hw
    exact ⟨hwf, extends_refl h⟩

/-- The assignment of a zero reference-count object into the value of an
`individualFileReferencesMapping` property. -/
theorem wellFormed_writeMap (h h1 : Heap) (loc : String) (owner mapping x : Val)
    (hwf : WellFormedHeap h loc) (hloc : loc ∉ reservedNames)
    (hm : readProp h owner "individualFileReferencesMapping" = some mapping)
    (hx : ZeroCounter h x) (hw : writeProp h mapping loc x = some h1) :
    WellFormedHeap h1 loc ∧ Extends h h1 := by
  cases mapping with
  | ref m =>
    have hmap : IsMap h m := by
      cases owner with
      | ref a =>
        rw [readProp_ref] at hm
        exact ⟨a, by simpa using hm⟩
      | undefined => simp [readProp] at hm
      | null => simp [readProp] at hm
      | bool b => simp [readProp] at hm
      | num n => simp [readProp] at hm
      | nan => simp [readProp] at hm
      | str s => simp [readProp] at hm
    simp only [writeProp_ref, Option.some.injEq] at hw
    subst hw
    exact ⟨wellFormed_map_write h loc m x hwf hmap hloc hx,
      (write_keeps_reserved h m loc x hloc).2.2⟩
  | undefined => simp [writeProp] at hw
  | null => simp [writeProp] at hw
  | bool b =>
    simp only [writeProp, Option.some.injEq] at hw
    subst hw
    exact ⟨hwf, extends_refl h⟩
  | num n =>
    simp only [writeProp, Option.some.injEq] at hw
    subst hw
    exact ⟨hwf, extends_refl h⟩
  | nan =>
    simp only [writeProp, Option.some.injEq] at hw
    subst hw
    exact ⟨hwf, extends_refl h⟩
  | str s =>
    simp only [writeProp, Option.some.injEq] at hw
    subst hw
    exact ⟨hwf, extends_refl h⟩

/-- A value read under a name other than `individualFileReferencesMapping`
may be stored as an export. -/
theorem safe_readProp (h : Heap) (loc : String) (target : Val) (k : String) (v : Val)
    (hwf : WellFormedHeap h loc) (hk : k ≠ "individualFileReferencesMapping")
    (hr : readProp h target k = some v) : Safe h v := by
  cases target with
  | ref a =>
    rw [readProp_ref] at hr
    have : field h a k = v := by simpa using hr
    rw [← this]
    exact hwf.2.1 a k hk
  | undefined => simp [readProp] at hr
  | null => simp [readProp] at hr
  | bool b =>
    have : v = Val.undefined := by simpa [readProp] using hr.symm
    subst this
    exact safe_of_not_ref h _ (by simp)
  | num n =>
    have : v = Val.undefined := by simpa [readProp] using hr.symm
    subst this
    exact safe_of_not_ref h _ (by simp)
  | nan =>
    have : v = Val.undefined := by simpa [readProp] using hr.symm
    subst this
    exact safe_of_not_ref h _ (by simp)
  | str s =>
    have : v = Val.undefined := by simpa [readProp] using hr.symm
    subst this
    exact safe_of_not_ref h _ (by simp)

theorem isEntryFileObject_not_reserved : "isEntryFileObject" ∉ reservedNames := by decide

/-- The tail of `setExportVariable` for an import alias, after the export
table has been assigned: the per-importer map and `isEntryFileObject`. -/
theorem alias_tail_keeps (cm cm1 : CurrentFileMetadata) (fm : FilesMetadata) (h h1 : Heap)
    (imported : ImportRecord) (toUpdate : Val)
    (hkeep : StepKeeps cm fm h cm1 h1)
    (hzero : ZeroCounter h1 imported.referenceCountObject)
    (hsafe : Safe h1 toUpdate) :
    StepKeeps cm fm h
      (match readProp h1 toUpdate "individualFileReferencesMapping" with
        | none => (cm1, h1, Completion.throw)
        | some mapping =>
          match writeProp h1 mapping cm1.fileLocation imported.referenceCountObject with
          | none => (cm1, h1, Completion.throw)
          | some h2 =>
            match readProp h2 toUpdate "isEntryFileObject" with
            | none => (cm1, h2, Completion.throw)
            | some isEntryFileObject =>
              if truthy isEntryFileObject then (cm1, h2, Completion.normal)
              else
                match writeProp h2 toUpdate "isEntryFileObject" cm1.isEntryFile with
                | some h3 => (cm1, h3, Completion.normal)
                | none => (cm1, h2, Completion.throw)).1
      (match readProp h1 toUpdate "individualFileReferencesMapping" with
        | none => (cm1, h1, Completion.throw)
        | some mapping =>
          match writeProp h1 mapping cm1.fileLocation imported.referenceCountObject with
          | none => (cm1, h1, Completion.throw)
          | some h2 =>
            match readProp h2 toUpdate "isEntryFileObject" with
            | none => (cm1, h2, Completion.throw)
            | some isEntryFileObject =>
              if truthy isEntryFileObject then (cm1, h2, Completion.normal)
              else
                match writeProp h2 toUpdate "isEntryFileObject" cm1.isEntryFile with
                | some h3 => (cm1, h3, Completion.normal)
                | none => (cm1, h2, Completion.throw)).2.1 := by
  obtain ⟨hst1, hext1, hloc1, hivm1⟩ := hkeep
  have hkeep1 : StepKeeps cm fm h cm1 h1 := ⟨hst1, hext1, hloc1, hivm1⟩
  cases hm : readProp h1 toUpdate "individualFileReferencesMapping" with
  | none => exact hkeep1
  | some mapping =>
    dsimp only
    cases hw : writeProp h1 mapping cm1.fileLocation imported.referenceCountObject with
    | none => exact hkeep1
    | some h2 =>
      dsimp only
      obtain ⟨hwf2, hext2⟩ := wellFormed_writeMap h1 h2 cm1.fileLocation toUpdate mapping
        imported.referenceCountObject hst1.1 hst1.2.1 hm hzero hw
      have hst2 : WellFormedState cm1 fm h2 := wellFormedState_extends cm1 fm h1 h2 hst1 hext2 hwf2
      have hkeep2 : StepKeeps cm fm h cm1 h2 :=
        ⟨hst2, extends_trans h h1 h2 hext1 hext2, hloc1, hivm1⟩
      cases hr : readProp h2 toUpdate "isEntryFileObject" with
      | none => exact hkeep2
      | some isEntryFileObject =>
        dsimp only
        by_cases htr : truthy isEntryFileObject = true
        · rw [if_pos htr]
          exact hkeep2
        · rw [if_neg htr]
          cases hw3 : writeProp h2 toUpdate "isEntryFileObject" cm1.isEntryFile with
          | none => exact hkeep2
          | some h3 =>
            obtain ⟨hwf3, hext3⟩ := wellFormed_writeProp h2 h3 cm1.fileLocation toUpdate
              "isEntryFileObject" cm1.isEntryFile hwf2 (safe_extends h1 h2 _ hext2 hsafe)
              isEntryFileObject_not_reserved hst2.2.2.2.1 hw3
            exact ⟨wellFormedState_extends cm1 fm h2 h3 hst2 hext3 hwf3,
              extends_trans h h2 h3 (extends_trans h h1 h2 hext1 hext2) hext3, hloc1, hivm1⟩


theorem stepKeeps_refl (cm : CurrentFileMetadata) (fm : FilesMetadata) (h : Heap)
    (hst : WellFormedState cm fm h) : StepKeeps cm fm h cm h :=
  ⟨hst, extends_refl h, rfl, rfl⟩

/-- `setExportVariable` for a local binding. -/
theorem setExportVariable_local_keeps (cm : CurrentFileMetadata) (fm : FilesMetadata)
    (h : Heap) (pair : KeyValuePair) (hst : WellFormedState cm fm h)
    (hname : toKey pair.value ∉ reservedNames) :
    StepKeeps cm fm h (setExportVariable cm fm h pair none).1
      (setExportVariable cm fm h pair none).2.1 := by
  obtain ⟨hwf1, hext1, hsafe1⟩ := wellFormed_alloc h cm.fileLocation cm.fileLocation pair.key
    hst.1
  have hst1 := wellFormedState_extends cm fm h _ hst hext1 hwf1
  simp only [setExportVariable]
  by_cases hv : pair.value = Val.str ""
  · simp only [hv, ne_eq, not_true_eq_false, if_false]
    exact ⟨wellFormedState_setExports cm fm _ _ hst1 hsafe1, hext1, rfl, rfl⟩
  · simp only [ne_eq, hv, not_false_eq_true, if_true]
    cases hw : writeProp (getNewDefaultObject h cm.fileLocation (Val.str pair.key)
        Val.undefined).2 cm.exportedVariables (toKey pair.value)
        (Val.ref (getNewDefaultObject h cm.fileLocation (Val.str pair.key)
          Val.undefined).1) with
    | none => exact ⟨hst1, hext1, rfl, rfl⟩
    | some h2 =>
      obtain ⟨hwf2, hext2⟩ := wellFormed_writeProp _ h2 cm.fileLocation cm.exportedVariables
        (toKey pair.value) _ hwf1 hst1.2.2.1 hname hsafe1 hw
      exact ⟨wellFormedState_extends cm fm _ h2 hst1 hext2 hwf2,
        extends_trans _ _ _ hext1 hext2, rfl, rfl⟩

/-- `setExportVariable` for an import alias. -/
theorem setExportVariable_alias_keeps (cm : CurrentFileMetadata) (fm : FilesMetadata)
    (h : Heap) (pair : KeyValuePair) (imported : ImportRecord)
    (hst : WellFormedState cm fm h) (hname : toKey pair.value ∉ reservedNames)
    (hrecName : toKey imported.name ≠ "individualFileReferencesMapping")
    (hrecZero : ZeroCounter h imported.referenceCountObject) :
    StepKeeps cm fm h (setExportVariable cm fm h pair (some imported)).1
      (setExportVariable cm fm h pair (some imported)).2.1 := by
  have hrefl := stepKeeps_refl cm fm h hst
  -- the value to set may be stored as an export
  have htoSet : ∀ toSet,
      (if imported.type = "ALL_EXPORTS_IMPORTED" then
        exportedVariablesOf fm imported.importedFrom
       else
        match exportedVariablesOf fm imported.importedFrom with
        | some t => readProp h t (toKey imported.name)
        | none => none) = some toSet → Safe h toSet := by
    intro toSet hts
    by_cases hty : imported.type = "ALL_EXPORTS_IMPORTED"
    · rw [if_pos hty] at hts
      exact hst.2.2.2.2.1 _ _ hts
    · rw [if_neg hty] at hts
      cases ht : exportedVariablesOf fm imported.importedFrom with
      | none => simp [ht] at hts
      | some t =>
        simp only [ht] at hts
        exact safe_readProp h cm.fileLocation t _ toSet hst.1 hrecName hts
  simp only [setExportVariable]
  cases hts : (if imported.type = "ALL_EXPORTS_IMPORTED" then
        exportedVariablesOf fm imported.importedFrom
       else
        match exportedVariablesOf fm imported.importedFrom with
        | some t => readProp h t (toKey imported.name)
        | none => none) with
  | none => exact hrefl
  | some toSet =>
    have hsafe := htoSet toSet hts
    dsimp only
    by_cases hv : pair.value = Val.str ""
    · simp only [hv, ne_eq, not_true_eq_false, if_false]
      have hst1 := wellFormedState_setExports cm fm h toSet hst hsafe
      exact alias_tail_keeps cm { cm with exportedVariables := toSet } fm h h imported toSet
        ⟨hst1, extends_refl h, rfl, rfl⟩ hrecZero hsafe
    · simp only [ne_eq, hv, not_false_eq_true, if_true]
      cases hw : writeProp h cm.exportedVariables (toKey pair.value) toSet with
      | none => exact hrefl
      | some h1 =>
        dsimp only
        obtain ⟨hwf1, hext1⟩ := wellFormed_writeProp h h1 cm.fileLocation cm.exportedVariables
          (toKey pair.value) toSet hst.1 hst.2.2.1 hname hsafe hw
        have hst1 := wellFormedState_extends cm fm h h1 hst hext1 hwf1
        have hkeep1 : StepKeeps cm fm h cm h1 := ⟨hst1, hext1, rfl, rfl⟩
        cases hr : readProp h1 cm.exportedVariables (toKey pair.value) with
        | none => exact hkeep1
        | some toUpdate =>
          dsimp only
          have hsafeU : Safe h1 toUpdate :=
            safe_readProp h1 cm.fileLocation cm.exportedVariables _ toUpdate hwf1
              (not_mem_reserved _ hname).2.2 hr
          exact alias_tail_keeps cm cm fm h h1 imported toUpdate hkeep1
            (zeroCounter_extends h h1 _ hext1 hrecZero) hsafeU

/-- A member of `Object.prototype` handed to `setExportVariable` raises when no
file record is stored under the address `undefined`, and nothing is stored. -/
theorem setExportVariable_inherited (cm : CurrentFileMetadata) (fm : FilesMetadata)
    (h : Heap) (pair : KeyValuePair) (key : String)
    (hfile : tableGet fm.filesMapping "undefined" = none) :
    setExportVariable cm fm h pair (some (inheritedMember key)) = (cm, h, Completion.throw) := by
  simp [setExportVariable, inheritedMember, exportedVariablesOf, hfile]

/-- Part of C4: `setExportedVariablesFromArray` keeps a well-formed state well
formed, for pairs whose exported names are not reserved property names and
with no file record stored under the address `undefined`. -/
theorem setExportedVariablesFromArray_keeps :
    ∀ (pairs : List KeyValuePair) (cm : CurrentFileMetadata) (fm : FilesMetadata)
      (h : Heap),
      WellFormedState cm fm h →
      tableGet fm.filesMapping "undefined" = none →
      (∀ pair ∈ pairs, toKey pair.value ∉ reservedNames) →
      WellFormedState (setExportedVariablesFromArray pairs cm fm h).1 fm
        (setExportedVariablesFromArray pairs cm fm h).2 := by
  intro pairs
  induction pairs with
  | nil => intro cm fm h hst _ _; exact hst
  | cons pair rest ih =>
    intro cm fm h hst hfile hnames
    have hname := hnames pair (List.mem_cons_self _ _)
    have hrest : ∀ p ∈ rest, toKey p.value ∉ reservedNames :=
      fun p hp => hnames p (List.mem_cons_of_mem _ hp)
    cases hrec : tableGet cm.importedVariablesMetadata pair.key with
    | none =>
      by_cases hkey : pair.key ∈ objectPrototypeNames
      · simp only [setExportedVariablesFromArray, importedVariableOf, hrec, hkey, if_true,
          setExportVariable_inherited cm fm h pair pair.key hfile]
        exact ih _ fm _ hst hfile hrest
      · obtain ⟨hst1, _, _, _⟩ := setExportVariable_local_keeps cm fm h pair hst hname
        simp only [setExportedVariablesFromArray, importedVariableOf, hrec, hkey, if_false]
        exact ih _ fm _ hst1 hfile hrest
    | some imported =>
      obtain ⟨hn, hz⟩ := hst.2.2.2.2.2 pair.key imported hrec
      obtain ⟨hst1, _, _, _⟩ := setExportVariable_alias_keeps cm fm h pair imported hst hname
        hn hz
      simp only [setExportedVariablesFromArray, importedVariableOf, hrec]
      exact ih _ fm _ hst1 hfile hrest


theorem field_eq_propGet (h : Heap) (a : Nat) (k : String) (hne : field h a k ≠ Val.undefined) :
    ∃ o, o ∈ h ∧ field h a k = propGet o k := by
  have hlt := field_lt_of_ne_undefined h a k hne
  refine ⟨h[a], List.getElem_mem _, ?_⟩
  simp [field, List.getElem?_eq_getElem hlt]

theorem propGet_mem (o : Props) (k : String) (hne : propGet o k ≠ Val.undefined) :
    (k, propGet o k) ∈ o := by
  induction o with
  | nil => simp [propGet] at hne
  | cons p rest ih =>
    obtain ⟨k0, v0⟩ := p
    by_cases hk : k0 = k
    · subst hk
      simp [propGet]
    · simp only [propGet, hk, if_false] at hne ⊢
      exact List.mem_cons_of_mem _ (ih hne)

theorem tableGet_mem {α : Type} (t : List (String × α)) (k : String) (v : α)
    (hget : tableGet t k = some v) : (k, v) ∈ t := by
  induction t with
  | nil => simp [tableGet] at hget
  | cons p rest ih =>
    obtain ⟨k0, v0⟩ := p
    by_cases hk : k0 = k
    · subst hk
      simp only [tableGet, if_true, Option.some.injEq] at hget
      subst hget
      exact List.mem_cons_self _ _
    · simp only [tableGet, hk, if_false] at hget
      exact List.mem_cons_of_mem _ (ih hget)

theorem invariant_of_check (h : Heap) (hc : invariantCheck h = true) :
    ReferenceCountInvariant h := by
  intro e m hm
  obtain ⟨o, ho, hfo⟩ := field_eq_propGet h e _ (by rw [hm]; simp)
  have hlt := field_lt_of_ne_undefined h e "individualFileReferencesMapping"
    (by rw [hm]; simp)
  have hall := List.all_eq_true.1 hc h[e] (List.getElem_mem _)
  have hfe : ∀ k, field h e k = propGet h[e] k := fun k => by
    simp [field, List.getElem?_eq_getElem hlt]
  rw [hfe] at hm
  rw [hm] at hall
  simp only at hall
  cases hrc : propGet h[e] "referenceCount" with
  | num n =>
    cases hs : mappingSum h m with
    | some s =>
      rw [hrc, hs] at hall
      simp only [decide_eq_true_eq] at hall
      exact ⟨n, by rw [hfe, hrc], by rw [hall]⟩
    | none => simp [hrc, hs] at hall
  | undefined => simp [hrc] at hall
  | null => simp [hrc] at hall
  | bool b => simp [hrc] at hall
  | nan => simp [hrc] at hall
  | str s => simp [hrc] at hall
  | ref b => simp [hrc] at hall

theorem not_isMap_of_check (h : Heap) (m : Nat) (hc : isMapCheck h m = false) :
    ¬ IsMap h m := by
  rintro ⟨e, he⟩
  obtain ⟨o, ho, hfo⟩ := field_eq_propGet h e _ (by rw [he]; simp)
  have : isMapCheck h m = true := by
    unfold isMapCheck
    rw [List.any_eq_true]
    exact ⟨o, ho, by rw [decide_eq_true_eq, ← hfo, he]⟩
  rw [hc] at this
  exact Bool.noConfusion this

theorem safe_of_check (h : Heap) (v : Val) (hc : safeCheck h v = true) : Safe h v := by
  intro b hb
  subst hb
  simp only [safeCheck, Bool.and_eq_true, decide_eq_true_eq, Bool.not_eq_true'] at hc
  exact ⟨hc.1, not_isMap_of_check h b hc.2⟩

theorem zeroCounter_of_check (h : Heap) (v : Val) (hc : zeroCounterCheck h v = true) :
    ZeroCounter h v := by
  cases v with
  | ref r =>
    simp only [zeroCounterCheck, Bool.and_eq_true, decide_eq_true_eq,
      Bool.not_eq_true'] at hc
    exact ⟨r, rfl, not_isMap_of_check h r hc.1.1, hc.1.2, hc.2⟩
  | undefined => simp [zeroCounterCheck] at hc
  | null => simp [zeroCounterCheck] at hc
  | bool b => simp [zeroCounterCheck] at hc
  | num n => simp [zeroCounterCheck] at hc
  | nan => simp [zeroCounterCheck] at hc
  | str s => simp [zeroCounterCheck] at hc

theorem wellFormedHeap_of_check (h : Heap) (fileLocation : String)
    (hc : wellFormedHeapCheck h fileLocation = true) : WellFormedHeap h fileLocation := by
  simp only [wellFormedHeapCheck, Bool.and_eq_true] at hc
  obtain ⟨⟨hinv, hclosed⟩, hzero⟩ := hc
  have hinv' := invariant_of_check h hinv
  refine ⟨hinv', ?_, ?_⟩
  · intro a k hk
    by_cases hu : field h a k = Val.undefined
    · rw [hu]
      exact safe_of_not_ref h _ (by simp)
    · obtain ⟨o, ho, hfo⟩ := field_eq_propGet h a k hu
      rw [hfo] at hu ⊢
      have hmem := propGet_mem o k hu
      have := List.all_eq_true.1 (List.all_eq_true.1 hclosed o ho) _ hmem
      simp only [Bool.or_eq_true, decide_eq_true_eq] at this
      rcases this with h1 | h1
      · exact absurd h1 hk
      · exact safe_of_check h _ h1
  · intro m hm
    have hlt := isMap_lt h m hinv' hm
    have := List.all_eq_true.1 hzero m (List.mem_range.2 hlt)
    simp only [Bool.or_eq_true, Bool.not_eq_true', decide_eq_true_eq] at this
    rcases this with (h1 | h1) | h1
    · exact absurd hm (not_isMap_of_check h m h1)
    · exact Or.inl h1
    · exact Or.inr (zeroCounter_of_check h _ h1)

theorem wellFormedState_of_check (cm : CurrentFileMetadata) (fm : FilesMetadata) (h : Heap)
    (hc : wellFormedStateCheck cm fm h = true) : WellFormedState cm fm h := by
  simp only [wellFormedStateCheck, Bool.and_eq_true, decide_eq_true_eq] at hc
  obtain ⟨⟨⟨⟨⟨hwf, hloc⟩, hexp⟩, hentry⟩, hfm⟩, hrec⟩ := hc
  refine ⟨wellFormedHeap_of_check h _ hwf, hloc, safe_of_check h _ hexp,
    safe_of_check h _ hentry, ?_, ?_⟩
  · intro address t ht
    unfold exportedVariablesOf at ht
    cases hg : tableGet fm.filesMapping address with
    | none => simp [hg] at ht
    | some r =>
      simp only [hg, Option.some.injEq] at ht
      subst ht
      exact safe_of_check h _ (List.all_eq_true.1 hfm _ (tableGet_mem _ _ _ hg))
  · intro key record hk
    have := List.all_eq_true.1 hrec _ (tableGet_mem _ _ _ hk)
    simp only [Bool.and_eq_true, decide_eq_true_eq] at this
    exact ⟨this.1, zeroCounter_of_check h _ this.2⟩


theorem not_invariant_of (h : Heap) (e m : Nat) (n s : Int)
    (hm : field h e "individualFileReferencesMapping" = Val.ref m)
    (hn : field h e "referenceCount" = Val.num n)
    (hs : mappingSum h m = some s) (hne : n ≠ s) : ¬ ReferenceCountInvariant h := by
  intro hinv
  obtain ⟨n', hn', hs'⟩ := hinv e m hm
  rw [hn] at hn'
  rw [hs] at hs'
  have h1 : n = n' := by simpa using hn'
  have h2 : s = n' := by simpa using hs'
  exact hne (h1.trans h2.symm)

/-- The `Identifier` branch wraps its lookup in `try`/`catch`: it completes
normally on every state, also when the target address has no file record. -/
theorem identifier_accounting_completes (addReferences : Bool) (cm : CurrentFileMetadata)
    (fm : FilesMetadata) (h : Heap) (importedFileAddress type name : String) :
    (updateImportedVariablesReferenceCountInRequireOrDynamicImportStatements
      (some (BindingNode.identifier name)) addReferences cm importedFileAddress fm type
      h).2.2 = Completion.normal := by
  simp only [updateImportedVariablesReferenceCountInRequireOrDynamicImportStatements]
  cases ht : exportedVariablesOf fm importedFileAddress with
  | none => rfl
  | some t =>
    by_cases hty : type = "DONT_UPDATE_REFERENCE_COUNT"
    · simp only [hty, if_true]
      cases hs : subtractReferenceCount h
        (propGet (propSet cm.importedVariables name t) name)
        (1 * valueToMultiplyWith addReferences) <;> rfl
    · simp only [hty, if_false]

/-! ## Patterns of any length -/

theorem imported_name_of_not_hole (property : PatternElement)
    (hp : property ≠ PatternElement.hole) :
    ∃ i l, getImportedNameFromProperty property = some i ∧
      getLocalNameFromProperty property = some l := by
  cases property <;> simp [getImportedNameFromProperty, getLocalNameFromProperty] at hp ⊢

/-- In front of the first hole the total weight is the sum of the weights. -/
theorem patternDelta_front (isObjectPattern : Bool) (look : String → Val) (e : Nat) :
    ∀ front : List PatternElement, PatternElement.hole ∉ front →
      patternDelta isObjectPattern "DONT_UPDATE_REFERENCE_COUNT" look front e =
        (front.map (elementWeight isObjectPattern look e)).sum := by
  intro front
  induction front with
  | nil => intro _; rfl
  | cons property rest ih =>
    intro hfront
    have hp : property ≠ PatternElement.hole := fun hc => hfront (by simp [hc])
    have hrest : PatternElement.hole ∉ rest := fun hc => hfront (List.mem_cons_of_mem _ hc)
    obtain ⟨i, l, hi, hl⟩ := imported_name_of_not_hole property hp
    simp only [patternDelta, hi, hl, List.map_cons, List.sum_cons, elementWeight, ih hrest,
      true_and]

/-- The loop over elements without a hole completes normally. -/
theorem updatePatternProperties_front (isObjectPattern : Bool) (s : Int)
    (importedFileAddress : String) (fm : FilesMetadata) (type : String) :
    ∀ (front : List PatternElement) (cm : CurrentFileMetadata) (h : Heap),
      PatternElement.hole ∉ front →
      (updatePatternProperties isObjectPattern s importedFileAddress fm type front cm h).2.2 =
        Completion.normal := by
  intro front
  induction front with
  | nil => intro cm h _; rfl
  | cons property rest ih =>
    intro cm h hfront
    have hp : property ≠ PatternElement.hole := fun hc => hfront (by simp [hc])
    have hrest : PatternElement.hole ∉ rest := fun hc => hfront (List.mem_cons_of_mem _ hc)
    obtain ⟨i, l, hi, hl⟩ := imported_name_of_not_hole property hp
    have hnormal : (updatePatternProperty isObjectPattern s importedFileAddress fm type
        property cm h).2.2 = Completion.normal := by
      simp only [updatePatternProperty, hi, hl]
      cases exportedVariablesOf fm importedFileAddress with
      | none => rfl
      | some t =>
        dsimp only
        cases readProp h t (toKey i) with
        | none => rfl
        | some v =>
          dsimp only
          split
          · split <;> rfl
          · rfl
    rcases hres : updatePatternProperty isObjectPattern s importedFileAddress fm type
      property cm h with ⟨cm1, h1, c⟩
    rw [hres] at hnormal
    simp only at hnormal
    subst hnormal
    simp only [updatePatternProperties, hres]
    exact ih cm1 h1 hrest

/-- The loop over a pattern: the elements in front, then the rest. -/
theorem updatePatternProperties_append (isObjectPattern : Bool) (s : Int)
    (importedFileAddress : String) (fm : FilesMetadata) (type : String) :
    ∀ (front back : List PatternElement) (cm : CurrentFileMetadata) (h : Heap),
      PatternElement.hole ∉ front →
      updatePatternProperties isObjectPattern s importedFileAddress fm type (front ++ back) cm
          h =
        updatePatternProperties isObjectPattern s importedFileAddress fm type back
          (updatePatternProperties isObjectPattern s importedFileAddress fm type front cm h).1
          (updatePatternProperties isObjectPattern s importedFileAddress fm type front cm
            h).2.1 := by
  intro front
  induction front with
  | nil => intro back cm h _; rfl
  | cons property rest ih =>
    intro back cm h hfront
    have hp : property ≠ PatternElement.hole := fun hc => hfront (by simp [hc])
    have hrest : PatternElement.hole ∉ rest := fun hc => hfront (List.mem_cons_of_mem _ hc)
    have hone := updatePatternProperties_front isObjectPattern s importedFileAddress fm type
      [property] cm h (by simpa using hp.symm)
    rcases hres : updatePatternProperty isObjectPattern s importedFileAddress fm type
      property cm h with ⟨cm1, h1, c⟩
    cases c with
    | normal =>
      simp only [List.cons_append, updatePatternProperties, hres]
      exact ih back cm1 h1 hrest
    | throw =>
      simp [updatePatternProperties, hres] at hone

/-- A pattern that is empty or opens with a hole: the loop changes nothing, and
it raises on the hole. -/
theorem updatePatternProperties_back (isObjectPattern : Bool) (s : Int)
    (importedFileAddress : String) (fm : FilesMetadata) (type : String)
    (back : List PatternElement) (cm : CurrentFileMetadata) (h : Heap)
    (hback : back = [] ∨ back.head? = some PatternElement.hole) :
    updatePatternProperties isObjectPattern s importedFileAddress fm type back cm h =
      (cm, h, if back = [] then Completion.normal else Completion.throw) := by
  cases back with
  | nil => rfl
  | cons property rest =>
    have hp : property = PatternElement.hole := by simpa using hback
    subst hp
    simp [updatePatternProperties, updatePatternProperty, getImportedNameFromProperty]

/-- The pattern loop in the `DONT_UPDATE_REFERENCE_COUNT` mode: the count of an
object is lowered by the total weight of the elements in front of the first
hole. -/
theorem pattern_run_counts (isObjectPattern : Bool) (s : Int) (importedFileAddress : String)
    (fm : FilesMetadata) (cm : CurrentFileMetadata) (h : Heap)
    (front back : List PatternElement) (tt e : Nat) (n : Int)
    (hfront : PatternElement.hole ∉ front)
    (hback : back = [] ∨ back.head? = some PatternElement.hole)
    (ht : exportedVariablesOf fm importedFileAddress = some (Val.ref tt))
    (hfree : ∀ i ∈ front.filterMap getImportedNameFromProperty,
      field h tt (toKey i) ≠ Val.ref tt)
    (hn : field h e "referenceCount" = Val.num n) :
    field (updatePatternProperties isObjectPattern s importedFileAddress fm
        "DONT_UPDATE_REFERENCE_COUNT" (front ++ back) cm h).2.1 e "referenceCount" =
      Val.num (n - s * (front.map (elementWeight isObjectPattern (field h tt) e)).sum) ∧
    (updatePatternProperties isObjectPattern s importedFileAddress fm
        "DONT_UPDATE_REFERENCE_COUNT" (front ++ back) cm h).2.2 =
      (if back = [] then Completion.normal else Completion.throw) := by
  rw [updatePatternProperties_append isObjectPattern s importedFileAddress fm _ front back cm h
    hfront, updatePatternProperties_back isObjectPattern s importedFileAddress fm _ back _ _
    hback]
  obtain ⟨-, -, hnum⟩ := pattern_run_effect isObjectPattern s importedFileAddress fm
    "DONT_UPDATE_REFERENCE_COUNT" tt ht front cm h hfree
  refine ⟨?_, rfl⟩
  simp only
  rw [hnum e n hn, patternDelta_front isObjectPattern (field h tt) e front hfront]

/-- An array pattern with a hole, `const [a, , a] = require("/src/m.js")`, on
the example state: the first element is counted, the hole raises and ends the
loop, and the element behind it is not counted. -/
theorem hole_ends_pattern_accounting :
    field (updateImportedVariablesReferenceCountInRequireOrDynamicImportStatements
      (some (BindingNode.arrayPattern
        [PatternElement.identifier "a", PatternElement.hole, PatternElement.identifier "a"]))
      true exampleCurrentFileMetadata "/src/m.js" exampleFilesMetadata
      "DONT_UPDATE_REFERENCE_COUNT" exampleHeap).2.1 4 "referenceCount" = Val.num (-1) ∧
    (updateImportedVariablesReferenceCountInRequireOrDynamicImportStatements
      (some (BindingNode.arrayPattern
        [PatternElement.identifier "a", PatternElement.hole, PatternElement.identifier "a"]))
      true exampleCurrentFileMetadata "/src/m.js" exampleFilesMetadata
      "DONT_UPDATE_REFERENCE_COUNT" exampleHeap).2.2 = Completion.throw := by
  decide

/-! ## Committing a pair whose local name is no import -/

/-- What `setExportedVariablesFromArray` does with one pair whose local name
has no import record and is no name of a member of `Object.prototype`: a new
entity is allocated and stored under the exported name, or as the whole export
table when that name is empty. -/
theorem commit_local_pair (cm : CurrentFileMetadata) (fm : FilesMetadata)
    (h : Heap) (pair : KeyValuePair) (tb : Nat)
    (hrec : tableGet cm.importedVariablesMetadata pair.key = none)
    (hkey : pair.key ∉ objectPrototypeNames)
    (htable : pair.value ≠ Val.str "" → cm.exportedVariables = Val.ref tb ∧ tb < h.length) :
    ∃ cm1 h1 e m,
      setExportedVariablesFromArray [pair] cm fm h = (cm1, h1) ∧
      h.length ≤ e ∧ h.length ≤ m ∧ e < h1.length ∧ m < h1.length ∧
      (pair.value ≠ Val.str "" →
        cm1 = cm ∧ field h1 tb (toKey pair.value) = Val.ref e ∧
        ∀ a k, a < h.length → (a ≠ tb ∨ k ≠ toKey pair.value) → field h1 a k = field h a k) ∧
      (pair.value = Val.str "" →
        cm1 = { cm with exportedVariables := Val.ref e } ∧
        ∀ a k, a < h.length → field h1 a k = field h a k) ∧
      field h1 e "localName" = Val.str pair.key ∧
      field h1 e "firstReferencedAt" = Val.str cm.fileLocation ∧
      field h1 e "referenceCount" = Val.num 0 ∧
      field h1 e "isEntryFileObject" = Val.bool false ∧
      field h1 e "individualFileReferencesMapping" = Val.ref m ∧
      ∀ k, field h1 m k = Val.undefined := by
  set entity : Props :=
    [("localName", Val.str pair.key), ("firstReferencedAt", Val.str cm.fileLocation),
     ("referenceCount", Val.num 0), ("isEntryFileObject", Val.bool false),
     ("individualFileReferencesMapping", Val.ref h.length)] with hentity
  have hnew : getNewDefaultObject h cm.fileLocation (Val.str pair.key) Val.undefined =
      (h.length + 1, h ++ [[], entity]) := by
    rw [getNewDefaultObject_eq]
    simp [hentity]
  have hfe : ∀ k, field (h ++ [[], entity]) (h.length + 1) k = propGet entity k := by
    intro k
    rw [field_append_right]
    simp [field]
  have hfm : ∀ k, field (h ++ [[], entity]) (h.length + 0) k = Val.undefined := by
    intro k
    rw [field_append_right]
    simp [field, propGet]
  by_cases hv : pair.value = Val.str ""
  · refine ⟨{ cm with exportedVariables := Val.ref (h.length + 1) }, h ++ [[], entity],
      h.length + 1, h.length, ?_, by omega, le_refl _, by simp, by simp, ?_, ?_, ?_, ?_, ?_, ?_,
      ?_, ?_⟩
    · simp [setExportedVariablesFromArray, importedVariableOf, hrec, hkey, setExportVariable,
        hnew, hv]
    · intro hne
      exact absurd hv hne
    · intro _
      exact ⟨rfl, fun a k ha => field_append _ _ _ _ ha⟩
    · rw [hfe]; simp [hentity, propGet]
    · rw [hfe]; simp [hentity, propGet]
    · rw [hfe]; simp [hentity, propGet]
    · rw [hfe]; simp [hentity, propGet]
    · rw [hfe]; simp [hentity, propGet]
    · exact hfm
  · obtain ⟨hcm, htb⟩ := htable hv
    have hne1 : tb ≠ h.length + 1 := by omega
    have hne0 : tb ≠ h.length := by omega
    refine ⟨cm, updAt (h ++ [[], entity]) tb (fun o => propSet o (toKey pair.value)
        (Val.ref (h.length + 1))),
      h.length + 1, h.length, ?_, by omega, le_refl _, ?_, ?_, ?_, ?_, ?_, ?_, ?_, ?_, ?_, ?_⟩
    · simp [setExportedVariablesFromArray, importedVariableOf, hrec, hkey, setExportVariable,
        hnew, hv, hcm, writeProp_ref]
    · rw [length_updAt]; simp
    · rw [length_updAt]; simp
    · intro _
      refine ⟨rfl, field_updAt_same _ _ _ _ (by simp; omega), ?_⟩
      intro a k ha hak
      have hak1 : tb ≠ a ∨ toKey pair.value ≠ k := by
        rcases hak with hak | hak
        · exact Or.inl (fun hc => hak hc.symm)
        · exact Or.inr (fun hc => hak hc.symm)
      rw [field_updAt_of_ne _ _ _ _ _ _ hak1, field_append _ _ _ _ ha]
    · intro hv'
      exact absurd hv' hv
    · rw [field_updAt_of_ne _ _ _ _ _ _ (Or.inl hne1), hfe]; simp [hentity, propGet]
    · rw [field_updAt_of_ne _ _ _ _ _ _ (Or.inl hne1), hfe]; simp [hentity, propGet]
    · rw [field_updAt_of_ne _ _ _ _ _ _ (Or.inl hne1), hfe]; simp [hentity, propGet]
    · rw [field_updAt_of_ne _ _ _ _ _ _ (Or.inl hne1), hfe]; simp [hentity, propGet]
    · rw [field_updAt_of_ne _ _ _ _ _ _ (Or.inl hne1), hfe]; simp [hentity, propGet]
    · intro k
      rw [field_updAt_of_ne _ _ _ _ _ _ (Or.inl hne0)]
      exact hfm k

/-! ## The regular expressions of `getLastFeasibleAddress` and `parseComment` -/

theorem searchDown_eq_some (p : Nat → Bool) (q : Nat) (hq : p q = true) :
    ∀ n, q < n → (∀ r, q < r → r < n → p r = false) → searchDown p n = some q := by
  intro n
  induction n with
  | zero => intro h; omega
  | succ n ih =>
    intro hlt hfail
    by_cases hn : n = q
    · subst hn
      simp [searchDown, hq]
    · have : p n = false := hfail n (by omega) (by omega)
      simp only [searchDown, this]
      exact ih (by omega) (fun r h1 h2 => hfail r h1 (by omega))

theorem searchDown_eq_none (p : Nat → Bool) :
    ∀ n, (∀ r, r < n → p r = false) → searchDown p n = none := by
  intro n
  induction n with
  | zero => intro _; rfl
  | succ n ih =>
    intro hfail
    simp only [searchDown, hfail n (by omega)]
    exact ih (fun r hr => hfail r (by omega))

theorem searchDown_accepts (p : Nat → Bool) (q : Nat) :
    ∀ n, searchDown p n = some q → p q = true := by
  intro n
  induction n with
  | zero => intro h; simp [searchDown] at h
  | succ n ih =>
    intro h
    by_cases hp : p n = true
    · simp [searchDown, hp] at h
      subst h
      exact hp
    · simp only [searchDown, hp] at h
      exact ih h

theorem length_utf16CodeUnits_pos (c : Char) : 0 < (utf16CodeUnits c).length := by
  unfold utf16CodeUnits
  split <;> simp

theorem toCodeUnits_append (s t : List Char) :
    toCodeUnits (s ++ t) = toCodeUnits s ++ toCodeUnits t := by
  induction s with
  | nil => rfl
  | cons c s ih => simp [toCodeUnits, ih]

theorem mem_toCodeUnits (u : Nat) :
    ∀ s : List Char, u ∈ toCodeUnits s → ∃ c ∈ s, u ∈ utf16CodeUnits c := by
  intro s
  induction s with
  | nil => intro h; simp [toCodeUnits] at h
  | cons c s ih =>
    intro h
    simp only [toCodeUnits, List.mem_append] at h
    rcases h with h | h
    · exact ⟨c, by simp, h⟩
    · obtain ⟨d, hd, hu⟩ := ih h
      exact ⟨d, by simp [hd], hu⟩

theorem slash_of_mem_utf16CodeUnits (c : Char) (h : 47 ∈ utf16CodeUnits c) : c = '/' := by
  unfold utf16CodeUnits at h
  split at h
  · simp only [List.mem_singleton] at h
    apply Char.ext
    apply UInt32.ext
    exact h.symm
  · simp only [List.mem_cons, List.mem_singleton, List.not_mem_nil, or_false] at h
    omega

theorem dotMatchesCodeUnit_of_mem (c : Char) (hc : dotMatches c = true) (u : Nat)
    (hu : u ∈ utf16CodeUnits c) : dotMatchesCodeUnit u = true := by
  unfold utf16CodeUnits at hu
  split at hu
  · simp only [List.mem_singleton] at hu
    subst hu
    exact hc
  · simp only [List.mem_cons, List.mem_singleton, List.not_mem_nil, or_false] at hu
    have h1 : 55296 ≤ u := by omega
    simp only [dotMatchesCodeUnit, Bool.not_eq_true', Bool.or_eq_false_iff, beq_eq_false_iff_ne,
      ne_eq]
    omega

theorem takeCodeUnits_append (pre rest : List Char) :
    takeCodeUnits (toCodeUnits pre).length (pre ++ rest) = pre := by
  induction pre with
  | nil =>
    cases rest with
    | nil => rfl
    | cons c rest =>
      have := length_utf16CodeUnits_pos c
      simp only [toCodeUnits, List.length_nil, List.nil_append, takeCodeUnits]
      rw [if_neg (by omega)]
  | cons c pre ih =>
    rw [List.cons_append, toCodeUnits, List.length_append, takeCodeUnits, if_pos (by omega),
      Nat.add_sub_cancel_left, ih]

theorem takeCodeUnits_all (s : List Char) : takeCodeUnits (toCodeUnits s).length s = s := by
  simpa using takeCodeUnits_append s []

/-- A slash of the code units stands between two characters. -/
theorem toCodeUnits_takeCodeUnits :
    ∀ (s : List Char) (q : Nat), (toCodeUnits s)[q]? = some 47 →
      toCodeUnits (takeCodeUnits q s) = (toCodeUnits s).take q := by
  intro s
  induction s with
  | nil => intro q h; simp [toCodeUnits] at h
  | cons c s ih =>
    intro q h
    by_cases hq : (utf16CodeUnits c).length ≤ q
    · have hget : (toCodeUnits s)[q - (utf16CodeUnits c).length]? = some 47 := by
        simp only [toCodeUnits] at h
        rw [List.getElem?_append_right hq] at h
        exact h
      simp only [takeCodeUnits, if_pos hq, toCodeUnits, ih _ hget]
      rw [List.take_append_eq_append_take, List.take_of_length_le hq]
    · have hmem : 47 ∈ utf16CodeUnits c := by
        simp only [toCodeUnits] at h
        rw [List.getElem?_append_left (by omega)] at h
        exact List.getElem?_mem h
      have hc := slash_of_mem_utf16CodeUnits c hmem
      subst hc
      have hq0 : q = 0 := by
        have : (utf16CodeUnits '/').length = 1 := by decide
        omega
      subst hq0
      simp [takeCodeUnits, utf16CodeUnits, toCodeUnits]

theorem replaceFeasible_prefix :
    ∀ u : List Nat, replaceFeasible u = u ∨
      ∃ q, u[q]? = some 47 ∧ replaceFeasible u = u.take q := by
  intro u
  induction u with
  | nil => exact Or.inl rfl
  | cons c s ih =>
    cases hm : matchFeasibleAt (c :: s) with
    | some q =>
      right
      refine ⟨q, ?_, by simp only [replaceFeasible, hm]⟩
      have := searchDown_accepts _ q _ hm
      simp only [Bool.and_eq_true, decide_eq_true_eq] at this
      exact this.1.2
    | none =>
      rcases ih with ih | ⟨q, hq, ih⟩
      · left
        simp only [replaceFeasible, hm, ih]
      · right
        exact ⟨q + 1, by simpa using hq, by simp only [replaceFeasible, hm, ih, List.take_succ_cons]⟩

/-- The code units of the result of `getLastFeasibleAddress` are the code
units that the replacement leaves. -/
theorem getLastFeasibleAddress_code_units (givenPath : String) :
    toCodeUnits (getLastFeasibleAddress givenPath).data =
      replaceFeasible (toCodeUnits givenPath.data) := by
  unfold getLastFeasibleAddress
  rcases replaceFeasible_prefix (toCodeUnits givenPath.data) with h | ⟨q, hq, h⟩
  · rw [h, takeCodeUnits_all]
  · have hlt : q < (toCodeUnits givenPath.data).length := by
      by_contra hge
      rw [List.getElem?_eq_none (by omega)] at hq
      exact absurd hq (by simp)
    have hlen : (replaceFeasible (toCodeUnits givenPath.data)).length = q := by
      rw [h, List.length_take]
      omega
    rw [hlen, h]
    exact toCodeUnits_takeCodeUnits givenPath.data q hq

theorem matchFeasibleAt_last_slash (pre post : List Nat) (hpre : 2 ≤ pre.length)
    (hpost : 47 ∉ post) (hdot : ∀ c ∈ pre ++ post, dotMatchesCodeUnit c = true) :
    matchFeasibleAt (pre ++ 47 :: post) = some pre.length := by
  unfold matchFeasibleAt
  apply searchDown_eq_some
  · have h1 : ∀ c ∈ pre, dotMatchesCodeUnit c = true := fun c hc => hdot c (by simp [hc])
    have h2 : ∀ c ∈ post, dotMatchesCodeUnit c = true := fun c hc => hdot c (by simp [hc])
    have ht : (pre ++ 47 :: post).take pre.length = pre := by simp
    have hd : (pre ++ 47 :: post).drop (pre.length + 1) = post := by
      rw [← List.drop_drop]
      simp
    have hg : (pre ++ 47 :: post)[pre.length]? = some 47 := by
      rw [List.getElem?_append_right (le_refl _)]
      simp
    rw [ht, hd, hg]
    simp only [hpre, decide_True, Bool.true_and, Bool.and_true, Bool.and_eq_true,
      List.all_eq_true]
    exact ⟨h1, h2⟩
  · simp
  · intro r h1 h2
    have hr : (pre ++ 47 :: post)[r]? ≠ some 47 := by
      rw [List.getElem?_append_right (by omega)]
      obtain ⟨j, hj⟩ : ∃ j, r - pre.length = j + 1 := ⟨r - pre.length - 1, by omega⟩
      rw [hj, List.getElem?_cons_succ]
      intro hc
      exact hpost (List.getElem?_mem hc)
    simp [hr]

theorem replaceFeasible_last_slash (pre post : List Nat) (hpre : 2 ≤ pre.length)
    (hpost : 47 ∉ post) (hdot : ∀ c ∈ pre ++ post, dotMatchesCodeUnit c = true) :
    replaceFeasible (pre ++ 47 :: post) = pre := by
  have hm := matchFeasibleAt_last_slash pre post hpre hpost hdot
  cases hp : pre with
  | nil => simp [hp] at hpre
  | cons c s =>
    rw [hp, List.cons_append] at hm
    rw [List.cons_append, replaceFeasible, hm, ← List.cons_append]
    simp

theorem replaceFeasible_unchanged :
    ∀ s : List Nat, (∀ q, 2 ≤ q → s[q]? ≠ some 47) → replaceFeasible s = s := by
  intro s
  induction s with
  | nil => intro _; rfl
  | cons c s ih =>
    intro hno
    have hm : matchFeasibleAt (c :: s) = none := by
      unfold matchFeasibleAt
      apply searchDown_eq_none
      intro r _
      by_cases h2 : 2 ≤ r
      · simp [hno r h2]
      · simp [h2]
    simp only [replaceFeasible, hm]
    rw [ih]
    intro q hq
    have := hno (q + 1) (by omega)
    simpa using this

/-- The leading text cut before its last slash. -/
theorem getLastFeasibleAddress_last_slash (pre post : List Char)
    (hpre : 2 ≤ (toCodeUnits pre).length) (hpost : '/' ∉ post)
    (hdot : ∀ c ∈ pre ++ post, dotMatches c = true) :
    getLastFeasibleAddress (String.mk (pre ++ '/' :: post)) = String.mk pre := by
  have hunits : toCodeUnits (pre ++ '/' :: post) =
      toCodeUnits pre ++ 47 :: toCodeUnits post := by
    rw [toCodeUnits_append]
    rfl
  have h47 : 47 ∉ toCodeUnits post := by
    intro hmem
    obtain ⟨c, hc, hu⟩ := mem_toCodeUnits 47 post hmem
    rw [slash_of_mem_utf16CodeUnits c hu] at hc
    exact hpost hc
  have hall : ∀ u ∈ toCodeUnits pre ++ toCodeUnits post, dotMatchesCodeUnit u = true := by
    intro u hu
    rw [← toCodeUnits_append] at hu
    obtain ⟨c, hc, hcu⟩ := mem_toCodeUnits u _ hu
    exact dotMatchesCodeUnit_of_mem c (hdot c hc) u hcu
  unfold getLastFeasibleAddress
  simp only [hunits, replaceFeasible_last_slash _ _ hpre h47 hall]
  rw [takeCodeUnits_append]

theorem getLastFeasibleAddress_unchanged (lead : List Char)
    (hno : ∀ q, 2 ≤ q → (toCodeUnits lead)[q]? ≠ some 47) :
    getLastFeasibleAddress (String.mk lead) = String.mk lead := by
  unfold getLastFeasibleAddress
  simp only [replaceFeasible_unchanged _ hno]
  rw [takeCodeUnits_all]

/-- A character outside the Basic Multilingual Plane counts as two code units:
the leading text of one such character (U+1F600) and a slash is cut before the
slash, while a leading text of one letter and a slash stays as it is. -/
theorem astral_leading_text_is_cut :
    toCodeUnits [Char.ofNat 128512, '/'] = [55357, 56832, 47] ∧
    getLastFeasibleAddress (String.mk [Char.ofNat 128512, '/']) =
      String.mk [Char.ofNat 128512] ∧
    getValueFromStringOrTemplateLiteral
        (some { type := "TemplateLiteral", value := Val.undefined,
                quasis := [Val.str (String.mk [Char.ofNat 128512, '/']), Val.str ""] }) =
      some { type := "UNRESOLVED TYPE", address := Val.str (String.mk [Char.ofNat 128512]) } ∧
    getLastFeasibleAddress "a/" = "a/" := by
  decide

theorem jsSplit_of_not_mem (separator : Char) (s : List Char) (hs : separator ∉ s) :
    jsSplit separator s = [s] := by
  induction s with
  | nil => rfl
  | cons c s ih =>
    have hc : c ≠ separator := fun hc => hs (by simp [hc])
    have hs1 : separator ∉ s := fun hm => hs (List.mem_cons_of_mem _ hm)
    simp [jsSplit, hc, ih hs1]

theorem jsSplit_append (separator : Char) (key value : List Char) (hkey : separator ∉ key) :
    jsSplit separator (key ++ separator :: value) = key :: jsSplit separator value := by
  induction key with
  | nil => simp [jsSplit]
  | cons c key ih =>
    have hc : c ≠ separator := fun hc => hkey (by simp [hc])
    have hk1 : separator ∉ key := fun hm => hkey (List.mem_cons_of_mem _ hm)
    simp [jsSplit, hc, ih hk1]

theorem jsSplit_key_value (key value : List Char) (hkey : ':' ∉ key) (hvalue : ':' ∉ value) :
    jsSplit ':' (key ++ ':' :: value) = [key, value] := by
  rw [jsSplit_append _ _ _ hkey, jsSplit_of_not_mem _ _ hvalue]

theorem replaceQuoted_quoted (q : Char) (mid : List Char) (hq : isQuote q = true)
    (hmid : ∀ c ∈ mid, dotMatches c = true) :
    replaceQuoted (q :: (mid ++ [q])) = mid := by
  have h1 : (mid ++ [q]).getLast? = some q := by simp
  have h2 : (mid ++ [q]).dropLast = mid := by simp
  simp only [replaceQuoted, hq, h1, h2, decide_True, Bool.true_and]
  have h3 : mid.all dotMatches = true := by simpa using hmid
  simp [h3]

/-- With exactly one colon and a value that is no quoted literal,
`parseComment` hands the value to the `RegExp` constructor. -/
theorem parseComment_unquoted (regExpAccepts : String → Bool) (key value : List Char)
    (hkey : ':' ∉ key) (hvalue : ':' ∉ value)
    (hnot : replaceQuoted (jsTrim value) = jsTrim value) :
    parseComment regExpAccepts (String.mk (key ++ ':' :: value)) =
      (if regExpAccepts (String.mk (replaceDelimited (jsTrim value))) then
        some { key := some (String.mk (jsTrim key))
               value := some (CommentValue.regExp (String.mk (replaceDelimited (jsTrim value))))
               valid := true }
       else none) := by
  simp only [parseComment, jsSplit_key_value key value hkey hvalue]
  simp [hnot]

/-- A text that `split` does not cut in two parts is no magic comment. -/
theorem parseComment_invalid (regExpAccepts : String → Bool) (comment : String)
    (hparts : (jsSplit ':' comment.data).length ≠ 2) :
    parseComment regExpAccepts comment = some { key := none, value := none, valid := false } := by
  unfold parseComment
  split
  · rename_i part0 part1 heq
    rw [heq] at hparts
    simp at hparts
  · rfl

/-! ## Chunk tables -/

theorem propSet_propSet_same (o : Props) (k : String) (v : Val) :
    propSet (propSet o k v) k v = propSet o k v := by
  induction o with
  | nil => simp [propSet]
  | cons p o ih =>
    obtain ⟨k', v'⟩ := p
    by_cases hk : k' = k
    · simp [propSet, hk]
    · simp [propSet, hk, ih]

theorem updAt_updAt_same (h : Heap) (a : Nat) (f : Props → Props) (hf : ∀ o, f (f o) = f o) :
    updAt (updAt h a f) a f = updAt h a f := by
  induction h generalizing a with
  | nil => simp [updAt]
  | cons o h ih =>
    cases a with
    | zero => simp [updAt, hf]
    | succ a => simp [updAt, ih]

theorem update_chunk_eq (givenFileAddress : String) (d : Val) (fm : FilesMetadata) (h : Heap)
    (record : FileRecord) (c : Nat) (name : Val)
    (hrec : tableGet fm.filesMapping givenFileAddress = some record)
    (hc : record.webpackChunkConfiguration = Val.ref c)
    (hname : readProp h d "webpackChunkName" = some name) :
    updateWebpackConfigurationOfImportedFile givenFileAddress d fm h =
      updAt h c (fun o => propSet o (toKey name) d) := by
  simp [updateWebpackConfigurationOfImportedFile, hrec, hc, hname, writeProp_ref]

theorem readProp_updAt_of_ne (h : Heap) (c : Nat) (k : String) (x d : Val) (k' : String)
    (hd : d ≠ Val.ref c) :
    readProp (updAt h c (fun o => propSet o k x)) d k' = readProp h d k' := by
  cases d with
  | ref a =>
    have hca : c ≠ a := fun hca => hd (by rw [hca])
    simp [readProp_ref, field_updAt_of_ne _ _ _ _ _ _ (Or.inl hca)]
  | _ => rfl

/-! ## Exclusion during the traversal -/

theorem present_tableSet (fm : FilesMetadata) (k : String) (v : FileRecord) (x : String)
    (hx : x = k ∨ isFileMappingNotPresent x fm = false) :
    isFileMappingNotPresent x { fm with filesMapping := tableSet fm.filesMapping k v } =
      false := by
  simp only [isFileMappingNotPresent, tableGet_tableSet]
  rcases hx with hx | hx
  · simp [hx]
  · split_ifs
    · rfl
    · exact hx

theorem present_addDefaultFileObject {Ast : Type} (env : Collaborators Ast) (file : String)
    (fm : FilesMetadata) (h : Heap) (x : String)
    (hx : x = file ∨ isFileMappingNotPresent x fm = false) :
    isFileMappingNotPresent x (addDefaultFileObject env file fm h).1 = false :=
  present_tableSet fm file _ x hx

theorem present_markEntryFile (file : String) (fm : FilesMetadata) (x : String)
    (hx : isFileMappingNotPresent x fm = false) :
    isFileMappingNotPresent x (markEntryFile file fm) = false := by
  unfold markEntryFile
  cases hg : tableGet fm.filesMapping file with
  | none => exact hx
  | some record => exact present_tableSet fm file _ x (Or.inr hx)

/-- The function of `helper.js` on the arguments of the checker's call: the
file's address arrives as `excludedFilesRegex` and the regular expression as
`directoyAbsoluteAddress`; the answer is never `true`. -/
theorem isFileNotExcluded_file_first (isFilePath : ExclusionArgument → Option Bool)
    (regExpTest : String → ExclusionArgument → Bool) (file regex : String) :
    isFileNotExcluded isFilePath regExpTest (ExclusionArgument.text file)
        (ExclusionArgument.regExp regex) =
      (if isFilePath (ExclusionArgument.regExp regex) = some false then some false else none) := by
  unfold isFileNotExcluded
  cases hp : isFilePath (ExclusionArgument.regExp regex) with
  | none => simp
  | some b => cases b <;> simp

theorem addDefaultFileObject_keeps {Ast : Type} (env : Collaborators Ast) (file : String)
    (fm : FilesMetadata) (h : Heap) :
    (addDefaultFileObject env file fm h).1.visitedFilesMapping = fm.visitedFilesMapping ∧
    (addDefaultFileObject env file fm h).1.unparsableVistedFiles = fm.unparsableVistedFiles ∧
    (addDefaultFileObject env file fm h).1.excludedFilesRegex = fm.excludedFilesRegex :=
  ⟨rfl, rfl, rfl⟩

theorem absent_addDefaultFileObject {Ast : Type} (env : Collaborators Ast) (file : String)
    (fm : FilesMetadata) (h : Heap) (x : String) (hne : x ≠ file)
    (hx : isFileMappingNotPresent x fm = true) :
    isFileMappingNotPresent x (addDefaultFileObject env file fm h).1 = true := by
  simp only [isFileMappingNotPresent, addDefaultFileObject, tableGet_tableSet] at hx ⊢
  rw [if_neg (fun hc => hne hc.symm)]
  exact hx

/-- With a function that never answers `true`, the loop enters no file. -/
theorem forEachImportedFile_enters_none {Ast : Type} (env : Collaborators Ast)
    (hnever : ∀ a b, env.isFileNotExcluded (ExclusionArgument.text a)
      (ExclusionArgument.regExp b) ≠ some true)
    (recurse : String → FilesMetadata → Heap → Option (FilesMetadata × Heap × List String)) :
    ∀ (files : List String) (fm : FilesMetadata) (h : Heap),
      ∃ fm1 h1 c, forEachImportedFile env recurse files fm h = some (fm1, h1, [], c) := by
  intro files
  induction files with
  | nil => intro fm h; exact ⟨fm, h, Completion.normal, rfl⟩
  | cons file rest ih =>
    intro fm h
    have hother : ∃ fm1 h1 c,
        (if isFileMappingNotPresent file fm then
          forEachImportedFile env recurse rest (addDefaultFileObject env file fm h).1
            (addDefaultFileObject env file fm h).2
         else forEachImportedFile env recurse rest fm h) = some (fm1, h1, [], c) := by
      by_cases hp : isFileMappingNotPresent file fm = true
      · rw [if_pos hp]; exact ih _ _
      · rw [if_neg hp]; exact ih _ _
    by_cases hcond : (isFileNotVisited file fm && isFileExtensionValid file) = true
    · cases hex : env.isFileNotExcluded (ExclusionArgument.text file)
          (ExclusionArgument.regExp fm.excludedFilesRegex) with
      | none =>
        exact ⟨fm, h, Completion.throw, by simp [forEachImportedFile, hcond, hex]⟩
      | some b =>
        cases b with
        | true => exact absurd hex (hnever _ _)
        | false =>
          obtain ⟨fm1, h1, c, hrun⟩ := hother
          refine ⟨fm1, h1, c, ?_⟩
          simp only [forEachImportedFile, hcond, hex, if_true]
          exact hrun
    · obtain ⟨fm1, h1, c, hrun⟩ := hother
      refine ⟨fm1, h1, c, ?_⟩
      simp only [forEachImportedFile, hcond]
      exact hrun

/-- With a function that never answers `true`, a call of the traversal returns
and is entered for its own file only. -/
theorem traverse_enters_none {Ast : Type} (env : Collaborators Ast)
    (hnever : ∀ a b, env.isFileNotExcluded (ExclusionArgument.text a)
      (ExclusionArgument.regExp b) ≠ some true)
    (fuel : Nat) (g : String) (fm : FilesMetadata) (h : Heap) :
    ∃ fm1 h1, traverseFileForCheckingUsage env (fuel + 1) g fm h = some (fm1, h1, [g]) := by
  simp only [traverseFileForCheckingUsage]
  cases env.buildAST g with
  | none => exact ⟨_, _, rfl⟩
  | some ast =>
    dsimp only
    rcases env.traverseAST ast (env.getDefaultCurrentFileMetadata g h).1
      { fm with visitedFilesMapping := g :: fm.visitedFilesMapping }
      (env.getDefaultCurrentFileMetadata g h).2 with ⟨cm2, fm2, h2, c⟩
    cases c with
    | throw => exact ⟨_, _, rfl⟩
    | normal =>
      dsimp only
      cases env.getUsedFilesMapping cm2 with
      | none => exact ⟨_, _, rfl⟩
      | some files =>
        dsimp only
        obtain ⟨fm3, h3, c3, hrun⟩ := forEachImportedFile_enters_none env hnever
          (traverseFileForCheckingUsage env fuel) files fm2 h2
        rw [hrun]
        cases c3 with
        | normal => exact ⟨_, _, rfl⟩
        | throw => exact ⟨_, _, rfl⟩

/-- When every call of the function raises, the loop ends at the first file
that is unvisited and has a valid extension: a file of the list that is
unvisited, has a valid extension and has no record gets none. -/
theorem forEachImportedFile_raises {Ast : Type} (env : Collaborators Ast) (regex : String)
    (hraise : ∀ a, env.isFileNotExcluded (ExclusionArgument.text a)
      (ExclusionArgument.regExp regex) = none)
    (recurse : String → FilesMetadata → Heap → Option (FilesMetadata × Heap × List String))
    (f : String) (hvalid : isFileExtensionValid f = true) :
    ∀ (files : List String) (fm : FilesMetadata) (h : Heap),
      f ∈ files → fm.excludedFilesRegex = regex →
      isFileNotVisited f fm = true → isFileMappingNotPresent f fm = true →
      ∃ fm1 h1, forEachImportedFile env recurse files fm h =
          some (fm1, h1, [], Completion.throw) ∧
        isFileMappingNotPresent f fm1 = true ∧
        fm1.visitedFilesMapping = fm.visitedFilesMapping ∧
        fm1.unparsableVistedFiles = fm.unparsableVistedFiles := by
  intro files
  induction files with
  | nil => intro fm h hf; simp at hf
  | cons file rest ih =>
    intro fm h hf hregex hnv hnp
    by_cases hcond : (isFileNotVisited file fm && isFileExtensionValid file) = true
    · refine ⟨fm, h, ?_, hnp, rfl, rfl⟩
      simp [forEachImportedFile, hcond, hregex, hraise file]
    · have hne : f ≠ file := by
        intro hc
        subst hc
        simp [hnv, hvalid] at hcond
      have hrest : f ∈ rest := by
        rcases List.mem_cons.1 hf with hc | hc
        · exact absurd hc hne
        · exact hc
      by_cases hp : isFileMappingNotPresent file fm = true
      · obtain ⟨fm1, h1, hrun, h1np, h1v, h1u⟩ := ih (addDefaultFileObject env file fm h).1
          (addDefaultFileObject env file fm h).2 hrest hregex hnv
          (absent_addDefaultFileObject env file fm h f hne hnp)
        refine ⟨fm1, h1, ?_, h1np, h1v, h1u⟩
        simp only [forEachImportedFile, hcond, hp, if_true]
        exact hrun
      · obtain ⟨fm1, h1, hrun, h1np, h1v, h1u⟩ := ih fm h hrest hregex hnv hnp
        refine ⟨fm1, h1, ?_, h1np, h1v, h1u⟩
        simp only [forEachImportedFile, hcond, hp]
        exact hrun

/-- When every call of the function answers `false`, the loop completes
normally and leaves a record for every file of the list. -/
theorem forEachImportedFile_all_excluded {Ast : Type} (env : Collaborators Ast)
    (regex : String)
    (hfalse : ∀ a, env.isFileNotExcluded (ExclusionArgument.text a)
      (ExclusionArgument.regExp regex) = some false)
    (recurse : String → FilesMetadata → Heap → Option (FilesMetadata × Heap × List String)) :
    ∀ (files : List String) (fm : FilesMetadata) (h : Heap),
      fm.excludedFilesRegex = regex →
      ∃ fm1 h1, forEachImportedFile env recurse files fm h =
          some (fm1, h1, [], Completion.normal) ∧
        (∀ x ∈ files, isFileMappingNotPresent x fm1 = false) ∧
        (∀ x, isFileMappingNotPresent x fm = false → isFileMappingNotPresent x fm1 = false) ∧
        fm1.visitedFilesMapping = fm.visitedFilesMapping ∧
        fm1.unparsableVistedFiles = fm.unparsableVistedFiles := by
  intro files
  induction files with
  | nil => intro fm h _; exact ⟨fm, h, rfl, by simp, fun _ hx => hx, rfl, rfl⟩
  | cons file rest ih =>
    intro fm h hregex
    have hother : ∃ fm1 h1,
        (if isFileMappingNotPresent file fm then
          forEachImportedFile env recurse rest (addDefaultFileObject env file fm h).1
            (addDefaultFileObject env file fm h).2
         else forEachImportedFile env recurse rest fm h) =
          some (fm1, h1, [], Completion.normal) ∧
        (∀ x ∈ file :: rest, isFileMappingNotPresent x fm1 = false) ∧
        (∀ x, isFileMappingNotPresent x fm = false → isFileMappingNotPresent x fm1 = false) ∧
        fm1.visitedFilesMapping = fm.visitedFilesMapping ∧
        fm1.unparsableVistedFiles = fm.unparsableVistedFiles := by
      by_cases hp : isFileMappingNotPresent file fm = true
      · rw [if_pos hp]
        obtain ⟨fm1, h1, hrun, hall, hmono, hv, hu⟩ := ih (addDefaultFileObject env file fm h).1
          (addDefaultFileObject env file fm h).2 hregex
        refine ⟨fm1, h1, hrun, ?_, ?_, hv, hu⟩
        · intro x hx
          rcases List.mem_cons.1 hx with hc | hc
          · exact hmono x (present_addDefaultFileObject env file fm h x (Or.inl hc))
          · exact hall x hc
        · intro x hx
          exact hmono x (present_addDefaultFileObject env file fm h x (Or.inr hx))
      · rw [if_neg hp]
        obtain ⟨fm1, h1, hrun, hall, hmono, hv, hu⟩ := ih fm h hregex
        refine ⟨fm1, h1, hrun, ?_, hmono, hv, hu⟩
        intro x hx
        rcases List.mem_cons.1 hx with hc | hc
        · subst hc
          exact hmono x (by simpa using hp)
        · exact hall x hc
    by_cases hcond : (isFileNotVisited file fm && isFileExtensionValid file) = true
    · obtain ⟨fm1, h1, hrun, hrest⟩ := hother
      refine ⟨fm1, h1, ?_, hrest⟩
      simp only [forEachImportedFile, hcond, hregex, hfalse file, if_true]
      exact hrun
    · obtain ⟨fm1, h1, hrun, hrest⟩ := hother
      refine ⟨fm1, h1, ?_, hrest⟩
      simp only [forEachImportedFile, hcond]
      exact hrun


/-- The runs of `checkFileUsage` for the entry file `/src/a.js`, which imports
`/src/vendor/lib.js` and `/src/b.js`, with the function of `helper.js`; each
result is given by the files that have a record, the visited files, the count
of unparsable files and the files entered.  When `isFilePath` answers `true` on
the regular expression, or raises on it, the first call raises: `/src/a.js` is
counted as unparsable and neither import gets a file record.  When `isFilePath`
answers `false` on it, both imports get a file record and neither is visited,
though the regular expression matches only the first. -/
theorem exclusion_runs :
    (checkFileUsage (helperCollaborators (some true)) 2 "/src/a.js" exclusionFilesMetadata
        []).map (fun r => (r.1.filesMapping.map Prod.fst, r.1.visitedFilesMapping,
          r.1.unparsableVistedFiles, r.2.2)) =
      some (["/src/a.js"], ["/src/a.js"], 1, ["/src/a.js"]) ∧
    (checkFileUsage (helperCollaborators none) 2 "/src/a.js" exclusionFilesMetadata
        []).map (fun r => (r.1.filesMapping.map Prod.fst, r.1.visitedFilesMapping,
          r.1.unparsableVistedFiles, r.2.2)) =
      some (["/src/a.js"], ["/src/a.js"], 1, ["/src/a.js"]) ∧
    (checkFileUsage (helperCollaborators (some false)) 2 "/src/a.js" exclusionFilesMetadata
        []).map (fun r => (r.1.filesMapping.map Prod.fst, r.1.visitedFilesMapping,
          r.1.unparsableVistedFiles, r.2.2)) =
      some (["/src/a.js", "/src/vendor/lib.js", "/src/b.js"], ["/src/a.js"], 0,
        ["/src/a.js"]) ∧
    exampleRegExpTest "^/src/vendor/" (ExclusionArgument.text "/src/vendor/lib.js") = true ∧
    exampleRegExpTest "^/src/vendor/" (ExclusionArgument.text "/src/b.js") = false := by
  decide

/-! ## The extension predicates -/

theorem isSuffixOf_of_suffix (a b c : List Char) (hab : a <:+ b) (hbc : b.isSuffixOf c = true) :
    a.isSuffixOf c = true := by
  rw [List.isSuffixOf_iff_suffix] at hbc ⊢
  exact hab.trans hbc

theorem notValid_of_valid (fileLocation : String)
    (hvalid : isFileExtensionValid fileLocation = true) :
    isFileExtensionNotValid fileLocation = false := by
  simp only [isFileExtensionValid, List.any_cons, List.any_nil, Bool.or_false,
    Bool.or_eq_true] at hvalid
  simp only [isFileExtensionNotValid, List.any_cons, List.any_nil, Bool.or_false,
    Bool.not_eq_false', Bool.or_eq_true]
  rcases hvalid with h | h | h | h
  · exact Or.inl (isSuffixOf_of_suffix _ _ _ ⟨['.'], rfl⟩ h)
  · exact Or.inr (Or.inl (isSuffixOf_of_suffix _ _ _ ⟨['.'], rfl⟩ h))
  · exact Or.inr (Or.inr (Or.inl (isSuffixOf_of_suffix _ _ _ ⟨['.'], rfl⟩ h)))
  · exact Or.inr (Or.inr (Or.inr (isSuffixOf_of_suffix _ _ _ ⟨['.'], rfl⟩ h)))

/-! ## Access chains -/

theorem collect_dotChain (x : String) (ps : List String) (acc : List Val) :
    collectProperties false (dotChain x ps) acc =
      some (Val.str x :: (ps.map Val.str ++ acc)) := by
  induction ps using List.reverseRecOn generalizing acc with
  | nil => simp [dotChain, identifierNode, collectProperties]
  | append_singleton ps p ih =>
    have hstep : dotChain x (ps ++ [p]) = dotAccess (dotChain x ps) p := by
      simp [dotChain, List.foldl_append]
    rw [hstep]
    simp only [dotAccess, collectProperties, if_true, identifierNode, ChainNode.nameOf,
      Bool.false_eq_true, if_false]
    rw [ih]
    simp

theorem collect_bracketChain (x : String) (ps : List String) (acc : List Val) :
    collectProperties false (bracketChain x ps) acc =
      some (Val.str x :: (ps.map (fun _ => Val.undefined) ++ acc)) := by
  induction ps using List.reverseRecOn generalizing acc with
  | nil => simp [bracketChain, identifierNode, collectProperties]
  | append_singleton ps p ih =>
    have hstep : bracketChain x (ps ++ [p]) = bracketAccess (bracketChain x ps) p := by
      simp [bracketChain, List.foldl_append]
    rw [hstep]
    simp only [bracketAccess, collectProperties, if_true, stringLiteralNode, ChainNode.nameOf,
      Bool.false_eq_true, if_false]
    rw [ih]
    simp

theorem collect_qualifiedChain (x : String) (ps : List String) (acc : List Val) :
    collectProperties true (qualifiedChain x ps) acc =
      some (Val.str x :: (ps.map Val.str ++ acc)) := by
  induction ps using List.reverseRecOn generalizing acc with
  | nil => simp [qualifiedChain, identifierNode, collectProperties]
  | append_singleton ps p ih =>
    have hstep : qualifiedChain x (ps ++ [p]) = qualifiedAccess (qualifiedChain x ps) p := by
      simp [qualifiedChain, List.foldl_append]
    rw [hstep]
    simp only [qualifiedAccess, collectProperties, if_true, identifierNode, ChainNode.nameOf]
    rw [ih]
    simp

/-! ## Claims -/

/-- C1. Re-export identity: when the export table of file C holds under `x`
an entity `e` with `firstReferencedAt = C`, and file B (whose export table is
the one recorded for B in `filesMapping`) processes `export {x} from C`, and
file A then processes `import {x} from B` in the `CHECK_USAGE` stage, the
alias `importedVariables[x]` of A is the address `e` that C's table holds
under `x`: an increment of `referenceCount` through A's alias is read back on
that entity, whose `firstReferencedAt` is C.  The name `x` is not empty, B's
export table is an object of the state other than `e`, and the per-importer
map of `e` is neither export table nor `e` itself. -/
theorem reexport_identity (x fileC fileB : String) (cmB cmA : CurrentFileMetadata)
    (fm : FilesMetadata) (h : Heap) (tc tb e : Nat) (n : Int)
    (hC : exportedVariablesOf fm fileC = some (Val.ref tc))
    (hx : field h tc x = Val.ref e)
    (hfirst : field h e "firstReferencedAt" = Val.str fileC)
    (hn : field h e "referenceCount" = Val.num n)
    (hB : exportedVariablesOf fm fileB = some (Val.ref tb))
    (hcmB : cmB.exportedVariables = Val.ref tb)
    (htb : tb < h.length)
    (hx0 : x ≠ "")
    (hetb : e ≠ tb)
    (hsep : ∀ m, field h e "individualFileReferencesMapping" = Val.ref m →
      m ≠ tb ∧ m ≠ tc ∧ m ≠ e) :
    ∃ cmA1 h3 h4,
      reExportThenImport x fileC fileB cmB cmA fm h = some (cmA1, h3) ∧
      propGet cmA1.importedVariables x = Val.ref e ∧
      field h3 tc x = Val.ref e ∧
      field h3 e "firstReferencedAt" = Val.str fileC ∧
      field h3 e "referenceCount" = Val.num n ∧
      addReferenceCount h3 (propGet cmA1.importedVariables x) 1 = some h4 ∧
      field h4 tc x = Val.ref e ∧
      field h4 e "firstReferencedAt" = Val.str fileC ∧
      field h4 e "referenceCount" = Val.num (n + 1) := by
  have htc : tc < h.length := field_lt_of_ne_undefined h tc x (by simp [hx])
  have helt : e < h.length := field_lt_of_ne_undefined h e "referenceCount" (by simp [hn])
  -- file B records the specifier as an import
  set rco : Props := [("referenceCount", Val.num 0), ("exportReferenceCount", Val.num 0)]
    with hrco
  set record : ImportRecord :=
    { name := Val.str x, localName := Val.str x, type := "INDIVIDUAL_IMPORT",
      importedFrom := fileC, referenceCountObject := Val.ref h.length } with hrecord
  set cmB1 : CurrentFileMetadata :=
    { cmB with importedVariablesMetadata := tableSet cmB.importedVariablesMetadata x record }
    with hcmB1
  have hstep1 : setImportedVariablesFromExportFromStatementSpecifier (reExportSpecifier x)
      cmB fileC h = (cmB1, h ++ [rco]) := by
    simp [setImportedVariablesFromExportFromStatementSpecifier, reExportSpecifier,
      getNewImportVariableObject, toKey, hcmB1, hrecord, hrco]
  -- file B commits the pair
  have hf1 : ∀ a k, a < h.length → field (h ++ [rco]) a k = field h a k :=
    fun a k ha => field_append h [rco] a k ha
  have hsep1 : ∀ m, field (h ++ [rco]) e "individualFileReferencesMapping" = Val.ref m →
      m ≠ tb ∧ m ≠ tc ∧ m ≠ e := fun m hm => hsep m (by rw [← hf1 e _ helt]; exact hm)
  obtain ⟨h2, c, hrun, hlen2, h2tb, h2tc, h2e, -⟩ :=
    setExportVariable_alias cmB1 fm (h ++ [rco]) { key := x, value := Val.str x } record
      tc tb e (by simp [hrecord]) (by simpa [hrecord] using hC)
      (by simpa [hrecord, toKey, hf1 tc x htc] using hx)
      (by simpa using hx0) (by simpa [hcmB1] using hcmB)
      (by simp; omega) hetb hsep1
  have hstep2 : setExportedVariablesFromArray [{ key := x, value := Val.str x }] cmB1 fm
      (h ++ [rco]) = (cmB1, h2) := by
    have hget : tableGet cmB1.importedVariablesMetadata x = some record := by
      simp [hcmB1, tableGet_tableSet]
    simp [setExportedVariablesFromArray, importedVariableOf, hget, hrun]
  -- file A resolves its import against B's export table
  set cmA1 : CurrentFileMetadata :=
    { cmA with
      importedVariablesMetadata := tableSet cmA.importedVariablesMetadata x
        { name := Val.str x, localName := Val.str x, type := "INDIVIDUAL_IMPORT",
          importedFrom := fileB, referenceCountObject := Val.ref h2.length }
      importedVariables := propSet cmA.importedVariables x (Val.ref e) } with hcmA1
  have hlen2' : tb < h2.length ∧ tc < h2.length ∧ e < h2.length := by
    rw [hlen2]; simp; omega
  have h2tb' : field (h2 ++ [rco]) tb x = Val.ref e := by
    rw [field_append _ _ _ _ hlen2'.1]; simpa [toKey] using h2tb
  have hstep3 : setImportedVariableInCurrentFileMetadata
      { type := "ImportSpecifier", localName := x, importedName := Val.str x }
      fileB "CHECK_USAGE" cmA fm h2 = (cmA1, h2 ++ [rco]) := by
    simp [setImportedVariableInCurrentFileMetadata, getNewImportVariableObject, hB,
      readProp_ref, toKey, ← hrco, h2tb', hcmA1]
  have h3tc : field (h2 ++ [rco]) tc x = Val.ref e := by
    rw [field_append _ _ _ _ hlen2'.2.1]; simpa [hrecord, toKey] using h2tc
  have h3e : ∀ k, k ≠ "isEntryFileObject" → field (h2 ++ [rco]) e k = field h e k := by
    intro k hk
    rw [field_append _ _ _ _ hlen2'.2.2, h2e k hk, hf1 e k helt]
  have hiv : propGet cmA1.importedVariables x = Val.ref e := by
    simp [hcmA1, propGet_propSet_same]
  refine ⟨cmA1, h2 ++ [rco],
    updAt (h2 ++ [rco]) e (fun o => propSet o "referenceCount"
      (jsAdd (field (h2 ++ [rco]) e "referenceCount") 1)),
    ?_, hiv, h3tc, ?_, ?_, ?_, ?_, ?_, ?_⟩
  · simp [reExportThenImport, reExport_pairs, hstep1, hstep2, hstep3]
  · rw [h3e _ (by decide)]; exact hfirst
  · rw [h3e _ (by decide)]; exact hn
  · rw [hiv, addReferenceCount_ref]
  · rw [field_updAt]
    split
    · rename_i hc
      obtain ⟨hc1, hc2, _⟩ := hc
      rw [← hc1, ← hc2, h3e _ (by decide), hn] at h3tc
      simp at h3tc
    · exact h3tc
  · rw [field_updAt_of_ne _ _ _ _ _ _ (Or.inr (by decide)), h3e _ (by decide)]; exact hfirst
  · rw [field_updAt_same _ _ _ _ (by simp; omega), h3e _ (by decide), hn]
    simp [jsAdd]

/-- Witness of C1: `/src/main.js` re-exports `a` of `/src/m.js`, and
`/src/app.js` imports it from `/src/main.js`. -/
theorem reexport_identity_witness :
    ∃ cmA1 h3 h4,
      reExportThenImport "a" "/src/m.js" "/src/main.js" exampleCurrentFileMetadata
        exampleAppMetadata exampleFilesMetadata exampleHeap = some (cmA1, h3) ∧
      propGet cmA1.importedVariables "a" = Val.ref 4 ∧
      field h3 0 "a" = Val.ref 4 ∧
      field h3 4 "firstReferencedAt" = Val.str "/src/m.js" ∧
      field h3 4 "referenceCount" = Val.num 0 ∧
      addReferenceCount h3 (propGet cmA1.importedVariables "a") 1 = some h4 ∧
      field h4 0 "a" = Val.ref 4 ∧
      field h4 4 "firstReferencedAt" = Val.str "/src/m.js" ∧
      field h4 4 "referenceCount" = Val.num (0 + 1) :=
  reexport_identity "a" "/src/m.js" "/src/main.js" exampleCurrentFileMetadata
    exampleAppMetadata exampleFilesMetadata exampleHeap 0 5 4 0 (by decide) (by decide)
    (by decide) (by decide) (by decide) (by decide) (by decide) (by decide) (by decide)
    (by
      intro m hm
      have h3 : m = 3 := by
        have : field exampleHeap 4 "individualFileReferencesMapping" = Val.ref 3 := by decide
        rw [this] at hm
        simpa using hm.symm
      subst h3
      decide)

/-- C2. `commitExports` on an import alias: for a pair whose exported name is
not empty and whose local name has an `INDIVIDUAL_IMPORT` record naming an
export entity `e` of an existing target record, `setExportedVariablesFromArray`
allocates nothing; the current file's export table holds `e` under the exported
name and the target's table still holds `e` under the imported name; the
per-importer map of `e` maps the current file to the record's
`referenceCountObject`; and `isEntryFileObject` of `e` becomes its previous
value `||` the current file's `isEntryFile`.  The current export table, the
target's export table, the entity and its per-importer map are objects of the
state, the map being distinct from the other three and the entity from the
current export table. -/
theorem commit_exports_on_import_alias (cm : CurrentFileMetadata) (fm : FilesMetadata)
    (h : Heap) (pair : KeyValuePair) (imported : ImportRecord) (tt tc e m : Nat)
    (hrec : tableGet cm.importedVariablesMetadata pair.key = some imported)
    (hty : imported.type = "INDIVIDUAL_IMPORT")
    (htt : exportedVariablesOf fm imported.importedFrom = some (Val.ref tt))
    (he : field h tt (toKey imported.name) = Val.ref e)
    (hv : pair.value ≠ Val.str "")
    (hcm : cm.exportedVariables = Val.ref tc)
    (htc : tc < h.length)
    (hm : field h e "individualFileReferencesMapping" = Val.ref m)
    (hmlt : m < h.length)
    (hetc : e ≠ tc) (hmtc : m ≠ tc) (hmtt : m ≠ tt) (hme : m ≠ e) :
    ∃ h', setExportedVariablesFromArray [pair] cm fm h = (cm, h') ∧
      h'.length = h.length ∧
      field h' tc (toKey pair.value) = Val.ref e ∧
      field h' tt (toKey imported.name) = Val.ref e ∧
      field h' e "individualFileReferencesMapping" = Val.ref m ∧
      field h' m cm.fileLocation = imported.referenceCountObject ∧
      field h' e "isEntryFileObject" =
        (if truthy (field h e "isEntryFileObject") then field h e "isEntryFileObject"
         else cm.isEntryFile) := by
  have hty' : imported.type ≠ "ALL_EXPORTS_IMPORTED" := by rw [hty]; decide
  have hsep : ∀ m', field h e "individualFileReferencesMapping" = Val.ref m' →
      m' ≠ tc ∧ m' ≠ tt ∧ m' ≠ e := by
    intro m' hm'
    rw [hm] at hm'
    have : m = m' := by simpa using hm'
    subst this
    exact ⟨hmtc, hmtt, hme⟩
  obtain ⟨h', c, hrun, hlen, h1, h2, h3, h4⟩ :=
    setExportVariable_alias cm fm h pair imported tt tc e hty' htt he hv hcm htc hetc hsep
  obtain ⟨_, h5, h6⟩ := h4 m hm hmlt
  refine ⟨h', ?_, hlen, h1, h2, ?_, h5, h6⟩
  · simp [setExportedVariablesFromArray, importedVariableOf, hrec, hrun]
  · rw [h3 _ (by decide)]; exact hm

/-- Witness of C2: `/src/main.js` re-exports its import `a` of `/src/m.js` as `b`. -/
theorem commit_exports_on_import_alias_witness :
    ∃ h', setExportedVariablesFromArray [{ key := "a", value := Val.str "b" }]
        exampleImportingMetadata exampleFilesMetadata exampleHeapWithImport =
        (exampleImportingMetadata, h') ∧
      h'.length = exampleHeapWithImport.length ∧
      field h' 5 (toKey (Val.str "b")) = Val.ref 4 ∧
      field h' 0 (toKey (Val.str "a")) = Val.ref 4 ∧
      field h' 4 "individualFileReferencesMapping" = Val.ref 3 ∧
      field h' 3 "/src/main.js" = Val.ref 7 ∧
      field h' 4 "isEntryFileObject" =
        (if truthy (field exampleHeapWithImport 4 "isEntryFileObject") then
          field exampleHeapWithImport 4 "isEntryFileObject"
         else Val.bool true) :=
  commit_exports_on_import_alias exampleImportingMetadata exampleFilesMetadata
    exampleHeapWithImport { key := "a", value := Val.str "b" }
    { name := Val.str "a", localName := Val.str "a", type := "INDIVIDUAL_IMPORT",
      importedFrom := "/src/m.js", referenceCountObject := Val.ref 7 }
    0 5 4 3 (by decide) (by decide) (by decide) (by decide) (by decide) (by decide)
    (by decide) (by decide) (by decide) (by decide) (by decide) (by decide) (by decide)

/-- C3. Reversibility: for every binding node (absent, `Identifier`,
`ObjectPattern`, `ArrayPattern` or any other), target address, accounting mode
and state, running the usage accounting with `addReferences = true` and then
with `addReferences = false` on the same node leaves every numeric
`referenceCount` of the heap at its value before the first run.  For a pattern
the target's export table is not itself the value it holds under one of the
destructured names. -/
theorem usage_accounting_is_reversible (node : Option BindingNode)
    (importedFileAddress type : String) (cm : CurrentFileMetadata) (fm : FilesMetadata)
    (h : Heap)
    (hfree : ∀ tt, exportedVariablesOf fm importedFileAddress = some (Val.ref tt) →
      ∀ i ∈ importedNamesOf node, field h tt (toKey i) ≠ Val.ref tt)
    (a : Nat) (n : Int) (hn : field h a "referenceCount" = Val.num n) :
    field (updateImportedVariablesReferenceCountInRequireOrDynamicImportStatements node false
      (updateImportedVariablesReferenceCountInRequireOrDynamicImportStatements node true cm
        importedFileAddress fm type h).1 importedFileAddress fm type
      (updateImportedVariablesReferenceCountInRequireOrDynamicImportStatements node true cm
        importedFileAddress fm type h).2.1).2.1 a "referenceCount" = Val.num n := by
  cases node with
  | none => exact restore_absent cm fm h importedFileAddress type a n hn
  | some binding =>
    cases binding with
    | identifier name => exact restore_identifier cm fm h importedFileAddress type name a n hn
    | objectPattern properties =>
      exact restore_pattern true cm fm h importedFileAddress type properties hfree a n hn
    | arrayPattern elements =>
      exact restore_pattern false cm fm h importedFileAddress type elements hfree a n hn
    | other => exact hn

/-- Witness of C3: `const {a} = require("/src/m.js")` on the example state. -/
theorem usage_accounting_is_reversible_witness :
    field (updateImportedVariablesReferenceCountInRequireOrDynamicImportStatements
      (some (BindingNode.objectPattern
        [PatternElement.objectProperty (Val.str "a") (Val.str "a")])) false
      (updateImportedVariablesReferenceCountInRequireOrDynamicImportStatements
        (some (BindingNode.objectPattern
          [PatternElement.objectProperty (Val.str "a") (Val.str "a")])) true
        exampleCurrentFileMetadata "/src/m.js" exampleFilesMetadata
        "DONT_UPDATE_REFERENCE_COUNT" exampleHeap).1
      "/src/m.js" exampleFilesMetadata "DONT_UPDATE_REFERENCE_COUNT"
      (updateImportedVariablesReferenceCountInRequireOrDynamicImportStatements
        (some (BindingNode.objectPattern
          [PatternElement.objectProperty (Val.str "a") (Val.str "a")])) true
        exampleCurrentFileMetadata "/src/m.js" exampleFilesMetadata
        "DONT_UPDATE_REFERENCE_COUNT" exampleHeap).2.1).2.1 4 "referenceCount" =
      Val.num 0 :=
  usage_accounting_is_reversible
    (some (BindingNode.objectPattern
      [PatternElement.objectProperty (Val.str "a") (Val.str "a")]))
    "/src/m.js" "DONT_UPDATE_REFERENCE_COUNT" exampleCurrentFileMetadata exampleFilesMetadata
    exampleHeap
    (by
      intro tt htt i hi
      have h0 : exportedVariablesOf exampleFilesMetadata "/src/m.js" = some (Val.ref 0) := by
        decide
      rw [h0] at htt
      have htt0 : tt = 0 := by simpa using htt.symm
      subst htt0
      have hi0 : i = Val.str "a" := by
        simpa [importedNamesOf, getImportedNameFromProperty] using hi
      subst hi0
      decide)
    4 0 (by decide)

/-- C4, as stated, fails.  On the example state the invariant holds, and it
is broken (a) by the side-effect-only accounting of `/src/m.js`, which raises
`referenceCount` of `default` to 1 while its per-importer map stays empty;
(b) by the accounting of `const {a} = require("/src/m.js")` in the
`DONT_UPDATE_REFERENCE_COUNT` mode, which lowers `referenceCount` of `a` to
`-2`; and (c) by `setExportedVariablesFromArray` when `/src/main.js` re-exports
its import `a` whose reference-count object already counts one reference. -/
theorem reference_count_invariant_counterexample :
    (ReferenceCountInvariant exampleHeap ∧
      ¬ ReferenceCountInvariant
        (updateImportedVariablesReferenceCountInRequireOrDynamicImportStatements none true
          exampleCurrentFileMetadata "/src/m.js" exampleFilesMetadata
          "UPDATE_REFERENCE_COUNT" exampleHeap).2.1) ∧
    (ReferenceCountInvariant exampleHeap ∧
      ¬ ReferenceCountInvariant
        (updateImportedVariablesReferenceCountInRequireOrDynamicImportStatements
          (some (BindingNode.objectPattern
            [PatternElement.objectProperty (Val.str "a") (Val.str "a")]))
          true exampleCurrentFileMetadata "/src/m.js" exampleFilesMetadata
          "DONT_UPDATE_REFERENCE_COUNT" exampleHeap).2.1) ∧
    (ReferenceCountInvariant exampleHeapWithCountedImport ∧
      ¬ ReferenceCountInvariant
        (setExportedVariablesFromArray [{ key := "a", value := Val.str "b" }]
          exampleImportingMetadata exampleFilesMetadata exampleHeapWithCountedImport).2) := by
  refine ⟨⟨invariant_of_check _ (by decide), ?_⟩, ⟨invariant_of_check _ (by decide), ?_⟩,
    ⟨invariant_of_check _ (by decide), ?_⟩⟩
  · exact not_invariant_of _ 2 1 1 0 (by decide) (by decide) (by decide) (by decide)
  · exact not_invariant_of _ 4 3 (-2) 0 (by decide) (by decide) (by decide) (by decide)
  · exact not_invariant_of _ 4 3 0 1 (by decide) (by decide) (by decide) (by decide)

/-- C4 (amended). The reference-count invariant holds at every entity made by
`getNewDefaultObject` (count 0, empty per-importer map) and is preserved by
`getNewDefaultObject`, by `setImportedVariableInCurrentFileMetadata`, by the
usage accounting of an identifier or destructured binding outside the
`DONT_UPDATE_REFERENCE_COUNT` mode (the heap is left as it was), and by
`setExportedVariablesFromArray` on every well-formed state (`WellFormedState`:
the import records carry reference-count objects with both counts 0, no
per-importer map holds a counted entry for the current file, per-importer maps
are referenced only as `individualFileReferencesMapping`, and the current
file's address is no reserved property name) with no file record under the
address `undefined`, for pairs none of whose exported names is one of the
reserved property names `referenceCount`, `exportReferenceCount` and
`individualFileReferencesMapping`. -/
theorem reference_count_invariant_preservation :
    (∀ (h : Heap) (fileLocation : String) (name isEntryFileObject : Val),
      (∃ n m,
        field (getNewDefaultObject h fileLocation name isEntryFileObject).2
          (getNewDefaultObject h fileLocation name isEntryFileObject).1
          "referenceCount" = Val.num n ∧
        field (getNewDefaultObject h fileLocation name isEntryFileObject).2
          (getNewDefaultObject h fileLocation name isEntryFileObject).1
          "individualFileReferencesMapping" = Val.ref m ∧
        mappingSum (getNewDefaultObject h fileLocation name isEntryFileObject).2 m =
          some n) ∧
      (ReferenceCountInvariant h →
        ReferenceCountInvariant
          (getNewDefaultObject h fileLocation name isEntryFileObject).2)) ∧
    (∀ (specifier : ImportSpecifierNode) (importedFileAddress traverseType : String)
      (cm : CurrentFileMetadata) (fm : FilesMetadata) (h : Heap),
      ReferenceCountInvariant h →
      ReferenceCountInvariant (setImportedVariableInCurrentFileMetadata specifier
        importedFileAddress traverseType cm fm h).2) ∧
    (∀ (node : BindingNode) (addReferences : Bool) (cm : CurrentFileMetadata)
      (importedFileAddress : String) (fm : FilesMetadata) (type : String) (h : Heap),
      type ≠ "DONT_UPDATE_REFERENCE_COUNT" →
      ReferenceCountInvariant h →
      ReferenceCountInvariant
        (updateImportedVariablesReferenceCountInRequireOrDynamicImportStatements (some node)
          addReferences cm importedFileAddress fm type h).2.1) ∧
    (∀ (pairs : List KeyValuePair) (cm : CurrentFileMetadata) (fm : FilesMetadata)
      (h : Heap),
      WellFormedState cm fm h →
      tableGet fm.filesMapping "undefined" = none →
      (∀ pair ∈ pairs, toKey pair.value ∉ reservedNames) →
      ReferenceCountInvariant (setExportedVariablesFromArray pairs cm fm h).2) := by
  refine ⟨?_, ?_, ?_, ?_⟩
  · intro h fileLocation name isEntryFileObject
    obtain ⟨h1, h2, h3⟩ := getNewDefaultObject_entity h fileLocation name isEntryFileObject
    exact ⟨⟨0, h.length, h1, h2, h3⟩,
      getNewDefaultObject_invariant h fileLocation name isEntryFileObject⟩
  · intro specifier importedFileAddress traverseType cm fm h hinv
    exact setImported_invariant specifier importedFileAddress traverseType cm fm h hinv
  · intro node addReferences cm importedFileAddress fm type h hty hinv
    rw [update_binding_heap node addReferences cm importedFileAddress fm type h hty]
    exact hinv
  · intro pairs cm fm h hst hfile hnames
    exact (setExportedVariablesFromArray_keeps pairs cm fm h hst hfile hnames).1.1

/-- Witness of C4 (amended): `/src/main.js` re-exports its import `a` of
`/src/m.js` as `b`, on a well-formed state. -/
theorem reference_count_invariant_preservation_witness :
    ReferenceCountInvariant
      (setExportedVariablesFromArray [{ key := "a", value := Val.str "b" }]
        exampleImportingMetadata exampleFilesMetadata exampleHeapWithImport).2 :=
  reference_count_invariant_preservation.2.2.2 [{ key := "a", value := Val.str "b" }]
    exampleImportingMetadata exampleFilesMetadata exampleHeapWithImport
    (wellFormedState_of_check _ _ _ (by decide)) (by decide) (by decide)

/-- C5, as stated, fails: for `const {a} = require("/src/m.js")` with
`addReferences = true` the `referenceCount` of `a` (address 4, initially 0) is
not raised to 2: it stays 0 in the default `UPDATE_REFERENCE_COUNT` mode and
becomes `-2` in the `DONT_UPDATE_REFERENCE_COUNT` mode. -/
theorem destructuring_double_count_counterexample :
    field exampleHeap 4 "referenceCount" = Val.num 0 ∧
    field (updateImportedVariablesReferenceCountInRequireOrDynamicImportStatements
      (some (BindingNode.objectPattern
        [PatternElement.objectProperty (Val.str "a") (Val.str "a")]))
      true exampleCurrentFileMetadata "/src/m.js" exampleFilesMetadata
      "UPDATE_REFERENCE_COUNT" exampleHeap).2.1 4 "referenceCount" = Val.num 0 ∧
    field (updateImportedVariablesReferenceCountInRequireOrDynamicImportStatements
      (some (BindingNode.objectPattern
        [PatternElement.objectProperty (Val.str "a") (Val.str "a")]))
      true exampleCurrentFileMetadata "/src/m.js" exampleFilesMetadata
      "DONT_UPDATE_REFERENCE_COUNT" exampleHeap).2.1 4 "referenceCount" = Val.num (-2) := by
  decide

/-- C5 (amended). A destructured binding without a hole, of any length,
against a target whose export table is an object that is not itself one of the
destructured exports.  In the `DONT_UPDATE_REFERENCE_COUNT` mode the accounting
changes the `referenceCount` of an export entity by `-s` times the total weight
of the elements whose imported name is an export that is this entity, where `s`
is `1` for `addReferences = true` and `-1` for `false`; the weight is 2 for an
`ObjectPattern` property whose local name equals its imported name and 1 for a
renamed `ObjectPattern` property and for every `ArrayPattern` element.  In
every other mode the count is left unchanged. -/
theorem destructured_binding_accounting (addReferences : Bool) (cm : CurrentFileMetadata)
    (fm : FilesMetadata) (h : Heap) (importedFileAddress : String)
    (properties : List PatternElement) (tt e : Nat) (n : Int)
    (hholes : PatternElement.hole ∉ properties)
    (ht : exportedVariablesOf fm importedFileAddress = some (Val.ref tt))
    (hfree : ∀ i ∈ properties.filterMap getImportedNameFromProperty,
      field h tt (toKey i) ≠ Val.ref tt)
    (hn : field h e "referenceCount" = Val.num n) :
    (field (updateImportedVariablesReferenceCountInRequireOrDynamicImportStatements
        (some (BindingNode.objectPattern properties)) addReferences cm importedFileAddress
        fm "DONT_UPDATE_REFERENCE_COUNT" h).2.1 e "referenceCount" =
        Val.num (n - valueToMultiplyWith addReferences *
          (properties.map (elementWeight true (field h tt) e)).sum) ∧
      field (updateImportedVariablesReferenceCountInRequireOrDynamicImportStatements
        (some (BindingNode.arrayPattern properties)) addReferences cm importedFileAddress
        fm "DONT_UPDATE_REFERENCE_COUNT" h).2.1 e "referenceCount" =
        Val.num (n - valueToMultiplyWith addReferences *
          (properties.map (elementWeight false (field h tt) e)).sum)) ∧
    (∀ (property : PatternElement) (i l : Val),
      getImportedNameFromProperty property = some i →
      getLocalNameFromProperty property = some l →
      (field h tt (toKey i) = Val.ref e →
        elementWeight true (field h tt) e property = (if strictEq i l = true then 2 else 1) ∧
        elementWeight false (field h tt) e property = 1) ∧
      (field h tt (toKey i) ≠ Val.ref e →
        elementWeight true (field h tt) e property = 0 ∧
        elementWeight false (field h tt) e property = 0)) ∧
    (∀ type, type ≠ "DONT_UPDATE_REFERENCE_COUNT" →
      field (updateImportedVariablesReferenceCountInRequireOrDynamicImportStatements
        (some (BindingNode.objectPattern properties)) addReferences cm importedFileAddress
        fm type h).2.1 e "referenceCount" = Val.num n ∧
      field (updateImportedVariablesReferenceCountInRequireOrDynamicImportStatements
        (some (BindingNode.arrayPattern properties)) addReferences cm importedFileAddress
        fm type h).2.1 e "referenceCount" = Val.num n) := by
  have key := fun (isObjectPattern : Bool) =>
    (pattern_run_counts isObjectPattern (valueToMultiplyWith addReferences) importedFileAddress
      fm cm h properties [] tt e n hholes (Or.inl rfl) ht hfree hn).1
  simp only [List.append_nil] at key
  refine ⟨⟨key true, key false⟩, ?_, ?_⟩
  · intro property i l hi hl
    refine ⟨fun he => ?_, fun he => ?_⟩
    · simp [elementWeight, hi, hl, he]
    · simp [elementWeight, hi, hl, he]
  · intro type hty
    rw [update_binding_heap _ addReferences cm importedFileAddress fm type h hty,
      update_binding_heap _ addReferences cm importedFileAddress fm type h hty]
    exact ⟨hn, hn⟩

/-- Witness of C5 (amended), on the example state with `addReferences = true`:
`const {a, a: b} = require("/src/m.js")` lowers the count of `a` (address 4)
from 0 to `-3`, and `const [a, b] = require("/src/m.js")` lowers it to `-1`. -/
theorem destructured_binding_accounting_witness :
    field (updateImportedVariablesReferenceCountInRequireOrDynamicImportStatements
      (some (BindingNode.objectPattern
        [PatternElement.objectProperty (Val.str "a") (Val.str "a"),
         PatternElement.objectProperty (Val.str "a") (Val.str "b")]))
      true exampleCurrentFileMetadata "/src/m.js" exampleFilesMetadata
      "DONT_UPDATE_REFERENCE_COUNT" exampleHeap).2.1 4 "referenceCount" = Val.num (-3) ∧
    field (updateImportedVariablesReferenceCountInRequireOrDynamicImportStatements
      (some (BindingNode.arrayPattern
        [PatternElement.identifier "a", PatternElement.identifier "b"]))
      true exampleCurrentFileMetadata "/src/m.js" exampleFilesMetadata
      "DONT_UPDATE_REFERENCE_COUNT" exampleHeap).2.1 4 "referenceCount" = Val.num (-1) :=
  ⟨(destructured_binding_accounting true exampleCurrentFileMetadata exampleFilesMetadata
      exampleHeap "/src/m.js"
      [PatternElement.objectProperty (Val.str "a") (Val.str "a"),
       PatternElement.objectProperty (Val.str "a") (Val.str "b")] 0 4 0
      (by decide) (by decide) (by decide) (by decide)).1.1.trans (by decide),
   (destructured_binding_accounting true exampleCurrentFileMetadata exampleFilesMetadata
      exampleHeap "/src/m.js" [PatternElement.identifier "a", PatternElement.identifier "b"]
      0 4 0 (by decide) (by decide) (by decide) (by decide)).1.2.trans (by decide)⟩

/-- C6. Cycle-safe termination: when every address that
`getUsedFilesMapping` reports lies in a finite list `U` (the import graph is
finite, cycles allowed) and `traverseAST` removes nothing from
`visitedFilesMapping`, `checkFileUsage` returns for every entry file and every
recursion bound above the length of `U`; the files for which
`traverseFileForCheckingUsage` was entered are pairwise distinct, none of them
was visited before the run and all of them are visited after it. -/
theorem check_file_usage_terminates {Ast : Type} (env : Collaborators Ast) (U : List String)
    (entyFileLocation : String) (fm : FilesMetadata) (h : Heap) (fuel : Nat)
    (hU : ∀ cm files, env.getUsedFilesMapping cm = some files → ∀ f ∈ files, f ∈ U)
    (hvis : ∀ ast cm fm h, ∀ g ∈ fm.visitedFilesMapping,
      g ∈ (env.traverseAST ast cm fm h).2.1.visitedFilesMapping)
    (hfuel : U.length + 1 ≤ fuel) :
    ∃ fm1 h1 entered,
      checkFileUsage env fuel entyFileLocation fm h = some (fm1, h1, entered) ∧
      entered.Nodup ∧
      ∀ g ∈ entered, g ∉ fm.visitedFilesMapping ∧ g ∈ fm1.visitedFilesMapping := by
  set prepared : FilesMetadata × Heap :=
    if isFileMappingNotPresent entyFileLocation fm then
      addDefaultFileObject env entyFileLocation fm h
    else (fm, h) with hprep
  have hpv : (markEntryFile entyFileLocation prepared.1).visitedFilesMapping =
      fm.visitedFilesMapping := by
    rw [markEntryFile_visited]
    by_cases hn : isFileMappingNotPresent entyFileLocation fm = true
    · simp [hprep, hn, addDefaultFileObject]
    · simp [hprep, hn]
  by_cases hcond : (isFileNotVisited entyFileLocation (markEntryFile entyFileLocation prepared.1)
      && isFileExtensionValid entyFileLocation) = true
  · have hnv : entyFileLocation ∉ (markEntryFile entyFileLocation prepared.1).visitedFilesMapping := by
      rw [Bool.and_eq_true] at hcond
      exact (isFileNotVisited_iff _ _).1 hcond.1
    have hW : ∀ cm files, env.getUsedFilesMapping cm = some files →
        ∀ f ∈ files, f ∈ entyFileLocation :: U :=
      fun cm files hf f hfm => List.mem_cons_of_mem _ (hU cm files hf f hfm)
    obtain ⟨fm1, h1, entered, hrun, _, hnd, hel⟩ :=
      traverse_terminates env (entyFileLocation :: U) hW hvis fuel entyFileLocation
        (markEntryFile entyFileLocation prepared.1) prepared.2 (List.mem_cons_self _ _) hnv
        (le_trans (unvisitedCount_le_length _ _) (by simpa using hfuel))
    refine ⟨fm1, h1, entered, ?_, hnd, ?_⟩
    · simp only [checkFileUsage, ← hprep, hcond, if_true]
      exact hrun
    · rw [hpv] at hel
      exact hel
  · refine ⟨markEntryFile entyFileLocation prepared.1, prepared.2, [], ?_, List.nodup_nil,
      by simp⟩
    simp only [checkFileUsage, ← hprep, hcond]
    rfl

/-- Witness of C6: the two modules import each other. -/
theorem check_file_usage_terminates_witness :
    ∃ fm1 h1 entered,
      checkFileUsage exampleCollaborators 3 "/src/a.js" emptyFilesMetadata [] =
        some (fm1, h1, entered) ∧
      entered.Nodup ∧
      ∀ g ∈ entered,
        g ∉ emptyFilesMetadata.visitedFilesMapping ∧ g ∈ fm1.visitedFilesMapping :=
  check_file_usage_terminates exampleCollaborators ["/src/a.js", "/src/b.js"] "/src/a.js"
    emptyFilesMetadata [] 3
    (by
      intro cm files hf f hfm
      simp only [exampleCollaborators] at hf
      split_ifs at hf <;> simp only [Option.some.injEq] at hf <;> subst hf <;> simp_all)
    (by
      intro ast cm fm h g hg
      exact hg)
    (by decide)

/-- C7. Parse-failure handling: when `buildAST` raises on the file,
`traverseFileForCheckingUsage` returns normally with the file marked visited
and `unparsableVistedFiles` one higher; `filesMapping` and the heap are as
before, and the call was entered for no other file. -/
theorem parse_failure_is_counted {Ast : Type} (env : Collaborators Ast) (fuel : Nat)
    (fileLocation : String) (fm : FilesMetadata) (h : Heap)
    (hfail : env.buildAST fileLocation = none) :
    traverseFileForCheckingUsage env (fuel + 1) fileLocation fm h =
      some ({ filesMapping := fm.filesMapping
              visitedFilesMapping := fileLocation :: fm.visitedFilesMapping
              unparsableVistedFiles := fm.unparsableVistedFiles + 1
              excludedFilesRegex := fm.excludedFilesRegex },
            h, [fileLocation]) := by
  simp [traverseFileForCheckingUsage, hfail, countUnparsable]

/-- Witness of C7: the parser raises on `/src/broken.js`. -/
theorem parse_failure_is_counted_witness :
    traverseFileForCheckingUsage exampleCollaborators (0 + 1) "/src/broken.js"
        emptyFilesMetadata [] =
      some ({ filesMapping := emptyFilesMetadata.filesMapping
              visitedFilesMapping := "/src/broken.js" :: emptyFilesMetadata.visitedFilesMapping
              unparsableVistedFiles := emptyFilesMetadata.unparsableVistedFiles + 1
              excludedFilesRegex := emptyFilesMetadata.excludedFilesRegex },
            [], ["/src/broken.js"]) :=
  parse_failure_is_counted exampleCollaborators 0 "/src/broken.js" emptyFilesMetadata []
    (by decide)

/-- C8. What the code does on an unresolved side-effect-only import: with no
binding node, when the target address has no file record or the target's
export table holds nothing under `default`, the call raises (completion
`throw`) and leaves the scratch metadata and the heap as they were. -/
theorem side_effect_import_unresolved_raises (addReferences : Bool)
    (cm : CurrentFileMetadata) (fm : FilesMetadata) (h : Heap)
    (importedFileAddress type : String)
    (hmiss : exportedVariablesOf fm importedFileAddress = none ∨
      ∃ a, exportedVariablesOf fm importedFileAddress = some (Val.ref a) ∧
        field h a "default" = Val.undefined) :
    updateImportedVariablesReferenceCountInRequireOrDynamicImportStatements none
        addReferences cm importedFileAddress fm type h = (cm, h, Completion.throw) := by
  rcases hmiss with hnone | ⟨a, ha, hd⟩
  · simp [updateImportedVariablesReferenceCountInRequireOrDynamicImportStatements, hnone]
  · simp [updateImportedVariablesReferenceCountInRequireOrDynamicImportStatements, ha,
      readProp_ref, hd, addReferenceCount, readProp]

/-- Witness of C8: `/src/style.css` has no file record in the example state. -/
theorem side_effect_import_unresolved_raises_witness :
    updateImportedVariablesReferenceCountInRequireOrDynamicImportStatements none
        true exampleCurrentFileMetadata "/src/style.css" exampleFilesMetadata
        "UPDATE_REFERENCE_COUNT" exampleHeap =
      (exampleCurrentFileMetadata, exampleHeap, Completion.throw) :=
  side_effect_import_unresolved_raises true exampleCurrentFileMetadata exampleFilesMetadata
    exampleHeap "/src/style.css" "UPDATE_REFERENCE_COUNT" (Or.inl (by decide))

/-- C9. Side-effect-only import counts as usage: with no binding node and a
target record whose export table holds an entity under `default`, the call
completes normally, changes that entity's `referenceCount` by `+1` when
`addReferences` is true and by `-1` when it is false, and changes no other
property of any object, no object count and no scratch table. -/
theorem side_effect_import_counts (addReferences : Bool) (cm : CurrentFileMetadata)
    (fm : FilesMetadata) (h : Heap) (importedFileAddress type : String) (t : Val) (e : Nat)
    (n : Int)
    (ht : exportedVariablesOf fm importedFileAddress = some t)
    (he : readProp h t "default" = some (Val.ref e))
    (hn : field h e "referenceCount" = Val.num n) :
    ∃ h1,
      updateImportedVariablesReferenceCountInRequireOrDynamicImportStatements none
          addReferences cm importedFileAddress fm type h = (cm, h1, Completion.normal) ∧
      field h1 e "referenceCount" = Val.num (n + (if addReferences then 1 else -1)) ∧
      h1.length = h.length ∧
      ∀ a k, (a ≠ e ∨ k ≠ "referenceCount") → field h1 a k = field h a k := by
  have hlt : e < h.length := field_lt_of_ne_undefined h e "referenceCount" (by simp [hn])
  refine ⟨updAt h e (fun o => propSet o "referenceCount"
    (jsAdd (field h e "referenceCount") (1 * valueToMultiplyWith addReferences))), ?_, ?_, ?_, ?_⟩
  · simp [updateImportedVariablesReferenceCountInRequireOrDynamicImportStatements, ht, he,
      addReferenceCount_ref]
  · rw [field_updAt, hn]
    cases addReferences <;> simp [hlt, jsAdd, valueToMultiplyWith]
  · exact length_updAt _ _ _
  · intro a k hak
    rw [field_updAt]
    have : ¬ (e = a ∧ "referenceCount" = k ∧ e < h.length) := by
      rintro ⟨h1, h2, _⟩
      rcases hak with hak | hak
      · exact hak h1.symm
      · exact hak h2.symm
    simp [this]

/-- Witness of C9 on the example state: `/src/m.js` holds `default` at address 2. -/
theorem side_effect_import_counts_witness :
    ∃ h1,
      updateImportedVariablesReferenceCountInRequireOrDynamicImportStatements none
          true exampleCurrentFileMetadata "/src/m.js" exampleFilesMetadata
          "UPDATE_REFERENCE_COUNT" exampleHeap =
        (exampleCurrentFileMetadata, h1, Completion.normal) ∧
      field h1 2 "referenceCount" = Val.num (0 + (if true = true then 1 else -1)) ∧
      h1.length = exampleHeap.length ∧
      ∀ a k, (a ≠ 2 ∨ k ≠ "referenceCount") → field h1 a k = field exampleHeap a k :=
  side_effect_import_counts true exampleCurrentFileMetadata exampleFilesMetadata exampleHeap
    "/src/m.js" "UPDATE_REFERENCE_COUNT" (Val.ref 0) 2 0 (by decide) (by decide) (by decide)

/-- C10. Import specifier classification: `setImportedVariableInCurrentFileMetadata`
stores under the specifier's local name an import record with
`importedFrom` the target address and both counts 0; its kind and name are
`INDIVIDUAL_IMPORT` with `specifier.imported.name` for an `ImportSpecifier`,
`INDIVIDUAL_IMPORT` with `default` for an `ImportDefaultSpecifier`, and
`ALL_EXPORTS_IMPORTED` with the local name for every other specifier type (the
namespace specifier among them); outside the `CHECK_USAGE` stage
`importedVariables` is left unchanged. -/
theorem import_specifier_classification (specifier : ImportSpecifierNode)
    (importedFileAddress traverseType : String) (cm : CurrentFileMetadata)
    (fm : FilesMetadata) (h : Heap) :
    ∃ record a,
      tableGet (setImportedVariableInCurrentFileMetadata specifier importedFileAddress
        traverseType cm fm h).1.importedVariablesMetadata specifier.localName = some record ∧
      record.importedFrom = importedFileAddress ∧
      record.localName = Val.str specifier.localName ∧
      record.referenceCountObject = Val.ref a ∧
      field (setImportedVariableInCurrentFileMetadata specifier importedFileAddress
        traverseType cm fm h).2 a "referenceCount" = Val.num 0 ∧
      field (setImportedVariableInCurrentFileMetadata specifier importedFileAddress
        traverseType cm fm h).2 a "exportReferenceCount" = Val.num 0 ∧
      (specifier.type = "ImportSpecifier" →
        record.type = "INDIVIDUAL_IMPORT" ∧ record.name = specifier.importedName) ∧
      (specifier.type = "ImportDefaultSpecifier" →
        record.type = "INDIVIDUAL_IMPORT" ∧ record.name = Val.str "default") ∧
      (specifier.type ≠ "ImportSpecifier" → specifier.type ≠ "ImportDefaultSpecifier" →
        record.type = "ALL_EXPORTS_IMPORTED" ∧ record.name = Val.str specifier.localName) ∧
      (traverseType ≠ "CHECK_USAGE" →
        (setImportedVariableInCurrentFileMetadata specifier importedFileAddress
          traverseType cm fm h).1.importedVariables = cm.importedVariables) := by
  obtain ⟨hm, hh, _, hiv⟩ :=
    setImported_metadata specifier importedFileAddress traverseType cm fm h
  refine ⟨importRecordOf specifier importedFileAddress h, h.length, ?_, rfl, rfl, rfl, ?_, ?_,
    ?_, ?_, ?_, hiv⟩
  · rw [hm, tableGet_tableSet]
    simp
  · rw [hh]
    simp [field, propGet]
  · rw [hh]
    simp [field, propGet]
  · intro h1
    simp [importRecordOf, h1]
  · intro h2
    by_cases h1 : specifier.type = "ImportSpecifier"
    · rw [h1] at h2
      exact absurd h2 (by decide)
    · simp [importRecordOf, h1, h2]
  · intro h1 h2
    simp [importRecordOf, h1, h2]

/-- C11. A missing import target is skipped: in the `CHECK_USAGE` stage, when
the target address has no file record, or when the specifier is a named or
default one and the target's export table (an object of the state, or a
primitive) holds nothing under the imported name,
`setImportedVariableInCurrentFileMetadata` returns, stores the import record
under the local name, adds no binding to an object in `importedVariables` (the
table is left as it was, or maps the local name to `undefined`; it is left as
it was when the record is missing), and changes no object of the state: the
heap grows by the record's reference-count object alone. -/
theorem missing_import_target_is_skipped (specifier : ImportSpecifierNode)
    (importedFileAddress : String) (cm : CurrentFileMetadata) (fm : FilesMetadata) (h : Heap)
    (hmiss : exportedVariablesOf fm importedFileAddress = none ∨
      ((specifier.type = "ImportSpecifier" ∨ specifier.type = "ImportDefaultSpecifier") ∧
        ∃ t, exportedVariablesOf fm importedFileAddress = some t ∧
          ∀ a, t = Val.ref a → a < h.length ∧
            field h a (toKey (importRecordOf specifier importedFileAddress h).name) =
              Val.undefined)) :
    tableGet (setImportedVariableInCurrentFileMetadata specifier importedFileAddress
        "CHECK_USAGE" cm fm h).1.importedVariablesMetadata specifier.localName =
      some (importRecordOf specifier importedFileAddress h) ∧
    (setImportedVariableInCurrentFileMetadata specifier importedFileAddress "CHECK_USAGE" cm fm
        h).2 = h ++ [[("referenceCount", Val.num 0), ("exportReferenceCount", Val.num 0)]] ∧
    ((setImportedVariableInCurrentFileMetadata specifier importedFileAddress "CHECK_USAGE" cm fm
        h).1.importedVariables = cm.importedVariables ∨
      (setImportedVariableInCurrentFileMetadata specifier importedFileAddress "CHECK_USAGE" cm fm
        h).1.importedVariables =
        propSet cm.importedVariables specifier.localName Val.undefined) ∧
    (exportedVariablesOf fm importedFileAddress = none →
      (setImportedVariableInCurrentFileMetadata specifier importedFileAddress "CHECK_USAGE" cm fm
        h).1.importedVariables = cm.importedVariables) ∧
    (∀ k e,
      propGet (setImportedVariableInCurrentFileMetadata specifier importedFileAddress
        "CHECK_USAGE" cm fm h).1.importedVariables k = Val.ref e →
      propGet cm.importedVariables k = Val.ref e) := by
  obtain ⟨hm, hh, -, -⟩ :=
    setImported_metadata specifier importedFileAddress "CHECK_USAGE" cm fm h
  have hiv : (setImportedVariableInCurrentFileMetadata specifier importedFileAddress
        "CHECK_USAGE" cm fm h).1.importedVariables = cm.importedVariables ∨
      (setImportedVariableInCurrentFileMetadata specifier importedFileAddress "CHECK_USAGE" cm fm
        h).1.importedVariables =
        propSet cm.importedVariables specifier.localName Val.undefined := by
    rcases hmiss with hnone | ⟨hnamed, t, ht, habs⟩
    · left
      simp only [setImportedVariableInCurrentFileMetadata, getNewImportVariableObject, hnone]
      split_ifs <;> rfl
    · cases t with
      | ref a =>
        obtain ⟨ha, hf⟩ := habs a rfl
        right
        have hname : (importRecordOf specifier importedFileAddress h).name =
            (if specifier.type = "ImportSpecifier" then specifier.importedName
             else Val.str "default") := by
          rcases hnamed with h1 | h1
          · simp [importRecordOf, h1]
          · simp [importRecordOf, h1]
        rw [hname] at hf
        simp [setImportedVariableInCurrentFileMetadata, getNewImportVariableObject, ht, hnamed,
          readProp_ref, field_append _ _ _ _ ha, hf]
      | undefined =>
        left
        simp [setImportedVariableInCurrentFileMetadata, getNewImportVariableObject, ht, hnamed,
          readProp]
      | null =>
        left
        simp [setImportedVariableInCurrentFileMetadata, getNewImportVariableObject, ht, hnamed,
          readProp]
      | bool b =>
        right
        simp [setImportedVariableInCurrentFileMetadata, getNewImportVariableObject, ht, hnamed,
          readProp]
      | num n =>
        right
        simp [setImportedVariableInCurrentFileMetadata, getNewImportVariableObject, ht, hnamed,
          readProp]
      | nan =>
        right
        simp [setImportedVariableInCurrentFileMetadata, getNewImportVariableObject, ht, hnamed,
          readProp]
      | str s =>
        right
        simp [setImportedVariableInCurrentFileMetadata, getNewImportVariableObject, ht, hnamed,
          readProp]
  refine ⟨?_, hh, hiv, ?_, ?_⟩
  · rw [hm, tableGet_tableSet]
    simp
  · intro hnone
    simp only [setImportedVariableInCurrentFileMetadata, getNewImportVariableObject, hnone]
    split_ifs <;> rfl
  · intro k e hk
    rcases hiv with hiv | hiv
    · rw [hiv] at hk
      exact hk
    · rw [hiv, propGet_propSet] at hk
      split_ifs at hk with hkk
      exact hk

/-- Witness of C11: `import {zz as z} from "/src/m.js"`, whose export table
holds nothing under `zz`. -/
theorem missing_import_target_is_skipped_witness :
    tableGet (setImportedVariableInCurrentFileMetadata exampleAbsentNameSpecifier "/src/m.js"
        "CHECK_USAGE" exampleCurrentFileMetadata exampleFilesMetadata
        exampleHeap).1.importedVariablesMetadata "z" =
      some (importRecordOf exampleAbsentNameSpecifier "/src/m.js" exampleHeap) ∧
    (setImportedVariableInCurrentFileMetadata exampleAbsentNameSpecifier "/src/m.js"
        "CHECK_USAGE" exampleCurrentFileMetadata exampleFilesMetadata exampleHeap).2 =
      exampleHeap ++ [[("referenceCount", Val.num 0), ("exportReferenceCount", Val.num 0)]] ∧
    ((setImportedVariableInCurrentFileMetadata exampleAbsentNameSpecifier "/src/m.js"
        "CHECK_USAGE" exampleCurrentFileMetadata exampleFilesMetadata
        exampleHeap).1.importedVariables = exampleCurrentFileMetadata.importedVariables ∨
      (setImportedVariableInCurrentFileMetadata exampleAbsentNameSpecifier "/src/m.js"
        "CHECK_USAGE" exampleCurrentFileMetadata exampleFilesMetadata
        exampleHeap).1.importedVariables =
        propSet exampleCurrentFileMetadata.importedVariables "z" Val.undefined) ∧
    (exportedVariablesOf exampleFilesMetadata "/src/m.js" = none →
      (setImportedVariableInCurrentFileMetadata exampleAbsentNameSpecifier "/src/m.js"
        "CHECK_USAGE" exampleCurrentFileMetadata exampleFilesMetadata
        exampleHeap).1.importedVariables = exampleCurrentFileMetadata.importedVariables) ∧
    (∀ k e,
      propGet (setImportedVariableInCurrentFileMetadata exampleAbsentNameSpecifier "/src/m.js"
        "CHECK_USAGE" exampleCurrentFileMetadata exampleFilesMetadata
        exampleHeap).1.importedVariables k = Val.ref e →
      propGet exampleCurrentFileMetadata.importedVariables k = Val.ref e) :=
  missing_import_target_is_skipped exampleAbsentNameSpecifier "/src/m.js"
    exampleCurrentFileMetadata exampleFilesMetadata exampleHeap
    (Or.inr ⟨Or.inl rfl, Val.ref 0, by decide, by
      intro a ha
      have h0 : a = 0 := by simpa using ha.symm
      subst h0
      decide⟩)

/-- C12. What the code does on a renamed re-export: when the file `fileM`
exports `x` as the entity `e` and exports nothing under `y`, and the current
file processes `export {x as y} from fileM`, the import record stored under `x`
carries the exported name `y` as its `name`, `setExportVariable` looks `y` up in
the export table of `fileM`, and the current file's export table ends with
`undefined` under `y`, not with `e`; the statement `import {x as y} from fileM`
resolves `y` to `e`. -/
theorem renamed_reexport_reads_exported_name (x y fileM : String) (cm : CurrentFileMetadata)
    (fm : FilesMetadata) (h : Heap) (tm tb e : Nat)
    (hM : exportedVariablesOf fm fileM = some (Val.ref tm))
    (hx : field h tm x = Val.ref e)
    (hy : field h tm y = Val.undefined)
    (hcm : cm.exportedVariables = Val.ref tb)
    (htb : tb < h.length)
    (hy0 : y ≠ "") :
    ∃ cm1 h1 record,
      reExportRenamed x y fileM cm fm h = some (cm1, h1) ∧
      tableGet cm1.importedVariablesMetadata x = some record ∧
      record.name = Val.str y ∧
      cm1.exportedVariables = Val.ref tb ∧
      field h1 tb y = Val.undefined ∧
      field h1 tm x = Val.ref e ∧
      propGet (setImportedVariableInCurrentFileMetadata
        { type := "ImportSpecifier", localName := y, importedName := Val.str x } fileM
        "CHECK_USAGE" cm fm h).1.importedVariables y = Val.ref e := by
  have htm : tm < h.length := field_lt_of_ne_undefined h tm x (by simp [hx])
  set rco : Props := [("referenceCount", Val.num 0), ("exportReferenceCount", Val.num 0)]
    with hrco
  set record : ImportRecord :=
    { name := Val.str y, localName := Val.str x, type := "INDIVIDUAL_IMPORT",
      importedFrom := fileM, referenceCountObject := Val.ref h.length } with hrecord
  set cm1 : CurrentFileMetadata :=
    { cm with importedVariablesMetadata := tableSet cm.importedVariablesMetadata x record }
    with hcm1
  have hstep1 : setImportedVariablesFromExportFromStatementSpecifier
      (renamedReExportSpecifier x y) cm fileM h = (cm1, h ++ [rco]) := by
    simp [setImportedVariablesFromExportFromStatementSpecifier, renamedReExportSpecifier,
      getNewImportVariableObject, toKey, hcm1, hrecord, hrco]
  have hpairs : getValuesFromStatement (renamedReExportStatement x y) "named" =
      some [{ key := x, value := Val.str y }] := by
    simp [getValuesFromStatement, renamedReExportStatement, renamedReExportSpecifier, toKey]
  have hget : tableGet cm1.importedVariablesMetadata x = some record := by
    simp [hcm1, tableGet_tableSet]
  have hfy : field (h ++ [rco]) tm y = Val.undefined := by
    rw [field_append _ _ _ _ htm]; exact hy
  have hlen : tb < (h ++ [rco]).length := by simp; omega
  have hrun : setExportVariable cm1 fm (h ++ [rco]) { key := x, value := Val.str y }
      (some record) =
      (cm1, updAt (h ++ [rco]) tb (fun o => propSet o y Val.undefined), Completion.throw) := by
    simp [setExportVariable, hrecord, hM, readProp_ref, toKey, hfy, hy0, hcm1, hcm,
      writeProp_ref, field_updAt_same _ _ _ _ hlen, readProp]
  refine ⟨cm1, updAt (h ++ [rco]) tb (fun o => propSet o y Val.undefined), record, ?_, hget,
    rfl, ?_, ?_, ?_, ?_⟩
  · simp [reExportRenamed, hpairs, hstep1, setExportedVariablesFromArray, importedVariableOf,
      hget, hrun]
  · simp [hcm1, hcm]
  · exact field_updAt_same _ _ _ _ hlen
  · rw [field_updAt]
    split
    · rename_i hc
      obtain ⟨hc1, hc2, _⟩ := hc
      rw [← hc2, hy] at hx
      exact hx
    · rw [field_append _ _ _ _ htm]; exact hx
  · simp [setImportedVariableInCurrentFileMetadata, getNewImportVariableObject, hM,
      readProp_ref, toKey, field_append _ _ _ _ htm, hx, propGet_propSet_same]

/-- Witness of C12: `/src/main.js` processes `export {a as b} from "/src/m.js"`. -/
theorem renamed_reexport_reads_exported_name_witness :
    ∃ cm1 h1 record,
      reExportRenamed "a" "b" "/src/m.js" exampleCurrentFileMetadata exampleFilesMetadata
        exampleHeap = some (cm1, h1) ∧
      tableGet cm1.importedVariablesMetadata "a" = some record ∧
      record.name = Val.str "b" ∧
      cm1.exportedVariables = Val.ref 5 ∧
      field h1 5 "b" = Val.undefined ∧
      field h1 0 "a" = Val.ref 4 ∧
      propGet (setImportedVariableInCurrentFileMetadata
        { type := "ImportSpecifier", localName := "b", importedName := Val.str "a" } "/src/m.js"
        "CHECK_USAGE" exampleCurrentFileMetadata exampleFilesMetadata
        exampleHeap).1.importedVariables "b" = Val.ref 4 :=
  renamed_reexport_reads_exported_name "a" "b" "/src/m.js" exampleCurrentFileMetadata
    exampleFilesMetadata exampleHeap 0 5 4 (by decide) (by decide) (by decide) (by decide)
    (by decide) (by decide)

/-- C13. What the code does with a pair whose local name has no import record.
`setExportedVariablesFromArray` tests `importedVariablesMetadata[name]` on a
plain object, which also finds the members inherited from `Object.prototype`.
For a local name that is the name of such a member (`toString`, `constructor`)
the pair takes the branch of an imported variable, the lookup of the file
record under `undefined` raises, and nothing is stored: the state is as it was.
For every other local name a new entity (and its per-importer map) is
allocated, with `localName` the pair's local name, `firstReferencedAt` the
current file's address, `referenceCount` 0, `isEntryFileObject` false and an
empty `individualFileReferencesMapping`; it is stored under the exported name
in the current export table, or becomes the whole export table when the
exported name is empty, and no other property of any object of the state
changes.  For a non-empty exported name the current export table is an object
of the state. -/
theorem commit_exports_on_local_binding (cm : CurrentFileMetadata) (fm : FilesMetadata)
    (h : Heap) (pair : KeyValuePair) (tb : Nat)
    (hrec : tableGet cm.importedVariablesMetadata pair.key = none)
    (htable : pair.value ≠ Val.str "" → cm.exportedVariables = Val.ref tb ∧ tb < h.length) :
    (pair.key ∈ objectPrototypeNames → tableGet fm.filesMapping "undefined" = none →
      setExportedVariablesFromArray [pair] cm fm h = (cm, h)) ∧
    (pair.key ∉ objectPrototypeNames →
      ∃ cm1 h1 e m,
        setExportedVariablesFromArray [pair] cm fm h = (cm1, h1) ∧
        h.length ≤ e ∧ h.length ≤ m ∧ e < h1.length ∧ m < h1.length ∧
        (pair.value ≠ Val.str "" →
          cm1 = cm ∧ field h1 tb (toKey pair.value) = Val.ref e ∧
          ∀ a k, a < h.length → (a ≠ tb ∨ k ≠ toKey pair.value) →
            field h1 a k = field h a k) ∧
        (pair.value = Val.str "" →
          cm1 = { cm with exportedVariables := Val.ref e } ∧
          ∀ a k, a < h.length → field h1 a k = field h a k) ∧
        field h1 e "localName" = Val.str pair.key ∧
        field h1 e "firstReferencedAt" = Val.str cm.fileLocation ∧
        field h1 e "referenceCount" = Val.num 0 ∧
        field h1 e "isEntryFileObject" = Val.bool false ∧
        field h1 e "individualFileReferencesMapping" = Val.ref m ∧
        ∀ k, field h1 m k = Val.undefined) := by
  refine ⟨fun hkey hfile => ?_, fun hkey => commit_local_pair cm fm h pair tb hrec hkey htable⟩
  simp only [setExportedVariablesFromArray, importedVariableOf, hrec, hkey, if_true,
    setExportVariable_inherited cm fm h pair pair.key hfile]

/-- Witness of C13: in `/src/main.js`, which has no import, the pair of
`export function toString() {}` stores nothing (the export table at address 5
has no entry `toString` afterwards), while the pair of the local binding `f`
exported as `g` stores a new entity. -/
theorem commit_exports_on_local_binding_witness :
    (setExportedVariablesFromArray [{ key := "toString", value := Val.str "toString" }]
        exampleCurrentFileMetadata exampleFilesMetadata exampleHeap =
      (exampleCurrentFileMetadata, exampleHeap) ∧
     field exampleHeap 5 "toString" = Val.undefined) ∧
    ∃ cm1 h1 e m,
      setExportedVariablesFromArray [{ key := "f", value := Val.str "g" }]
        exampleCurrentFileMetadata exampleFilesMetadata exampleHeap = (cm1, h1) ∧
      exampleHeap.length ≤ e ∧ exampleHeap.length ≤ m ∧ e < h1.length ∧ m < h1.length ∧
      (Val.str "g" ≠ Val.str "" →
        cm1 = exampleCurrentFileMetadata ∧ field h1 5 "g" = Val.ref e ∧
        ∀ a k, a < exampleHeap.length → (a ≠ 5 ∨ k ≠ "g") →
          field h1 a k = field exampleHeap a k) ∧
      (Val.str "g" = Val.str "" →
        cm1 = { exampleCurrentFileMetadata with exportedVariables := Val.ref e } ∧
        ∀ a k, a < exampleHeap.length → field h1 a k = field exampleHeap a k) ∧
      field h1 e "localName" = Val.str "f" ∧
      field h1 e "firstReferencedAt" = Val.str "/src/main.js" ∧
      field h1 e "referenceCount" = Val.num 0 ∧
      field h1 e "isEntryFileObject" = Val.bool false ∧
      field h1 e "individualFileReferencesMapping" = Val.ref m ∧
      ∀ k, field h1 m k = Val.undefined :=
  ⟨⟨(commit_exports_on_local_binding exampleCurrentFileMetadata exampleFilesMetadata
      exampleHeap { key := "toString", value := Val.str "toString" } 5 (by decide)
      (fun _ => ⟨by decide, by decide⟩)).1 (by decide) (by decide), by decide⟩,
   (commit_exports_on_local_binding exampleCurrentFileMetadata exampleFilesMetadata exampleHeap
      { key := "f", value := Val.str "g" } 5 (by decide) (fun _ => ⟨by decide, by decide⟩)).2
      (by decide)⟩

/-- C14, as stated, fails: for the template literal with the leading text
`./` (a text that contains a slash) the address is `./`, the text unchanged,
and not `.`, the text cut before its last slash. -/
theorem template_literal_path_prefix_counterexample :
    getValueFromStringOrTemplateLiteral
        (some { type := "TemplateLiteral", value := Val.undefined,
                quasis := [Val.str "./", Val.str ""] }) =
      some { type := "UNRESOLVED TYPE", address := Val.str "./" } ∧
    getValueFromStringOrTemplateLiteral
        (some { type := "TemplateLiteral", value := Val.undefined,
                quasis := [Val.str "./", Val.str ""] }) ≠
      some { type := "UNRESOLVED TYPE", address := Val.str "." } := by
  decide

/-- C14 (amended). A `StringLiteral` yields the kind `FILE` with its value.  A
`TemplateLiteral` whose leading text (the first quasi) has no line terminator
and has its last slash behind at least two UTF-16 code units yields the kind
`UNRESOLVED TYPE` with the leading text cut immediately before that slash; a
leading text none of whose slashes stands behind two or more code units is the
address as it is.  Every other argument node yields the kind `NONE`. -/
theorem template_literal_path_prefix :
    (∀ (value : Val) (quasis : List Val),
      getValueFromStringOrTemplateLiteral
          (some { type := "StringLiteral", value := value, quasis := quasis }) =
        some { type := "FILE", address := value }) ∧
    (∀ (value : Val) (pre post : List Char) (rest : List Val),
      2 ≤ (toCodeUnits pre).length → '/' ∉ post → (∀ c ∈ pre ++ post, dotMatches c = true) →
      getValueFromStringOrTemplateLiteral
          (some { type := "TemplateLiteral", value := value,
                  quasis := Val.str (String.mk (pre ++ '/' :: post)) :: rest }) =
        some { type := "UNRESOLVED TYPE", address := Val.str (String.mk pre) }) ∧
    (∀ (value : Val) (lead : List Char) (rest : List Val),
      (∀ q, 2 ≤ q → (toCodeUnits lead)[q]? ≠ some 47) →
      getValueFromStringOrTemplateLiteral
          (some { type := "TemplateLiteral", value := value,
                  quasis := Val.str (String.mk lead) :: rest }) =
        some { type := "UNRESOLVED TYPE", address := Val.str (String.mk lead) }) ∧
    (∀ node : ArgumentNode, node.type ≠ "StringLiteral" →
      (node.type ≠ "TemplateLiteral" ∨ node.quasis = []) →
      getValueFromStringOrTemplateLiteral (some node) =
        some { type := "NONE", address := Val.undefined }) := by
  refine ⟨?_, ?_, ?_, ?_⟩
  · intro value quasis
    simp [getValueFromStringOrTemplateLiteral]
  · intro value pre post rest hpre hpost hdot
    simp [getValueFromStringOrTemplateLiteral,
      getLastFeasibleAddress_last_slash pre post hpre hpost hdot]
  · intro value lead rest hno
    simp [getValueFromStringOrTemplateLiteral, getLastFeasibleAddress_unchanged lead hno]
  · intro node h1 h2
    rcases h2 with h2 | h2
    · simp [getValueFromStringOrTemplateLiteral, h1, h2]
    · simp [getValueFromStringOrTemplateLiteral, h1, h2]

/-- Witness of C14 (amended): the template literal of
`/pages/` followed by an interpolation and `/index`. -/
theorem template_literal_path_prefix_witness :
    getValueFromStringOrTemplateLiteral
        (some { type := "TemplateLiteral", value := Val.undefined,
                quasis := [Val.str "/pages/", Val.str "/index"] }) =
      some { type := "UNRESOLVED TYPE", address := Val.str "/pages" } :=
  template_literal_path_prefix.2.1 Val.undefined "/pages".data [] [Val.str "/index"]
    (by decide) (by decide) (by decide)

/-- C15, as stated, fails: for the member access `a.b`, whose operand is the
identifier `a` and no call, and for `await a`, `getCallExpressionFromNode`
yields the operand, the `Identifier` node, as its target. -/
theorem call_target_extraction_counterexample :
    getCallExpressionFromNode
        (AstNode.node "MemberExpression"
          (AstNode.node "Identifier" AstNode.absent AstNode.absent) AstNode.absent) =
      AstNode.node "Identifier" AstNode.absent AstNode.absent ∧
    isCallExpression (AstNode.node "Identifier" AstNode.absent AstNode.absent) = false ∧
    getCallExpressionFromNode
        (AstNode.node "AwaitExpression" AstNode.absent
          (AstNode.node "Identifier" AstNode.absent AstNode.absent)) =
      AstNode.node "Identifier" AstNode.absent AstNode.absent := by
  decide

/-- C15 (amended). `getCallExpressionFromNode` yields the node itself for a
`CallExpression`, the node's `object` for a `MemberExpression` and the node's
`argument` for an `AwaitExpression`, whatever that operand is, and no target
for an absent node and for every other node type.  So it yields a target
exactly for a `CallExpression`, a `MemberExpression` with an object and an
`AwaitExpression` with an argument, and the target is a call expression exactly
in the three shapes of a call, a member access chained on a call and an awaited
call. -/
theorem call_target_extraction :
    getCallExpressionFromNode AstNode.absent = AstNode.absent ∧
    (∀ (type : String) (object argument : AstNode),
      (type = "CallExpression" →
        getCallExpressionFromNode (AstNode.node type object argument) =
          AstNode.node type object argument) ∧
      (type = "MemberExpression" →
        getCallExpressionFromNode (AstNode.node type object argument) = object) ∧
      (type = "AwaitExpression" →
        getCallExpressionFromNode (AstNode.node type object argument) = argument) ∧
      (type ≠ "CallExpression" → type ≠ "MemberExpression" → type ≠ "AwaitExpression" →
        getCallExpressionFromNode (AstNode.node type object argument) = AstNode.absent) ∧
      (getCallExpressionFromNode (AstNode.node type object argument) ≠ AstNode.absent ↔
        type = "CallExpression" ∨ (type = "MemberExpression" ∧ object ≠ AstNode.absent) ∨
          (type = "AwaitExpression" ∧ argument ≠ AstNode.absent)) ∧
      (isCallExpression (getCallExpressionFromNode (AstNode.node type object argument)) =
          true ↔
        type = "CallExpression" ∨
          (type = "MemberExpression" ∧ isCallExpression object = true) ∨
          (type = "AwaitExpression" ∧ isCallExpression argument = true))) := by
  refine ⟨rfl, ?_⟩
  intro type object argument
  by_cases h1 : type = "CallExpression"
  · subst h1
    simp [getCallExpressionFromNode, isCallExpression]
  · by_cases h2 : type = "MemberExpression"
    · subst h2
      simp [getCallExpressionFromNode]
    · by_cases h3 : type = "AwaitExpression"
      · subst h3
        simp [getCallExpressionFromNode]
      · simp [getCallExpressionFromNode, h1, h2, h3, isCallExpression]

/-- C16, as stated, fails: `export {}` and the right-hand side of
`module.exports = function () {}` are neither `Identifier` nor
`ObjectExpression`, have no non-empty specifier list and no declaration, and
`getValuesFromStatement` returns the empty list for them, not the one pair
`default → default`. -/
theorem export_binding_fallback_counterexample :
    emptyExportStatement.type ≠ "Identifier" ∧
    emptyExportStatement.type ≠ "ObjectExpression" ∧
    emptyExportStatement.specifiers = some [] ∧
    emptyExportStatement.declaration = none ∧
    getValuesFromStatement emptyExportStatement "named" = some [] ∧
    getValuesFromStatement emptyExportStatement "named" ≠
      some [{ key := "default", value := Val.str "default" }] ∧
    getValuesFromStatement functionExpressionExport "named" = some [] := by
  decide

/-- C16 (amended). For an export node that is neither an `Identifier` nor an
`ObjectExpression` and has no non-empty specifier list,
`getValuesFromStatement` returns exactly the one pair `default → default` when
the node has a declaration that carries none of `name`, `declarations`, `id`
and `left`, and the empty list when the node has no declaration. -/
theorem export_binding_fallback (nodeToGetValues : ExportNode) (type : String)
    (hid : nodeToGetValues.type ≠ "Identifier")
    (hobj : nodeToGetValues.type ≠ "ObjectExpression")
    (hspec : nodeToGetValues.specifiers = none ∨ nodeToGetValues.specifiers = some []) :
    (∀ declaration, nodeToGetValues.declaration = some declaration →
      truthy declaration.name = false → declaration.declarations = none →
      declaration.id = none → declaration.left = none →
      getValuesFromStatement nodeToGetValues type =
        some [{ key := "default", value := Val.str "default" }]) ∧
    (nodeToGetValues.declaration = none →
      getValuesFromStatement nodeToGetValues type = some []) := by
  constructor
  · intro declaration hd hname hdecls hidn hleft
    rcases hspec with hs | hs <;>
      simp [getValuesFromStatement, hid, hobj, hs, hd, hname, hdecls, hidn, hleft]
  · intro hd
    rcases hspec with hs | hs <;>
      simp [getValuesFromStatement, hid, hobj, hs, hd]

/-- Witness of C16 (amended): `export default 42`. -/
theorem export_binding_fallback_witness :
    getValuesFromStatement defaultLiteralExportStatement "default" =
      some [{ key := "default", value := Val.str "default" }] :=
  (export_binding_fallback defaultLiteralExportStatement "default" (by decide) (by decide)
    (Or.inl rfl)).1 _ rfl rfl rfl rfl rfl

/-- C17. What the code does on an object-literal export: for
`module.exports = {k: v}` with the identifiers `k` and `v`,
`getValuesFromStatement` returns the pair with `k` in the place of the local
name and `v` in the place of the exported name, the same pair as for
`export {k as v}`; committed by `setExportedVariablesFromArray` (no import
record for `k`, which is no name of a member of `Object.prototype`), it stores
under the name `v` a new entity with `localName` `k`, and leaves the current
file's export under `k` as it was when `k` and `v` differ. -/
theorem object_literal_export_orientation (k v type : String) (cm : CurrentFileMetadata)
    (fm : FilesMetadata) (h : Heap) (tb : Nat)
    (hv : v ≠ "")
    (hrec : tableGet cm.importedVariablesMetadata k = none)
    (hk : k ∉ objectPrototypeNames)
    (hcm : cm.exportedVariables = Val.ref tb)
    (htb : tb < h.length) :
    ∃ pairs h1 e,
      getValuesFromStatement (objectLiteralExport k v) type = some pairs ∧
      pairs = [{ key := k, value := Val.str v }] ∧
      getValuesFromStatement (renamedReExportStatement k v) type = some pairs ∧
      setExportedVariablesFromArray pairs cm fm h = (cm, h1) ∧
      h.length ≤ e ∧
      field h1 tb v = Val.ref e ∧
      field h1 e "localName" = Val.str k ∧
      (k ≠ v → field h1 tb k = field h tb k) := by
  obtain ⟨cm1, h1, e, m, hrun, he, -, -, -, hval, -, hln, -⟩ :=
    commit_local_pair cm fm h { key := k, value := Val.str v } tb hrec hk
      (fun _ => ⟨hcm, htb⟩)
  have hv' : Val.str v ≠ Val.str "" := by simpa using hv
  obtain ⟨hcm1, hf, hframe⟩ := hval hv'
  subst hcm1
  refine ⟨[{ key := k, value := Val.str v }], h1, e, ?_, rfl, ?_, hrun, he, ?_, hln, ?_⟩
  · simp [getValuesFromStatement, objectLiteralExport, truthy, toKey, hv]
  · simp [getValuesFromStatement, renamedReExportStatement, renamedReExportSpecifier, toKey]
  · simpa [toKey] using hf
  · intro hkv
    exact hframe tb k htb (Or.inr (by simpa [toKey] using hkv))

/-- Witness of C17: `module.exports = {a: b}` in `/src/main.js`. -/
theorem object_literal_export_orientation_witness :
    ∃ pairs h1 e,
      getValuesFromStatement (objectLiteralExport "a" "b") "named" = some pairs ∧
      pairs = [{ key := "a", value := Val.str "b" }] ∧
      getValuesFromStatement (renamedReExportStatement "a" "b") "named" = some pairs ∧
      setExportedVariablesFromArray pairs exampleCurrentFileMetadata exampleFilesMetadata
        exampleHeap = (exampleCurrentFileMetadata, h1) ∧
      exampleHeap.length ≤ e ∧
      field h1 5 "b" = Val.ref e ∧
      field h1 e "localName" = Val.str "a" ∧
      ("a" ≠ "b" → field h1 5 "a" = field exampleHeap 5 "a") :=
  object_literal_export_orientation "a" "b" "named" exampleCurrentFileMetadata
    exampleFilesMetadata exampleHeap 5 (by decide) (by decide) (by decide) (by decide)
    (by decide)

/-- C18, as stated, fails: the text `webpackChunkName: "a:b"` is cut at both
colons, and `parseComment` returns `valid = false` for it. -/
theorem magic_comment_first_colon_counterexample :
    parseComment lettersOnlyRegExp "webpackChunkName: \"a:b\"" =
      some { key := none, value := none, valid := false } := by
  decide

/-- C18 (amended). For a comment text `key:value` in which neither `key` nor
`value` holds a colon and whose trimmed value is a literal between two equal
quotes, without line terminator in between, `parseComment` returns
`valid = true` with the trimmed key and the text between the quotes. -/
theorem magic_comment_quoted_value (regExpAccepts : String → Bool) (key value mid : List Char)
    (q : Char)
    (hkey : ':' ∉ key) (hvalue : ':' ∉ value)
    (hq : isQuote q = true)
    (htrim : jsTrim value = q :: (mid ++ [q]))
    (hmid : ∀ c ∈ mid, dotMatches c = true) :
    parseComment regExpAccepts (String.mk (key ++ ':' :: value)) =
      some { key := some (String.mk (jsTrim key))
             value := some (CommentValue.text (String.mk mid))
             valid := true } := by
  have hne : mid ≠ q :: (mid ++ [q]) := by
    intro hc
    have := congrArg List.length hc
    simp at this
    omega
  simp only [parseComment, jsSplit_key_value key value hkey hvalue, htrim,
    replaceQuoted_quoted q mid hq hmid]
  simp [hne]

/-- Witness of C18 (amended): the text `webpackChunkName: "ab"`. -/
theorem magic_comment_quoted_value_witness :
    parseComment lettersOnlyRegExp "webpackChunkName: \"ab\"" =
      some { key := some "webpackChunkName"
             value := some (CommentValue.text "ab")
             valid := true } :=
  magic_comment_quoted_value lettersOnlyRegExp "webpackChunkName".data " \"ab\"".data "ab".data
    (Char.ofNat 34) (by decide) (by decide) (by decide) (by decide) (by decide)

/-- C19. What the code does on a value of another shape: for a comment text
`key:value` with exactly one colon whose trimmed value is no literal between
matching quotes, `parseComment` hands the value (without its `/` delimiters
when it has them) to the `RegExp` constructor and returns `valid = true` with
the compiled expression, or raises the constructor's error; it never returns
`valid = false`. -/
theorem magic_comment_unquoted_value_is_valid (regExpAccepts : String → Bool)
    (key value : List Char)
    (hkey : ':' ∉ key) (hvalue : ':' ∉ value)
    (hnot : replaceQuoted (jsTrim value) = jsTrim value) :
    parseComment regExpAccepts (String.mk (key ++ ':' :: value)) =
      (if regExpAccepts (String.mk (replaceDelimited (jsTrim value))) then
        some { key := some (String.mk (jsTrim key))
               value := some (CommentValue.regExp (String.mk (replaceDelimited (jsTrim value))))
               valid := true }
       else none) ∧
    ∀ r, parseComment regExpAccepts (String.mk (key ++ ':' :: value)) = some r →
      r.valid = true := by
  have hrun := parseComment_unquoted regExpAccepts key value hkey hvalue hnot
  refine ⟨hrun, ?_⟩
  intro r hr
  rw [hrun] at hr
  split_ifs at hr
  simp only [Option.some.injEq] at hr
  rw [← hr]

/-- Witness of C19: the text `webpackPrefetch: true`. -/
theorem magic_comment_unquoted_value_is_valid_witness :
    parseComment lettersOnlyRegExp "webpackPrefetch: true" =
      some { key := some "webpackPrefetch"
             value := some (CommentValue.regExp "true")
             valid := true } :=
  (magic_comment_unquoted_value_is_valid lettersOnlyRegExp "webpackPrefetch".data
    " true".data (by decide) (by decide) (by decide)).1.trans (by decide)

/-- C20. Chunk membership insert: when the target address has a file record
whose `webpackChunkConfiguration` is an object `c` of the state and the
descriptor `d` has the chunk name `name`, then after
`updateWebpackConfigurationOfImportedFile` the object `c` maps `name` to `d`,
every other property of `c` is as before, every other object of the state
(the chunk table of every other file record among them) is as before and no
object is allocated.  Recording `d` a second time changes nothing more, and
after recording a descriptor `d2` with another chunk name the table holds both
memberships (`d` and `d2` are not the table `c` itself). -/
theorem chunk_membership_insert (givenFileAddress : String) (d : Val) (fm : FilesMetadata)
    (h : Heap) (record : FileRecord) (c : Nat) (name : Val)
    (hrec : tableGet fm.filesMapping givenFileAddress = some record)
    (hc : record.webpackChunkConfiguration = Val.ref c)
    (hlt : c < h.length)
    (hname : readProp h d "webpackChunkName" = some name) :
    field (updateWebpackConfigurationOfImportedFile givenFileAddress d fm h) c (toKey name) = d ∧
    (∀ k, k ≠ toKey name →
      field (updateWebpackConfigurationOfImportedFile givenFileAddress d fm h) c k =
        field h c k) ∧
    (∀ a k, a ≠ c →
      field (updateWebpackConfigurationOfImportedFile givenFileAddress d fm h) a k =
        field h a k) ∧
    (updateWebpackConfigurationOfImportedFile givenFileAddress d fm h).length = h.length ∧
    (d ≠ Val.ref c →
      updateWebpackConfigurationOfImportedFile givenFileAddress d fm
          (updateWebpackConfigurationOfImportedFile givenFileAddress d fm h) =
        updateWebpackConfigurationOfImportedFile givenFileAddress d fm h) ∧
    (∀ d2 name2, d ≠ Val.ref c → d2 ≠ Val.ref c →
      readProp h d2 "webpackChunkName" = some name2 → toKey name2 ≠ toKey name →
      field (updateWebpackConfigurationOfImportedFile givenFileAddress d2 fm
          (updateWebpackConfigurationOfImportedFile givenFileAddress d fm h)) c (toKey name) =
        d ∧
      field (updateWebpackConfigurationOfImportedFile givenFileAddress d2 fm
          (updateWebpackConfigurationOfImportedFile givenFileAddress d fm h)) c (toKey name2) =
        d2) := by
  have heq := update_chunk_eq givenFileAddress d fm h record c name hrec hc hname
  rw [heq]
  refine ⟨field_updAt_same _ _ _ _ hlt, ?_, ?_, length_updAt _ _ _, ?_, ?_⟩
  · intro k hk
    exact field_updAt_of_ne _ _ _ _ _ _ (Or.inr (fun hc => hk hc.symm))
  · intro a k ha
    exact field_updAt_of_ne _ _ _ _ _ _ (Or.inl (fun hc => ha hc.symm))
  · intro hd
    have hname1 : readProp (updAt h c (fun o => propSet o (toKey name) d)) d
        "webpackChunkName" = some name := by
      rw [readProp_updAt_of_ne _ _ _ _ _ _ hd]; exact hname
    rw [update_chunk_eq givenFileAddress d fm _ record c name hrec hc hname1]
    exact updAt_updAt_same _ _ _ (fun o => propSet_propSet_same o _ _)
  · intro d2 name2 _ hd2 hname2 hne
    have hname2' : readProp (updAt h c (fun o => propSet o (toKey name) d)) d2
        "webpackChunkName" = some name2 := by
      rw [readProp_updAt_of_ne _ _ _ _ _ _ hd2]; exact hname2
    rw [update_chunk_eq givenFileAddress d2 fm _ record c name2 hrec hc hname2']
    constructor
    · rw [field_updAt_of_ne _ _ _ _ _ _ (Or.inr hne)]
      exact field_updAt_same _ _ _ _ hlt
    · exact field_updAt_same _ _ _ _ (by rw [length_updAt]; exact hlt)

/-- Witness of C20: `/src/page.js` is recorded under `chunkA`, a second time
under `chunkA`, and under `chunkB`. -/
theorem chunk_membership_insert_witness :
    field (updateWebpackConfigurationOfImportedFile "/src/page.js" (Val.ref 2)
      exampleChunkFilesMetadata exampleChunkHeap) 0 "chunkA" = Val.ref 2 ∧
    updateWebpackConfigurationOfImportedFile "/src/page.js" (Val.ref 2)
        exampleChunkFilesMetadata
        (updateWebpackConfigurationOfImportedFile "/src/page.js" (Val.ref 2)
          exampleChunkFilesMetadata exampleChunkHeap) =
      updateWebpackConfigurationOfImportedFile "/src/page.js" (Val.ref 2)
        exampleChunkFilesMetadata exampleChunkHeap ∧
    field (updateWebpackConfigurationOfImportedFile "/src/page.js" (Val.ref 3)
        exampleChunkFilesMetadata
        (updateWebpackConfigurationOfImportedFile "/src/page.js" (Val.ref 2)
          exampleChunkFilesMetadata exampleChunkHeap)) 0 "chunkA" = Val.ref 2 ∧
    field (updateWebpackConfigurationOfImportedFile "/src/page.js" (Val.ref 3)
        exampleChunkFilesMetadata
        (updateWebpackConfigurationOfImportedFile "/src/page.js" (Val.ref 2)
          exampleChunkFilesMetadata exampleChunkHeap)) 0 "chunkB" = Val.ref 3 :=
  have r := chunk_membership_insert "/src/page.js" (Val.ref 2) exampleChunkFilesMetadata
    exampleChunkHeap
    { isEntryFile := Val.bool false, exportedVariables := Val.ref 4,
      webpackChunkConfiguration := Val.ref 0 }
    0 (Val.str "chunkA") (by decide) rfl (by decide) (by decide)
  ⟨r.1, r.2.2.2.2.1 (by decide),
    r.2.2.2.2.2 (Val.ref 3) (Val.str "chunkB") (by decide) (by decide) (by decide)
      (by decide)⟩

/-- C21. The chunk membership update is dropped for an unknown file: when the
target address has no file record, `updateWebpackConfigurationOfImportedFile`
returns (the error of the lookup is caught) and leaves the heap as it was; the
function has no access to `filesMapping` other than reading it, so no file
record is created. -/
theorem chunk_membership_dropped_for_unknown_file (givenFileAddress : String)
    (webpackChunkConfiguration : Val) (fm : FilesMetadata) (h : Heap)
    (hmiss : tableGet fm.filesMapping givenFileAddress = none) :
    updateWebpackConfigurationOfImportedFile givenFileAddress webpackChunkConfiguration fm h =
      h := by
  simp [updateWebpackConfigurationOfImportedFile, hmiss]

/-- Witness of C21: `/src/unknown.js` has no file record in the example. -/
theorem chunk_membership_dropped_for_unknown_file_witness :
    updateWebpackConfigurationOfImportedFile "/src/unknown.js" (Val.ref 2)
      exampleChunkFilesMetadata exampleChunkHeap = exampleChunkHeap :=
  chunk_membership_dropped_for_unknown_file "/src/unknown.js" (Val.ref 2)
    exampleChunkFilesMetadata exampleChunkHeap (by decide)

/-- C22. What the code does at the exclusion test.  The checker calls
`isFileNotExcluded(file, filesMetadata.excludedFilesRegex)`, while `helper.js`
declares `isFileNotExcluded(excludedFilesRegex, directoyAbsoluteAddress)`.  When
the function called is the one of `helper.js`, `isFilePath` receives the
regular expression and `test` is looked up on the file's address, a string, so
the regular expression is never tested against the file: the call answers
`false` when `isFilePath` answers `false` on the regular expression and raises
in every other case.  So no imported file is ever entered.  For a file that
parses and reports the unvisited file `f`, with a valid extension and no file
record, among its imports: when `isFilePath` does not answer `false` on the
regular expression the loop raises, the file is counted as unparsable and `f`
has no file record afterwards; when it answers `false`, every imported file,
matched by the regular expression or not, is left unvisited with a file
record. -/
theorem exclusion_call_hands_file_as_pattern {Ast : Type} (env : Collaborators Ast)
    (isFilePath : ExclusionArgument → Option Bool)
    (regExpTest : String → ExclusionArgument → Bool)
    (hhelper : env.isFileNotExcluded = isFileNotExcluded isFilePath regExpTest) :
    (∀ file regex : String,
      env.isFileNotExcluded (ExclusionArgument.text file) (ExclusionArgument.regExp regex) =
        (if isFilePath (ExclusionArgument.regExp regex) = some false then some false
         else none)) ∧
    (∀ (fuel : Nat) (g : String) (fm : FilesMetadata) (h : Heap),
      ∃ fm1 h1, traverseFileForCheckingUsage env (fuel + 1) g fm h = some (fm1, h1, [g])) ∧
    (∀ (fuel : Nat) (g : String) (fm : FilesMetadata) (h : Heap) (ast : Ast)
      (cm2 : CurrentFileMetadata) (fm2 : FilesMetadata) (h2 : Heap) (files : List String)
      (f : String),
      env.buildAST g = some ast →
      env.traverseAST ast (env.getDefaultCurrentFileMetadata g h).1
          { fm with visitedFilesMapping := g :: fm.visitedFilesMapping }
          (env.getDefaultCurrentFileMetadata g h).2 = (cm2, fm2, h2, Completion.normal) →
      env.getUsedFilesMapping cm2 = some files →
      f ∈ files → isFileNotVisited f fm2 = true → isFileExtensionValid f = true →
      isFileMappingNotPresent f fm2 = true →
      (isFilePath (ExclusionArgument.regExp fm2.excludedFilesRegex) ≠ some false →
        ∃ fm3 h3,
          traverseFileForCheckingUsage env (fuel + 1) g fm h = some (fm3, h3, [g]) ∧
          isFileMappingNotPresent f fm3 = true ∧
          fm3.unparsableVistedFiles = fm2.unparsableVistedFiles + 1 ∧
          fm3.visitedFilesMapping = fm2.visitedFilesMapping) ∧
      (isFilePath (ExclusionArgument.regExp fm2.excludedFilesRegex) = some false →
        ∃ fm3 h3,
          traverseFileForCheckingUsage env (fuel + 1) g fm h = some (fm3, h3, [g]) ∧
          (∀ x ∈ files, isFileMappingNotPresent x fm3 = false) ∧
          fm3.unparsableVistedFiles = fm2.unparsableVistedFiles ∧
          fm3.visitedFilesMapping = fm2.visitedFilesMapping)) := by
  have hcall : ∀ file regex : String,
      env.isFileNotExcluded (ExclusionArgument.text file) (ExclusionArgument.regExp regex) =
        (if isFilePath (ExclusionArgument.regExp regex) = some false then some false
         else none) := by
    intro file regex
    rw [hhelper]
    exact isFileNotExcluded_file_first isFilePath regExpTest file regex
  have hnever : ∀ a b, env.isFileNotExcluded (ExclusionArgument.text a)
      (ExclusionArgument.regExp b) ≠ some true := by
    intro a b
    rw [hcall]
    split <;> simp
  refine ⟨hcall, fun fuel g fm h => traverse_enters_none env hnever fuel g fm h, ?_⟩
  intro fuel g fm h ast cm2 fm2 h2 files f hast hwalk hfiles hf hnv hvalid hnp
  refine ⟨fun hpath => ?_, fun hpath => ?_⟩
  · have hraise : ∀ a, env.isFileNotExcluded (ExclusionArgument.text a)
        (ExclusionArgument.regExp fm2.excludedFilesRegex) = none := by
      intro a
      rw [hcall, if_neg hpath]
    obtain ⟨fm3, h3, hrun, h3np, h3v, h3u⟩ := forEachImportedFile_raises env
      fm2.excludedFilesRegex hraise (traverseFileForCheckingUsage env fuel) f hvalid files fm2
      h2 hf rfl hnv hnp
    refine ⟨countUnparsable fm3, h3, ?_, ?_, ?_, ?_⟩
    · simp only [traverseFileForCheckingUsage, hast, hwalk, hfiles, hrun]
    · simpa [isFileMappingNotPresent, countUnparsable] using h3np
    · simp [countUnparsable, h3u]
    · simp [countUnparsable, h3v]
  · have hfalse : ∀ a, env.isFileNotExcluded (ExclusionArgument.text a)
        (ExclusionArgument.regExp fm2.excludedFilesRegex) = some false := by
      intro a
      rw [hcall, if_pos hpath]
    obtain ⟨fm3, h3, hrun, hall, -, h3v, h3u⟩ := forEachImportedFile_all_excluded env
      fm2.excludedFilesRegex hfalse (traverseFileForCheckingUsage env fuel) files fm2 h2 rfl
    refine ⟨fm3, h3, ?_, hall, h3u, h3v⟩
    simp only [traverseFileForCheckingUsage, hast, hwalk, hfiles, hrun]

/-- Witness of C22: `/src/a.js` parses and imports `/src/vendor/lib.js`, which
the regular expression matches.  Whether `isFilePath` answers `true` on the
regular expression or raises on it, the call of the traversal for `/src/a.js`
returns with `/src/a.js` counted as unparsable and without a file record for
`/src/vendor/lib.js`. -/
theorem exclusion_call_hands_file_as_pattern_witness :
    exampleRegExpTest exclusionFilesMetadata.excludedFilesRegex
        (ExclusionArgument.text "/src/vendor/lib.js") = true ∧
    (∃ fm3 h3,
      traverseFileForCheckingUsage (helperCollaborators (some true)) (0 + 1) "/src/a.js"
          exclusionFilesMetadata [] = some (fm3, h3, ["/src/a.js"]) ∧
      isFileMappingNotPresent "/src/vendor/lib.js" fm3 = true ∧
      fm3.unparsableVistedFiles = 0 + 1 ∧
      fm3.visitedFilesMapping = ["/src/a.js"]) ∧
    ∃ fm3 h3,
      traverseFileForCheckingUsage (helperCollaborators none) (0 + 1) "/src/a.js"
          exclusionFilesMetadata [] = some (fm3, h3, ["/src/a.js"]) ∧
      isFileMappingNotPresent "/src/vendor/lib.js" fm3 = true ∧
      fm3.unparsableVistedFiles = 0 + 1 ∧
      fm3.visitedFilesMapping = ["/src/a.js"] :=
  ⟨by decide,
   ((exclusion_call_hands_file_as_pattern (helperCollaborators (some true))
      (exampleIsFilePath (some true)) exampleRegExpTest rfl).2.2 0 "/src/a.js"
      exclusionFilesMetadata [] "/src/a.js"
      ((helperCollaborators (some true)).getDefaultCurrentFileMetadata "/src/a.js" []).1
      { exclusionFilesMetadata with visitedFilesMapping := ["/src/a.js"] }
      ((helperCollaborators (some true)).getDefaultCurrentFileMetadata "/src/a.js" []).2
      ["/src/vendor/lib.js", "/src/b.js"] "/src/vendor/lib.js"
      (by decide) (by decide) (by decide) (by decide) (by decide) (by decide) (by decide)).1
      (by decide),
   ((exclusion_call_hands_file_as_pattern (helperCollaborators none)
      (exampleIsFilePath none) exampleRegExpTest rfl).2.2 0 "/src/a.js"
      exclusionFilesMetadata [] "/src/a.js"
      ((helperCollaborators none).getDefaultCurrentFileMetadata "/src/a.js" []).1
      { exclusionFilesMetadata with visitedFilesMapping := ["/src/a.js"] }
      ((helperCollaborators none).getDefaultCurrentFileMetadata "/src/a.js" []).2
      ["/src/vendor/lib.js", "/src/b.js"] "/src/vendor/lib.js"
      (by decide) (by decide) (by decide) (by decide) (by decide) (by decide) (by decide)).1
      (by decide)⟩

/-- C23. What the code does on a default export of an assignment expression:
for an export node that is neither `Identifier` nor `ObjectExpression`, has no
non-empty specifier list and has a declaration with `left` and none of `name`,
`declarations` and `id`, `getValuesFromStatement` builds its array and ends
without a `return`: the result is `undefined`, no list of pairs, for every
kind. -/
theorem default_assignment_export_returns_nothing (nodeToGetValues : ExportNode)
    (type : String) (declaration : DeclarationNode) (leftName : Val)
    (hid : nodeToGetValues.type ≠ "Identifier")
    (hobj : nodeToGetValues.type ≠ "ObjectExpression")
    (hspec : nodeToGetValues.specifiers = none ∨ nodeToGetValues.specifiers = some [])
    (hd : nodeToGetValues.declaration = some declaration)
    (hname : truthy declaration.name = false)
    (hdecls : declaration.declarations = none)
    (hidn : declaration.id = none)
    (hleft : declaration.left = some leftName) :
    getValuesFromStatement nodeToGetValues type = none := by
  rcases hspec with hs | hs <;>
    simp [getValuesFromStatement, hid, hobj, hs, hd, hname, hdecls, hidn, hleft]

/-- Witness of C23: `export default x = () => {}`. -/
theorem default_assignment_export_returns_nothing_witness :
    getValuesFromStatement (defaultAssignmentExportStatement "x") "default" = none :=
  default_assignment_export_returns_nothing (defaultAssignmentExportStatement "x") "default"
    { name := Val.undefined, declarations := none, id := none, left := some (Val.str "x") }
    (Val.str "x") (by decide) (by decide) (Or.inl rfl) rfl rfl rfl rfl rfl

/-- C24. What the code does: `isFileExtensionNotValid` returns `false` exactly
on the locations that end in `js`, `jsx`, `ts` or `tsx`, with or without a dot
in front; it returns `false` wherever `isFileExtensionValid` returns `true`,
but the two predicates are not complementary: both return `false` on `fonts`
and on `a.mjs`. -/
theorem extension_predicates_are_not_complementary :
    (∀ fileLocation : String,
      isFileExtensionNotValid fileLocation = false ↔
        ("js".data <:+ fileLocation.data ∨ "jsx".data <:+ fileLocation.data ∨
          "ts".data <:+ fileLocation.data ∨ "tsx".data <:+ fileLocation.data)) ∧
    (∀ fileLocation : String,
      isFileExtensionValid fileLocation = true → isFileExtensionNotValid fileLocation = false) ∧
    (isFileExtensionNotValid "fonts" = false ∧ isFileExtensionValid "fonts" = false) ∧
    (isFileExtensionNotValid "a.mjs" = false ∧ isFileExtensionValid "a.mjs" = false) := by
  refine ⟨?_, notValid_of_valid, by decide, by decide⟩
  intro fileLocation
  simp only [isFileExtensionNotValid, List.any_cons, List.any_nil, Bool.or_false,
    Bool.not_eq_false', Bool.or_eq_true, List.isSuffixOf_iff_suffix]

/-- C25. What the code does on an access chain over the identifier `x` with
the properties `p1 ... pn`: written with dots, as nested `MemberExpression` or
as nested `TSQualifiedName` nodes, `getAllPropertiesFromNode` returns
`[x, p1, ..., pn]`; written with string brackets it returns `x` followed by `n`
times `undefined`, because it reads the `name` of each property and a string
literal has none. -/
theorem property_chain_flattening (x : String) (ps : List String) :
    getAllPropertiesFromNode (dotChain x ps) = some (Val.str x :: ps.map Val.str) ∧
    getAllPropertiesFromNode (qualifiedChain x ps) = some (Val.str x :: ps.map Val.str) ∧
    getAllPropertiesFromNode (bracketChain x ps) =
      some (Val.str x :: ps.map (fun _ => Val.undefined)) := by
  refine ⟨?_, ?_, ?_⟩
  · have hc := collect_dotChain x ps []
    rw [List.append_nil] at hc
    rw [← hc]
    cases ps using List.reverseRecOn with
    | nil => rfl
    | append_singleton ps p =>
      simp [dotChain, List.foldl_append, dotAccess, getAllPropertiesFromNode]
  · cases ps using List.reverseRecOn with
    | nil => rfl
    | append_singleton ps p =>
      have hc := collect_qualifiedChain x (ps ++ [p]) []
      rw [List.append_nil] at hc
      rw [← hc]
      simp [qualifiedChain, List.foldl_append, qualifiedAccess, getAllPropertiesFromNode]
  · have hc := collect_bracketChain x ps []
    rw [List.append_nil] at hc
    rw [← hc]
    cases ps using List.reverseRecOn with
    | nil => rfl
    | append_singleton ps p =>
      simp [bracketChain, List.foldl_append, bracketAccess, getAllPropertiesFromNode]

/-- Witness of C25: the chain of `x`, `y` and `z` written with string brackets,
and the same chain written with dots. -/
theorem property_chain_flattening_witness :
    getAllPropertiesFromNode (bracketChain "x" ["y", "z"]) =
      some [Val.str "x", Val.undefined, Val.undefined] ∧
    getAllPropertiesFromNode (dotChain "x" ["y", "z"]) =
      some [Val.str "x", Val.str "y", Val.str "z"] :=
  ⟨(property_chain_flattening "x" ["y", "z"]).2.2, (property_chain_flattening "x" ["y", "z"]).1⟩

end CodeAnalyser
